import Mathlib

/-!
# sqlhard: the table b-tree engine, its pager and its varint codec

A shallow embedding of `src/utils.h` and of the b-tree part of `src/all.h`.

Conventions of the embedding
* Memory (a page buffer, a payload buffer, the file) is a total map from byte
  index to byte value, `Mem`.  A C++ pointer `bytes + k` is the pair of a `Mem`
  and the index `k`.
* Unsigned machine integers are natural numbers; every place where the source
  truncates (`uint8_t`, `uint16_t`, `uint32_t`, `uint64_t`) carries an explicit
  `% 2^w`.
* A read that runs past the end of the file makes the stream fail; the
  embedding returns `none` there, and also where the source indexes
  `parents[20]` out of bounds or a loop exhausts its fuel.
* Buffers allocated with `new uint8_t[n]` are not initialised by the source;
  their initial content is the field `uninit` of the database state.
-/

namespace SqlHard

/-! ## Memory -/

/-- Byte-addressed memory. -/
abbrev Mem := Nat → Nat

/-- Assignment `bytes[i] = v` of a `uint8_t`. -/
def Mem.store8 (m : Mem) (i v : Nat) : Mem :=
  fun j => if j = i then v % 256 else m j

/-- Library call `std::memcpy(dst + d, src + s, n)`. -/
def memcpy (dst : Mem) (d : Nat) (src : Mem) (s n : Nat) : Mem :=
  fun j => if d ≤ j ∧ j < d + n then src (j - d + s) else dst j

/-- Consecutive byte assignments `bytes[off + k] = l[k]`. -/
def Mem.storeList (m : Mem) (off : Nat) (l : List Nat) : Mem :=
  fun j => if off ≤ j ∧ j < off + l.length then l.getD (j - off) 0 % 256 else m j

/-- Counted loop `for (i = 0; i < n; ++i) s = f i s`. -/
def forLoop {σ : Type} (f : Nat → σ → σ) : Nat → σ → σ
  | 0, s => s
  | k + 1, s => f k (forLoop f k s)

/-! ## utils.h: big-endian integers -/

/-- Value stored by `read_big_endian8` (it returns 1). -/
def read_big_endian8 (bytes : Mem) (off : Nat) : Nat :=
  bytes off % 256

/-- Value stored by `read_big_endian16` (it returns 2). -/
def read_big_endian16 (bytes : Mem) (off : Nat) : Nat :=
  ((bytes off % 256) <<< 8) ||| (bytes (off + 1) % 256)

/-- Value stored by `read_big_endian32` (it returns 4). -/
def read_big_endian32 (bytes : Mem) (off : Nat) : Nat :=
  ((bytes off % 256) <<< 24) ||| ((bytes (off + 1) % 256) <<< 16) |||
    ((bytes (off + 2) % 256) <<< 8) ||| (bytes (off + 3) % 256)

/-- Buffer left by `write_big_endian8` (it returns 1). -/
def write_big_endian8 (v : Nat) (bytes : Mem) (off : Nat) : Mem :=
  bytes.store8 off v

/-- Buffer left by `write_big_endian16` (it returns 2). -/
def write_big_endian16 (v : Nat) (bytes : Mem) (off : Nat) : Mem :=
  (bytes.store8 off ((v >>> 8) &&& 0xFF)).store8 (off + 1) (v &&& 0xFF)

/-- Buffer left by `write_big_endian32` (it returns 4). -/
def write_big_endian32 (v : Nat) (bytes : Mem) (off : Nat) : Mem :=
  (((bytes.store8 off ((v >>> 24) &&& 0xFF)).store8 (off + 1) ((v >>> 16) &&& 0xFF)).store8
    (off + 2) ((v >>> 8) &&& 0xFF)).store8 (off + 3) (v &&& 0xFF)

/-! ## utils.h: varints -/

/-- The `for` loop of `read_varint`:
`for (; (bytes[offset] & 0x80) && offset <= 8; ++offset) { v |= bytes[offset] & 0x7f; v <<= 7; }`.
The state is `(v, offset)`; the loop body runs at most nine times. -/
def read_varint_loop (bytes : Mem) (base : Nat) : Nat → Nat × Nat → Nat × Nat
  | 0, s => s
  | fuel + 1, (v, offset) =>
    if (bytes (base + offset) % 256) &&& 0x80 ≠ 0 ∧ offset ≤ 8 then
      read_varint_loop bytes base fuel
        (((v ||| ((bytes (base + offset) % 256) &&& 0x7f)) <<< 7) % 2 ^ 64, offset + 1)
    else (v, offset)

/-- Function `read_varint(&v, bytes + base)`: the pair `(v, return value)`. -/
def read_varint (bytes : Mem) (base : Nat) : Nat × Nat :=
  let s := read_varint_loop bytes base 10 (0, 0)
  if s.2 = 8 then (s.1 ||| (bytes (base + s.2) % 256), 9)
  else (s.1 ||| ((bytes (base + s.2) % 256) &&& 0x7f), s.2 + 1)

/-- The nine-byte branch of `write_varint`, its loop
`for (i = 7; i >= 0; --i) { bytes[i] = (v & 0x7f) | 0x80; v >>= 7; }`;
the first argument counts the bytes still to write. -/
def write_varint_nine (off : Nat) : Nat → Mem × Nat → Mem × Nat
  | 0, s => s
  | k + 1, (b, v) =>
    write_varint_nine off k (b.store8 (off + k) ((v &&& 0x7f) ||| 0x80), v >>> 7)

/-- The `do ... while (v != 0)` loop of `write_varint`: the list `buf[0], buf[1], ...`. -/
def write_varint_fill : Nat → Nat → List Nat
  | 0, _ => []
  | fuel + 1, v =>
    ((v &&& 0x7f) ||| 0x80) :: (if v >>> 7 ≠ 0 then write_varint_fill fuel (v >>> 7) else [])

/-- Function `write_varint(v, bytes + off)`: the buffer afterwards and the return value. -/
def write_varint (v : Nat) (bytes : Mem) (off : Nat) : Mem × Nat :=
  if v ≤ 0x7f then (bytes.store8 off (v &&& 0x7f), 1)
  else if v ≤ 0x3fff then
    ((bytes.store8 off (((v >>> 7) &&& 0x7f) ||| 0x80)).store8 (off + 1) (v &&& 0x7f), 2)
  else if v &&& (0xff000000 <<< 32) ≠ 0 then
    ((write_varint_nine off 8 (bytes.store8 (off + 8) v, v >>> 8)).1, 9)
  else
    match write_varint_fill 10 v with
    | [] => (bytes, 0)
    | b0 :: rest =>
      (bytes.storeList off (((b0 &&& 0x7f) :: rest).reverse), (b0 :: rest).length)

/-- Function `get_n_bytes_in_varint`. -/
def get_n_bytes_in_varint (v : Nat) : Nat :=
  if v ≤ 0x7f then 1
  else if v ≤ 0x3fff then 2
  else if v ≤ 0x1fffff then 3
  else if v ≤ 0xfffffff then 4
  else if v ≤ 0x7ffffffff then 5
  else if v ≤ 0x3ffffffffff then 6
  else if v ≤ 0x1ffffffffffff then 7
  else if v ≤ 0xfffffffffffffff then 8
  else 9

/-- Function `get_n_bytes_in_varint_plus`; `v + n` is computed in `uint64_t`. -/
def get_n_bytes_in_varint_plus (v : Nat) : Nat :=
  if (v + 1) % 2 ^ 64 ≤ 0x7f then 1
  else if (v + 2) % 2 ^ 64 ≤ 0x3fff then 2
  else if (v + 3) % 2 ^ 64 ≤ 0x1fffff then 3
  else if (v + 4) % 2 ^ 64 ≤ 0xfffffff then 4
  else if (v + 5) % 2 ^ 64 ≤ 0x7ffffffff then 5
  else if (v + 6) % 2 ^ 64 ≤ 0x3ffffffffff then 6
  else if (v + 7) % 2 ^ 64 ≤ 0x1ffffffffffff then 7
  else if (v + 8) % 2 ^ 64 ≤ 0xfffffffffffffff then 8
  else 9

/-! ## all.h: types -/

/-- Enumeration `BTreePageType`. -/
inductive BTreePageType
  | InteriorIndexBTreePage
  | InteriorTableBTreePage
  | LeafIndexBTreePage
  | LeafTableBTreePage
  | Invalid
  deriving DecidableEq, Repr, Inhabited

/-- Cast `static_cast<uint8_t>(page_type)`. -/
def BTreePageType.toByte : BTreePageType → Nat
  | .InteriorIndexBTreePage => 0x02
  | .InteriorTableBTreePage => 0x05
  | .LeafIndexBTreePage => 0x0a
  | .LeafTableBTreePage => 0x0d
  | .Invalid => 0x00

/-- Test `page_type == InteriorIndexBTreePage || page_type == InteriorTableBTreePage`. -/
def BTreePageType.isInterior : BTreePageType → Bool
  | .InteriorIndexBTreePage => true
  | .InteriorTableBTreePage => true
  | _ => false

/-- Enumeration `ReturnCodes`. -/
inductive ReturnCodes
  | CellFound
  | CellNotFound
  | CellInserted
  | NotEnoughSpaceToInsert
  | RowidAlreadyInDatabase
  | BadSearch
  | NotImplemented
  | EverythingWrong
  deriving DecidableEq, Repr, Inhabited

/-- Struct `BTreePage::Header`. -/
structure PageHeader where
  page_type : BTreePageType
  first_free_block : Nat
  num_of_cells : Nat
  start_of_cell_content_area : Nat
  num_of_fragmented_free_bytes_in_cell_content : Nat
  right_most_pointer : Nat
  deriving Inhabited

/-- Struct `BTreePage` without its `db` pointer, which the functions below take
as an argument. -/
structure BTreePage where
  header : PageHeader
  is_first_page : Bool
  bytes : Mem
  deriving Inhabited

/-- Struct `Payload`. -/
structure Payload where
  P : Nat
  bytes : Mem
  rowid : Nat
  deriving Inhabited

/-- Struct `DB`: the file (`file`, `file_size`), the header fields the b-tree
engine uses, and the content of memory the source leaves uninitialised
(`uninit` for `new uint8_t[n]`, `uninit8` for an unset `uint8_t` member). -/
structure DB where
  file : Mem
  file_size : Nat
  page_size : Nat
  unused_reserved_space : Nat
  database_size_in_pages : Nat
  uninit : Mem
  uninit8 : Nat
  deriving Inhabited

/-! ## all.h: pager -/

/-- Function `DB::get_page_size`. -/
def DB.get_page_size (db : DB) : Nat := db.page_size

/-- Function `DB::get_U`; the difference is truncated to `uint16_t`. -/
def DB.get_U (db : DB) : Nat :=
  (db.get_page_size + 65536 - db.unused_reserved_space % 65536) % 65536

/-- Function `DB::compute_database_size_in_pages`:
`static_cast<uint32_t>(file_size) / get_page_size()`. -/
def DB.compute_database_size_in_pages (db : DB) : Nat :=
  (db.file_size % 2 ^ 32) / db.get_page_size

/-- File offset `(pg_n - 1) * get_page_size()`, computed in 32-bit unsigned arithmetic. -/
def DB.page_offset (db : DB) (pg_n : Nat) : Nat :=
  (((pg_n + 2 ^ 32 - 1) % 2 ^ 32) * db.get_page_size) % 2 ^ 32

/-- Stream operation `seekp(off); write(src + s, n)` on the file: the bytes land
at `off`, a gap between the old end of file and `off` reads as zero, and the
file grows to `off + n` if it was shorter. -/
def DB.file_write (db : DB) (off : Nat) (src : Mem) (s n : Nat) : DB :=
  { db with
    file := fun j =>
      if off ≤ j ∧ j < off + n then src (j - off + s)
      else if db.file_size ≤ j ∧ j < off then 0
      else db.file j
    file_size := max db.file_size (off + n) }

/-- Function `DB::write`: the page goes to offset `(pg_n - 1) * page_size`, then
`header.database_size_in_pages` is written big-endian at offset 28. -/
def DB.write (db : DB) (pg_n : Nat) (bytes : Mem) : DB :=
  let db1 := db.file_write (db.page_offset pg_n) bytes 0 db.get_page_size
  db1.file_write 28 (write_big_endian32 db.database_size_in_pages (fun _ => 0) 0) 0 4

/-- Stream operation `seekg(off); read(dst + d, n)`: `none` when fewer than `n`
bytes are left in the file. -/
def DB.file_read (db : DB) (off : Nat) (dst : Mem) (d n : Nat) : Option Mem :=
  if off + n ≤ db.file_size then some (memcpy dst d db.file off n) else none

/-! ## all.h: page accessors -/

/-- Function `BTreePage::get_page_type`. -/
def get_page_type (page_type : Nat) : BTreePageType :=
  if page_type = 0x02 then .InteriorIndexBTreePage
  else if page_type = 0x05 then .InteriorTableBTreePage
  else if page_type = 0x0a then .LeafIndexBTreePage
  else if page_type = 0x0d then .LeafTableBTreePage
  else .Invalid

/-- Function `BTreePage::get_header_size`. -/
def BTreePage.get_header_size (pg : BTreePage) : Nat :=
  (if pg.header.page_type.isInterior then 12 else 8) + (if pg.is_first_page then 100 else 0)

/-- Function `BTreePage::get_cell_content_offset`. -/
def BTreePage.get_cell_content_offset (pg : BTreePage) (idx : Nat) : Nat :=
  read_big_endian16 pg.bytes (pg.get_header_size + 2 * idx)

/-- Function `BTreePage::write_cell_content_offset`. -/
def BTreePage.write_cell_content_offset (pg : BTreePage) (idx cell_content_offset : Nat) :
    BTreePage :=
  { pg with bytes := write_big_endian16 cell_content_offset pg.bytes (pg.get_header_size + 2 * idx) }

/-- Function `BTreePage::min_payload`: `((U - 12) * 32 / 255) - 23` in `int`
(division truncating toward zero), truncated to `uint16_t`. -/
def BTreePage.min_payload (_pg : BTreePage) (db : DB) : Nat :=
  let U := db.get_U
  if 12 ≤ U then ((U - 12) * 32 / 255 + 65536 - 23) % 65536
  else (65536 - 23 - (12 - U) * 32 / 255) % 65536

/-- Function `BTreePage::max_payload`.  For a page of type `Invalid` the source
returns an uninitialised local; no path below calls it on such a page. -/
def BTreePage.max_payload (pg : BTreePage) (db : DB) : Nat :=
  let U := db.get_U
  match pg.header.page_type with
  | .LeafTableBTreePage => (U + 65536 - 35) % 65536
  | .InteriorTableBTreePage => (U + 65536 - 35) % 65536
  | .InteriorIndexBTreePage =>
    if 12 ≤ U then ((U - 12) * 64 / 255 + 65536 - 23) % 65536
    else (65536 - 23 - (12 - U) * 64 / 255) % 65536
  | .LeafIndexBTreePage =>
    if 12 ≤ U then ((U - 12) * 64 / 255 + 65536 - 23) % 65536
    else (65536 - 23 - (12 - U) * 64 / 255) % 65536
  | .Invalid => db.uninit8

/-- Function `BTreePage::compute_free_space`; the `int` difference is truncated
to `uint16_t`. -/
def BTreePage.compute_free_space (pg : BTreePage) : Nat :=
  (pg.header.start_of_cell_content_area + 3 * 65536 -
    (2 * pg.header.num_of_cells + pg.get_header_size)) % 65536

/-- Function `BTreePage::compute_directly_stored_payload_size`.  `P - M` and
`U - 4` are `uint64_t` values, `K` and the result are `uint16_t`. -/
def BTreePage.compute_directly_stored_payload_size (pg : BTreePage) (db : DB) (P : Nat) : Nat :=
  let U := db.get_U
  let M := pg.min_payload db
  let X := pg.max_payload db
  let K := ((M + ((P + 2 ^ 64 - M) % 2 ^ 64) % ((U + 2 ^ 64 - 4) % 2 ^ 64)) % 2 ^ 64) % 65536
  if P ≤ X then P % 65536
  else if K ≤ X then K
  else M

/-- Function `BTreePage::get_right_most_pointer`. -/
def BTreePage.get_right_most_pointer (pg : BTreePage) : Nat := pg.header.right_most_pointer

/-- Function `BTreePage::get_cell_rowid`; `offset` is a `uint16_t`. -/
def BTreePage.get_cell_rowid (pg : BTreePage) (offset : Nat) : Nat :=
  match pg.header.page_type with
  | .InteriorTableBTreePage => (read_varint pg.bytes ((offset + 4) % 65536)).1
  | .LeafTableBTreePage =>
    (read_varint pg.bytes ((offset + (read_varint pg.bytes offset).2) % 65536)).1
  | _ => 0

/-- Function `BTreePage::get_cell_left_child_pointer`. -/
def BTreePage.get_cell_left_child_pointer (pg : BTreePage) (offset : Nat) : Nat :=
  match pg.header.page_type with
  | .InteriorTableBTreePage => read_big_endian32 pg.bytes offset
  | _ => 0

/-- Function `BTreePage::get_cell_payload_size`. -/
def BTreePage.get_cell_payload_size (pg : BTreePage) (offset : Nat) : Nat :=
  match pg.header.page_type with
  | .LeafTableBTreePage => (read_varint pg.bytes offset).1
  | _ => 0

/-- The loop of `BTreePage::shift_cell_offsets_array`:
`for (int i = num_of_cells - 1; i > idx; --i) write_cell_content_offset(i, get_cell_content_offset(i - 1))`;
the second argument counts the iterations left, the current `i` is `idx + k + 1`. -/
def BTreePage.shift_loop (idx : Nat) : Nat → BTreePage → BTreePage
  | 0, pg => pg
  | k + 1, pg =>
    BTreePage.shift_loop idx k
      (pg.write_cell_content_offset (idx + k + 1) (pg.get_cell_content_offset (idx + k)))

/-- Function `BTreePage::shift_cell_offsets_array`. -/
def BTreePage.shift_cell_offsets_array (pg : BTreePage) (idx : Nat) : BTreePage :=
  BTreePage.shift_loop idx (pg.header.num_of_cells - 1 - idx) pg

/-- Function `BTreePage::compare_rowid`. -/
def BTreePage.compare_rowid (pg : BTreePage) (idx id : Nat) : Bool :=
  decide (id > pg.get_cell_rowid (pg.get_cell_content_offset idx))

/-- The `while (left < right)` loop of `BTreePage::lower_bound`; every iteration
shrinks `right - left`, so `num_of_cells` iterations are enough. -/
def BTreePage.lower_bound_loop (pg : BTreePage) (id : Nat) : Nat → Nat → Nat → Nat
  | 0, left, _ => left
  | fuel + 1, left, right =>
    if left < right then
      let mid := (right + left) / 2
      if pg.compare_rowid mid id then BTreePage.lower_bound_loop pg id fuel (mid + 1) right
      else BTreePage.lower_bound_loop pg id fuel left mid
    else left

/-- Function `BTreePage::lower_bound`. -/
def BTreePage.lower_bound (pg : BTreePage) (id : Nat) : Nat :=
  pg.lower_bound_loop id pg.header.num_of_cells 0 pg.header.num_of_cells

/-- Function `BTreePage::compute_cell_size`; `cell_size` is a `uint16_t`. -/
def BTreePage.compute_cell_size (pg : BTreePage) (db : DB) (id P : Nat) : Nat :=
  let t := pg.header.page_type
  let c1 := if t = .InteriorTableBTreePage ∨ t = .InteriorIndexBTreePage then 4 else 0
  let c2 :=
    if t = .LeafTableBTreePage ∨ t = .LeafIndexBTreePage ∨ t = .InteriorIndexBTreePage then
      let c := (c1 + get_n_bytes_in_varint P) % 65536
      let directly_stored_payload := pg.compute_directly_stored_payload_size db P
      let c := (c + directly_stored_payload) % 65536
      if directly_stored_payload < P then (c + 4) % 65536 else c
    else c1
  if t = .LeafTableBTreePage ∨ t = .InteriorTableBTreePage then
    (c2 + get_n_bytes_in_varint id) % 65536
  else c2

/-- Function `BTreePage::write_header`. -/
def BTreePage.write_header (pg : BTreePage) : BTreePage :=
  let o := if pg.is_first_page then 100 else 0
  let b := write_big_endian8 pg.header.page_type.toByte pg.bytes o
  let b := write_big_endian16 pg.header.first_free_block b (o + 1)
  let b := write_big_endian16 pg.header.num_of_cells b (o + 3)
  let b := write_big_endian16 pg.header.start_of_cell_content_area b (o + 5)
  let b := write_big_endian8 pg.header.num_of_fragmented_free_bytes_in_cell_content b (o + 7)
  let b := if pg.header.page_type.isInterior then
      write_big_endian32 pg.header.right_most_pointer b (o + 8) else b
  { pg with bytes := b }

/-- Header parsing shared by `BTreePage::BTreePage(DB*, uint32_t)` and
`BTreePage::recreate(uint32_t)`: the header starts at offset 100 when
`pg_n == 1` and at offset 0 otherwise. -/
def parse_header (bytes : Mem) (pg_n : Nat) : PageHeader :=
  let o := if pg_n = 1 then 100 else 0
  let t := get_page_type (read_big_endian8 bytes o)
  { page_type := t
    first_free_block := read_big_endian16 bytes (o + 1)
    num_of_cells := read_big_endian16 bytes (o + 3)
    start_of_cell_content_area := read_big_endian16 bytes (o + 5)
    num_of_fragmented_free_bytes_in_cell_content := read_big_endian8 bytes (o + 7)
    right_most_pointer := if t.isInterior then read_big_endian32 bytes (o + 8) else 0 }

/-- Stream operation `seekg((pg_n - 1) * page_size); read(bytes, page_size)` into a
page buffer: `none` when the page does not lie inside the file.  The buffer
holds `page_size` bytes; an index past its end is outside the buffer, and the
embedding gives such an index the content of uninitialised memory. -/
def DB.read_page (db : DB) (pg_n : Nat) : Option Mem :=
  if db.page_offset pg_n + db.get_page_size ≤ db.file_size then
    some (fun j => if j < db.get_page_size then db.file (db.page_offset pg_n + j) else db.uninit j)
  else none

/-- Function `BTreePage::recreate(uint32_t pg_n)`: the buffer is refilled from the
file; `is_first_page` is set when `pg_n == 1` and is never cleared. -/
def BTreePage.recreate_page (pg : BTreePage) (db : DB) (pg_n : Nat) : Option BTreePage :=
  match db.read_page pg_n with
  | none => none
  | some b =>
    some { header := parse_header b pg_n
           is_first_page := if pg_n = 1 then true else pg.is_first_page
           bytes := b }

/-- Constructor `BTreePage(DB* db, uint32_t pg_n)`. -/
def BTreePage.load (db : DB) (pg_n : Nat) : Option BTreePage :=
  match db.read_page pg_n with
  | none => none
  | some b =>
    some { header := parse_header b pg_n
           is_first_page := if pg_n = 1 then true else false
           bytes := b }

/-- Constructor `BTreePage(DB* db, BTreePageType page_type)`; it leaves
`num_of_fragmented_free_bytes_in_cell_content` and the buffer unset. -/
def BTreePage.fresh (db : DB) (page_type : BTreePageType) : BTreePage :=
  { header :=
      { page_type := page_type
        first_free_block := 0
        num_of_cells := 0
        start_of_cell_content_area := db.get_U
        num_of_fragmented_free_bytes_in_cell_content := db.uninit8
        right_most_pointer := 0 }
    is_first_page := false
    bytes := db.uninit }

/-- Function `BTreePage::recreate(BTreePageType page_type)`; the buffer and
`is_first_page` are kept. -/
def BTreePage.recreate_type (pg : BTreePage) (db : DB) (page_type : BTreePageType) : BTreePage :=
  { pg with
    header :=
      { page_type := page_type
        first_free_block := 0
        num_of_cells := 0
        start_of_cell_content_area := db.get_U
        num_of_fragmented_free_bytes_in_cell_content := 0
        right_most_pointer := 0 } }

/-! ## all.h: local insert -/

/-- The part of `insert_interior_cell` and `insert_leaf_cell` between the space
check and the cell body: the header fields are updated, the pointer array is
shifted, the slot and the header are written.  The new cell offset is the new
`start_of_cell_content_area`. -/
def BTreePage.open_slot (pg : BTreePage) (cell_offsets_idx cell_size : Nat) : BTreePage :=
  let offset := (pg.header.start_of_cell_content_area + 65536 - cell_size) % 65536
  let pg1 : BTreePage :=
    { pg with
      header :=
        { pg.header with
          start_of_cell_content_area := offset
          num_of_cells := (pg.header.num_of_cells + 1) % 65536 } }
  let pg2 := pg1.shift_cell_offsets_array cell_offsets_idx
  let pg3 := pg2.write_cell_content_offset cell_offsets_idx offset
  pg3.write_header

/-- Function `BTreePage::insert_interior_cell(id, cell_offsets_idx, left_child_pointer)`. -/
def BTreePage.insert_interior_cell (pg : BTreePage) (db : DB)
    (id cell_offsets_idx left_child_pointer : Nat) : ReturnCodes × BTreePage :=
  let cell_size := pg.compute_cell_size db id 0
  if cell_size > pg.compute_free_space then (.NotEnoughSpaceToInsert, pg)
  else
    let pg4 := pg.open_slot cell_offsets_idx cell_size
    let offset := pg4.header.start_of_cell_content_area
    let b := write_big_endian32 left_child_pointer pg4.bytes offset
    let offset := (offset + 4) % 65536
    (.CellInserted, { pg4 with bytes := (write_varint id b offset).1 })

/-- The `for` loop of `insert_leaf_cell` over the overflow pages but the last:
iteration `k` handles page `first_overflow_page + k`.  The state is the
overflow buffer and the database. -/
def overflow_step (payload : Payload) (directly_stored_payload first_overflow_page : Nat)
    (k : Nat) (s : Mem × DB) : Mem × DB :=
  let db := s.2
  let ovflw_pg_n := first_overflow_page + k
  let src := directly_stored_payload +
    (((db.get_U + 2 ^ 32 - 4) % 2 ^ 32) * ((ovflw_pg_n + 2 ^ 32 - first_overflow_page) % 2 ^ 32))
      % 2 ^ 32
  let buf := memcpy s.1 4 payload.bytes src (db.get_U - 4)
  let buf := write_big_endian32 ((ovflw_pg_n + 1) % 2 ^ 32) buf 0
  (buf, db.write ovflw_pg_n buf)

/-- Number of overflow pages computed by `insert_leaf_cell` (a `uint32_t`). -/
def n_overflow_pages (db : DB) (P directly_stored_payload : Nat) : Nat :=
  let d := (db.get_U + 2 ^ 64 - 4) % 2 ^ 64
  let n := ((P - directly_stored_payload) / d) % 2 ^ 32
  if (P - directly_stored_payload) % d ≠ 0 then (n + 1) % 2 ^ 32 else n

/-- The second `if (directly_stored_payload < payload->P)` block of
`insert_leaf_cell`: the overflow chain is written to the file. -/
def write_overflow_chain (db : DB) (payload : Payload)
    (directly_stored_payload first_overflow_page : Nat) : DB :=
  let n := n_overflow_pages db payload.P directly_stored_payload
  let db1 : DB := { db with database_size_in_pages := (db.database_size_in_pages + n) % 2 ^ 32 }
  let bound := (first_overflow_page + n + 2 ^ 32 - 1) % 2 ^ 32
  let s := forLoop (overflow_step payload directly_stored_payload first_overflow_page)
    (bound - first_overflow_page) (db.uninit, db1)
  let db2 := s.2
  let d := (db.get_U + 2 ^ 64 - 4) % 2 ^ 64
  let r := (payload.P - directly_stored_payload) % d
  let last_ovflw_pg_size := (if r = 0 then db.get_U + 65536 - 4 else r) % 65536
  let src := directly_stored_payload +
    (((db.get_U + 2 ^ 32 - 4) % 2 ^ 32) * ((n + 2 ^ 32 - 1) % 2 ^ 32)) % 2 ^ 32
  let buf := memcpy s.1 4 payload.bytes src last_ovflw_pg_size
  let buf := write_big_endian32 0 buf 0
  db2.write ((first_overflow_page + n + 2 ^ 32 - 1) % 2 ^ 32) buf

/-- Function `BTreePage::insert_leaf_cell(id, cell_offsets_idx, payload)`: the
return code, the page and the database afterwards. -/
def BTreePage.insert_leaf_cell (pg : BTreePage) (db : DB) (id cell_offsets_idx : Nat)
    (payload : Payload) : ReturnCodes × BTreePage × DB :=
  let directly_stored_payload := pg.compute_directly_stored_payload_size db payload.P
  let cell_size := pg.compute_cell_size db id payload.P
  if cell_size > pg.compute_free_space then (.NotEnoughSpaceToInsert, pg, db)
  else
    let pg4 := pg.open_slot cell_offsets_idx cell_size
    let offset := pg4.header.start_of_cell_content_area
    let w1 := write_varint payload.P pg4.bytes offset
    let offset := (offset + w1.2) % 65536
    let w2 := write_varint id w1.1 offset
    let offset := (offset + w2.2) % 65536
    let b := memcpy w2.1 offset payload.bytes 0 directly_stored_payload
    let offset := (offset + directly_stored_payload) % 65536
    if directly_stored_payload < payload.P then
      let first_overflow_page := (db.compute_database_size_in_pages + 1) % 2 ^ 32
      let b := write_big_endian32 first_overflow_page b offset
      (.CellInserted, { pg4 with bytes := b },
        write_overflow_chain db payload directly_stored_payload first_overflow_page)
    else (.CellInserted, { pg4 with bytes := b }, db)

/-! ## all.h: split index -/

/-- Assignment `a[i] = v` into an array of `uint16_t`. -/
def arr_set (a : Nat → Nat) (i v : Nat) : Nat → Nat :=
  fun j => if j = i then v % 65536 else a j

/-- The scratch arrays of `DB::insert` together with the running sum `s` of
`get_split_index`. -/
structure SplitArrays where
  s : Nat
  sums : Nat → Nat
  cell_sizes : Nat → Nat
  cell_content_offsets : Nat → Nat

/-- Body of the first loop of `BTreePage::get_split_index`. -/
def BTreePage.split_fill_step (pg : BTreePage) (db : DB) (idx : Nat) (i : Nat)
    (a : SplitArrays) : SplitArrays :=
  let cell_content_offset := pg.get_cell_content_offset i
  let cell_payload_size := pg.get_cell_payload_size cell_content_offset
  let cell_rowid := pg.get_cell_rowid cell_content_offset
  let cell_size := pg.compute_cell_size db cell_rowid cell_payload_size
  let a1 : SplitArrays :=
    if i = idx then
      let s := (a.s + a.cell_sizes i) % 65536
      { a with s := s, sums := arr_set a.sums i s }
    else a
  let j := i + (if i ≥ idx then 1 else 0)
  let s := (a1.s + cell_size) % 65536
  { s := s
    sums := arr_set a1.sums j s
    cell_sizes := arr_set a1.cell_sizes j cell_size
    cell_content_offsets := arr_set a1.cell_content_offsets j cell_content_offset }

/-- Body of the second loop of `BTreePage::get_split_index`; the state is
`(min_diff, split_idx)` and `abs` is taken in `int`. -/
def split_choose_step (S : Nat) (sums : Nat → Nat) (i : Nat) (st : Nat × Nat) : Nat × Nat :=
  let diff := (Int.natAbs (((S : Int) - (sums i : Int)) - (sums i : Int))) % 65536
  if diff < st.1 then (diff, i) else st

/-- Function `BTreePage::get_split_index`: the split index and the arrays it
filled.  The arrays come in with `cell_sizes[idx]` already set by the caller. -/
def BTreePage.get_split_index (pg : BTreePage) (db : DB) (idx : Nat) (a : SplitArrays) :
    Nat × SplitArrays :=
  let n := pg.header.num_of_cells
  let a1 := forLoop (pg.split_fill_step db idx) n { a with s := 0 }
  let a2 : SplitArrays :=
    if idx = n then
      let s := (a1.s + a1.cell_sizes idx) % 65536
      { a1 with s := s, sums := arr_set a1.sums idx s }
    else a1
  let S := a2.sums n
  ((forLoop (split_choose_step S a2.sums) (n + 1) (S, 0)).2, a2)

/-! ## all.h: reading a cell -/

/-- The `while (first_overflow_page != 0)` loop of `BTreePage::read_cell`; the
state is the payload buffer, the `uint16_t offset` into it and the page to
read next.  `none` when a read runs past the end of the file or the fuel is
used up. -/
def read_overflow_loop (db : DB) (num_payload_bytes num_payload_bytes_in_page : Nat) :
    Nat → Mem → Nat → Nat → Option Mem
  | 0, _, _, _ => none
  | fuel + 1, pbytes, offset, first_overflow_page =>
    if first_overflow_page = 0 then some pbytes
    else
      let pos := (db.get_page_size * ((first_overflow_page + 2 ^ 32 - 1) % 2 ^ 32)) % 2 ^ 32
      match db.file_read pos (fun _ => 0) 0 4 with
      | none => none
      | some buffer =>
        let next := read_big_endian32 buffer 0
        let d := (db.get_U + 2 ^ 64 - 4) % 2 ^ 64
        let r := ((num_payload_bytes + 2 ^ 64 - num_payload_bytes_in_page) % 2 ^ 64) % d
        let bytes_to_read := if next = 0 ∧ r ≠ 0 then r else d
        match db.file_read (pos + 4) pbytes offset bytes_to_read with
        | none => none
        | some pbytes1 =>
          read_overflow_loop db num_payload_bytes num_payload_bytes_in_page fuel pbytes1
            ((offset + bytes_to_read) % 65536) next

/-- Function `BTreePage::read_cell` on a leaf table page (the only page type for
which it does anything): the payload it leaves in `*p`. -/
def BTreePage.read_cell (pg : BTreePage) (db : DB) (fuel : Nat) (offset : Nat) (p : Payload) :
    Option Payload :=
  match pg.header.page_type with
  | .LeafTableBTreePage =>
    let r1 := read_varint pg.bytes offset
    let num_payload_bytes := r1.1
    let offset := (offset + r1.2) % 65536
    let r2 := read_varint pg.bytes offset
    let rowid := r2.1
    let offset := (offset + r2.2) % 65536
    let num_payload_bytes_in_page := pg.compute_directly_stored_payload_size db num_payload_bytes
    let pbytes := memcpy db.uninit 0 pg.bytes offset num_payload_bytes_in_page
    if num_payload_bytes = num_payload_bytes_in_page then
      some { P := num_payload_bytes, bytes := pbytes, rowid := rowid }
    else
      let first_overflow_page := read_big_endian32 pg.bytes (offset + num_payload_bytes_in_page)
      match read_overflow_loop db num_payload_bytes num_payload_bytes_in_page fuel pbytes
          num_payload_bytes_in_page first_overflow_page with
      | none => none
      | some b => some { P := num_payload_bytes, bytes := b, rowid := rowid }
  | _ => some p

/-! ## all.h: point lookup -/

/-- Child chosen on an interior page by `DB::find` and `DB::insert`. -/
def BTreePage.child_for (pg : BTreePage) (id : Nat) : Nat :=
  let idx := pg.lower_bound id
  if idx ≠ pg.header.num_of_cells then
    pg.get_cell_left_child_pointer (pg.get_cell_content_offset idx)
  else pg.get_right_most_pointer

/-- The descent loop of `DB::find`,
`while (current_page.header.page_type != LeafTableBTreePage)`. -/
def DB.find_descend (db : DB) (id : Nat) : Nat → BTreePage → Option BTreePage
  | 0, _ => none
  | fuel + 1, current_page =>
    if current_page.header.page_type = .LeafTableBTreePage then some current_page
    else
      match current_page.recreate_page db (current_page.child_for id) with
      | none => none
      | some next => DB.find_descend db id fuel next

/-- Function `DB::find(root_pg_n, id, p)`: the return code and the payload left
in `*p`.  `fuel` bounds the iterations of each loop. -/
def DB.find (db : DB) (fuel : Nat) (root_pg_n id : Nat) (p : Payload) :
    Option (ReturnCodes × Payload) :=
  match BTreePage.load db root_pg_n with
  | none => none
  | some root =>
    match db.find_descend id fuel root with
    | none => none
    | some current_page =>
      let idx := current_page.lower_bound id
      if idx = current_page.header.num_of_cells then some (.CellNotFound, p)
      else
        let cell_content_offset := current_page.get_cell_content_offset idx
        let rowid := current_page.get_cell_rowid cell_content_offset
        if rowid ≠ id then some (.CellNotFound, p)
        else
          match current_page.read_cell db fuel cell_content_offset p with
          | none => none
          | some q => some (.CellFound, q)

/-! ## all.h: insert -/

/-- Function `DB::check_split_is_enough`, in `int` arithmetic. -/
def DB.check_split_is_enough (db : DB) (split_idx num_of_cells : Nat) (sums : Nat → Nat) : Bool :=
  decide ((sums split_idx : Int) + 8 + 2 * ((split_idx : Int) + 1) < (db.get_U : Int)) &&
  decide ((sums num_of_cells : Int) - (sums split_idx : Int) + 8 +
      2 * ((num_of_cells : Int) - (split_idx : Int) - 1) < (db.get_U : Int))

/-- The descent loop of `DB::insert`.  `parents` is the stack of page numbers,
the last pushed first; pushing a 21st entry would write `parents[20]` out of
bounds, for which the result is `none`.  The result is the leaf page object,
its page number and the stack. -/
def DB.insert_descend (db : DB) (id : Nat) :
    Nat → BTreePage → Nat → List Nat → Option (BTreePage × Nat × List Nat)
  | 0, _, _, _ => none
  | fuel + 1, current_page, current_pg_n, parents =>
    if current_page.header.page_type = .LeafTableBTreePage then
      some (current_page, current_pg_n, parents)
    else if 20 ≤ parents.length then none
    else
      let next := current_page.child_for id
      match current_page.recreate_page db next with
      | none => none
      | some pg => DB.insert_descend db id fuel pg next (current_pg_n :: parents)

/-- State of the loops of `DB::insert` that fill one half page of a leaf split:
whether `return EverythingWrong` was taken, the page being filled and the
database. -/
structure HalfState where
  wrong : Bool
  page : BTreePage
  db : DB

/-- The `else` branch of those loops: cell `i` of the virtual sequence is
copied from `current_page` with `memcpy`. -/
def copy_cell (current_page : BTreePage) (a : SplitArrays) (i : Nat) (pg : BTreePage) :
    BTreePage :=
  let cell_content_offset := (pg.header.start_of_cell_content_area + 65536 - a.cell_sizes i) % 65536
  let pg1 : BTreePage :=
    { pg with
      header :=
        { pg.header with
          start_of_cell_content_area := cell_content_offset
          num_of_cells := (pg.header.num_of_cells + 1) % 65536 } }
  let pg2 := pg1.write_cell_content_offset ((pg1.header.num_of_cells + 65535) % 65536)
    cell_content_offset
  { pg2 with
    bytes := memcpy pg2.bytes cell_content_offset current_page.bytes (a.cell_content_offsets i)
      (a.cell_sizes i) }

/-- Body of the loops at lines 717-730, 741-754 and 780-793 of `DB::insert`,
for the virtual cell `i`.  `append` tells the right-half loop, which inserts
the new cell at slot `num_of_cells`, from the left-half loops, which insert it
at slot `idx`. -/
def half_step (current_page : BTreePage) (a : SplitArrays) (id idx : Nat) (payload : Payload)
    (append : Bool) (i : Nat) (st : HalfState) : HalfState :=
  if st.wrong then st
  else if i = idx then
    let r := st.page.insert_leaf_cell st.db id
      (if append then st.page.header.num_of_cells else idx) payload
    if r.1 ≠ .CellInserted then { st with wrong := true }
    else { wrong := false, page := r.2.1, db := r.2.2 }
  else { st with page := copy_cell current_page a i st.page }

/-- Rewriting of the root as an interior page with one cell, lines 763-774 and
892-901 of `DB::insert`: the page buffer that is written to `current_pg_n`. -/
def root_as_interior (db : DB) (current_page : BTreePage)
    (split_rowid left_pointer right_pointer : Nat) : BTreePage :=
  let pg := current_page.recreate_type db .InteriorTableBTreePage
  let pg : BTreePage :=
    { pg with
      header :=
        { pg.header with
          num_of_cells := 1
          start_of_cell_content_area :=
            (pg.header.start_of_cell_content_area + 65536 -
              pg.compute_cell_size db split_rowid 0) % 65536
          right_most_pointer := right_pointer } }
  let pg := pg.write_header
  let offset := pg.header.start_of_cell_content_area
  let b := write_big_endian16 offset pg.bytes pg.get_header_size
  let b := write_big_endian32 left_pointer b offset
  let offset := (offset + 4) % 65536
  { pg with bytes := (write_varint split_rowid b offset).1 }

/-- Body of the loops at lines 829-839, 851-861 and 877-887 of `DB::insert`.
The source calls `insert_interior_cell(i, rowid, left_child)` although the
parameters are `(id, cell_offsets_idx, left_child_pointer)`; the embedding
passes the arguments in the positions the source passes them, the second
truncated to `uint16_t`.  The return code is ignored by the source. -/
def interior_half_step (db : DB) (current_page : BTreePage) (id idx left_child_pointer : Nat)
    (i : Nat) (new_page : BTreePage) : BTreePage :=
  if i < idx then
    let cell_content_offset := current_page.get_cell_content_offset i
    (new_page.insert_interior_cell db i
      (current_page.get_cell_rowid cell_content_offset % 65536)
      (current_page.get_cell_left_child_pointer cell_content_offset)).2
  else if i = idx then
    (new_page.insert_interior_cell db i (id % 65536) left_child_pointer).2
  else
    let cell_content_offset := current_page.get_cell_content_offset (i - 1)
    (new_page.insert_interior_cell db i
      (current_page.get_cell_rowid cell_content_offset % 65536)
      (current_page.get_cell_left_child_pointer cell_content_offset)).2

/-- Lines 869-903 of `DB::insert` ("need new root"): the root page overflowed. -/
def DB.insert_new_root (db : DB) (current_page new_page : BTreePage)
    (current_pg_n id idx left_child_pointer split_idx split_rowid right_most_pointer : Nat) :
    ReturnCodes × DB :=
  let left_pointer := (db.compute_database_size_in_pages + 1) % 2 ^ 32
  let right_pointer := (db.compute_database_size_in_pages + 2) % 2 ^ 32
  let db1 : DB := { db with database_size_in_pages := (db.database_size_in_pages + 2) % 2 ^ 32 }
  let db2 := db1.write right_pointer new_page.bytes
  let np := new_page.recreate_type db .InteriorTableBTreePage
  let np : BTreePage := { np with header := { np.header with right_most_pointer := right_most_pointer } }
  let np := forLoop (interior_half_step db current_page id idx left_child_pointer) split_idx np
  let np := np.write_header
  let db3 := db2.write left_pointer np.bytes
  let root := root_as_interior db current_page split_rowid left_pointer right_pointer
  (.CellInserted, db3.write current_pg_n root.bytes)

/-- The loop `while (current_pg_n != root_pg_n)` of `DB::insert`, lines 801-867,
followed by lines 869-903.  The first argument is the stack of parents; every
iteration pops one entry.  `split_rowid` and `left_child_pointer` are the key
and the left child to insert into the popped parent. -/
def DB.insert_up (root_pg_n : Nat) :
    List Nat → DB → BTreePage → BTreePage → Nat → Nat → Option (ReturnCodes × DB)
  | [], _, _, _, _, _ => none
  | current_pg_n :: parents, db, current_page, new_page, split_rowid, left_child_pointer =>
    let id := split_rowid
    match current_page.recreate_page db current_pg_n with
    | none => none
    | some current_page =>
      let idx := current_page.lower_bound id
      let r := current_page.insert_interior_cell db id idx left_child_pointer
      if r.1 = .CellInserted then some (.CellInserted, db.write current_pg_n r.2.bytes)
      else
        let split_idx := current_page.header.num_of_cells / 2
        let sel := if split_idx < idx then some split_idx
          else if split_idx = idx then none
          else some ((split_idx + 65535) % 65536)
        let split_rowid := match sel with
          | some j => current_page.get_cell_rowid (current_page.get_cell_content_offset j)
          | none => id
        let right_most_pointer := match sel with
          | some j => current_page.get_cell_left_child_pointer (current_page.get_cell_content_offset j)
          | none => left_child_pointer
        let np := new_page.recreate_type db .InteriorTableBTreePage
        let np := forLoop
          (fun k => interior_half_step db current_page id idx left_child_pointer (split_idx + 1 + k))
          (current_page.header.num_of_cells + 1 - (split_idx + 1)) np
        let np := np.write_header
        if current_pg_n = root_pg_n then
          some (db.insert_new_root current_page np current_pg_n id idx left_child_pointer
            split_idx split_rowid right_most_pointer)
        else
          let db1 := db.write current_pg_n np.bytes
          let np := np.recreate_type db .InteriorTableBTreePage
          let np : BTreePage :=
            { np with header := { np.header with right_most_pointer := right_most_pointer } }
          let np := forLoop (interior_half_step db current_page id idx left_child_pointer)
            split_idx np
          let np := np.write_header
          let left_child_pointer := (db1.compute_database_size_in_pages + 1) % 2 ^ 32
          let db2 : DB :=
            { db1 with database_size_in_pages := (db1.database_size_in_pages + 1) % 2 ^ 32 }
          let db3 := db2.write left_child_pointer np.bytes
          DB.insert_up root_pg_n parents db3 current_page np split_rowid left_child_pointer

/-- Lines 704-710 of `DB::insert`: the three scratch arrays are declared (the
source leaves them uninitialised; every element that is read later is written
first), `cell_sizes[idx]` is set to the size of the new cell, and
`get_split_index` is called. -/
def BTreePage.split_plan (current_page : BTreePage) (db : DB) (id P idx : Nat) :
    Nat × SplitArrays :=
  current_page.get_split_index db idx
    { s := 0
      sums := fun _ => 0
      cell_sizes := arr_set (fun _ => 0) idx (current_page.compute_cell_size db id P)
      cell_content_offsets := fun _ => 0 }

/-- Lines 704-799 of `DB::insert`: the leaf `current_page` (page `current_pg_n`,
slot `idx` for the new cell) is full and is split. -/
def DB.insert_split (db : DB) (root_pg_n id : Nat) (payload : Payload)
    (current_page : BTreePage) (current_pg_n : Nat) (parents : List Nat) (idx : Nat) :
    Option (ReturnCodes × DB) :=
  let n := current_page.header.num_of_cells
  let g := current_page.split_plan db id payload.P idx
  let split_idx := g.1
  let a := g.2
  let split_rowid :=
    if split_idx = idx then id else current_page.get_cell_rowid (a.cell_content_offsets split_idx)
  let new_page := BTreePage.fresh db .LeafTableBTreePage
  if db.check_split_is_enough split_idx n a.sums then
    let st := forLoop (fun k => half_step current_page a id idx payload true (split_idx + 1 + k))
      (n + 1 - (split_idx + 1)) { wrong := false, page := new_page, db := db }
    if st.wrong then some (.EverythingWrong, st.db)
    else
      let new_page := st.page.write_header
      let db := st.db
      if current_pg_n = root_pg_n then
        let st := forLoop (half_step current_page a id idx payload false) (split_idx + 1)
          { wrong := false, page := BTreePage.fresh db .LeafTableBTreePage, db := db }
        if st.wrong then some (.EverythingWrong, st.db)
        else
          let leaf := st.page.write_header
          let db := st.db
          let left_child_pointer := (db.compute_database_size_in_pages + 1) % 2 ^ 32
          let right_most_pointer := (db.compute_database_size_in_pages + 2) % 2 ^ 32
          let db1 : DB :=
            { db with database_size_in_pages := (db.database_size_in_pages + 2) % 2 ^ 32 }
          let db2 := db1.write left_child_pointer leaf.bytes
          let db3 := db2.write right_most_pointer new_page.bytes
          let root := root_as_interior db current_page split_rowid left_child_pointer
            right_most_pointer
          some (.CellInserted, db3.write current_pg_n root.bytes)
      else
        let db1 := db.write current_pg_n new_page.bytes
        let st := forLoop (half_step current_page a id idx payload false) (split_idx + 1)
          { wrong := false, page := new_page.recreate_type db .LeafTableBTreePage, db := db1 }
        if st.wrong then some (.EverythingWrong, st.db)
        else
          let new_page := st.page.write_header
          let db2 := st.db
          let left_child_pointer := (db2.compute_database_size_in_pages + 1) % 2 ^ 32
          let db3 : DB :=
            { db2 with database_size_in_pages := (db2.database_size_in_pages + 1) % 2 ^ 32 }
          let db4 := db3.write left_child_pointer new_page.bytes
          DB.insert_up root_pg_n parents db4 current_page new_page split_rowid left_child_pointer
  else some (.NotImplemented, db)

/-- Function `DB::insert(root_pg_n, id, payload)`: the return code and the
database afterwards. -/
def DB.insert (db : DB) (root_pg_n id : Nat) (payload : Payload) : Option (ReturnCodes × DB) :=
  match BTreePage.load db root_pg_n with
  | none => none
  | some root =>
    match db.insert_descend id 21 root root_pg_n [] with
    | none => none
    | some (current_page, current_pg_n, parents) =>
      let idx := current_page.lower_bound id
      if idx ≠ current_page.header.num_of_cells ∧
          current_page.get_cell_rowid (current_page.get_cell_content_offset idx) = id then
        some (.RowidAlreadyInDatabase, db)
      else
        let r := current_page.insert_leaf_cell db id idx payload
        if r.1 = .CellInserted then some (.CellInserted, r.2.2.write current_pg_n r.2.1.bytes)
        else
          db.insert_split root_pg_n id payload current_page current_pg_n parents idx

/-! ## Records and example databases -/

/-- Constructor `Payload::Payload(std::string& map)`: the record of a row
`(id, text)`, that is the header length, the serial type 0 of the rowid
column, the serial type `2 * length + 13` of the text, then the text.  The
constructor leaves `rowid` and, before it fills it, the buffer unset; their
previous content is passed in. -/
def Payload.ofString (init : Mem) (rowid : Nat) (map : List Nat) : Payload :=
  let N := (map.length * 2 + 13) % 2 ^ 64
  let bytes_in_header :=
    get_n_bytes_in_varint_plus (get_n_bytes_in_varint N + 1) + 1 + get_n_bytes_in_varint N
  let w1 := write_varint bytes_in_header init 0
  let w2 := write_varint 0 w1.1 w1.2
  let w3 := write_varint N w2.1 (w1.2 + w2.2)
  { P := bytes_in_header + map.length
    bytes := w3.1.storeList (w1.2 + w2.2 + w3.2) map
    rowid := rowid }

/-- Record of a row `(id, text)` whose text is `n` copies of the character `c`. -/
def text_row (n c : Nat) : Payload :=
  Payload.ofString (fun _ => 0) 0 (List.replicate n c)

/-- A database file of two 512-byte pages: the file header carries the page
size at offset 16 and the page count at offset 28, and page 2 is the root of a
table, an empty leaf (type 0x0d, no cells, cell content starting at 512). -/
def empty_table_db : DB :=
  { file := fun j =>
      if j = 16 then 2 else if j = 31 then 2 else if j = 512 then 13 else if j = 517 then 2 else 0
    file_size := 1024
    page_size := 512
    unused_reserved_space := 0
    database_size_in_pages := 2
    uninit := fun _ => 0
    uninit8 := 0 }

/-- A sequence of `DB::insert` calls on the table rooted at `root_pg_n`: the
return codes in call order and the database afterwards. -/
def insert_all (root_pg_n : Nat) : List (Nat × Payload) → DB → Option (List ReturnCodes × DB)
  | [], db => some ([], db)
  | (id, p) :: rest, db =>
    match db.insert root_pg_n id p with
    | none => none
    | some (rc, db1) =>
      match insert_all root_pg_n rest db1 with
      | none => none
      | some (rcs, db2) => some (rc :: rcs, db2)

/-- Return code of `DB::find`, without the payload. -/
def DB.find_code (db : DB) (fuel root_pg_n id : Nat) : Option ReturnCodes :=
  (db.find fuel root_pg_n id { P := 0, bytes := fun _ => 0, rowid := 0 }).map (fun r => r.1)

/-- Rowid of the cell in slot `i` of a page. -/
def BTreePage.rowid_at (pg : BTreePage) (i : Nat) : Nat :=
  pg.get_cell_rowid (pg.get_cell_content_offset i)

/-- A database file of two 32768-byte pages whose page 2 is an empty leaf. -/
def large_page_db : DB :=
  { file := fun j =>
      if j = 16 then 128 else if j = 31 then 2 else if j = 32768 then 13
      else if j = 32773 then 128 else 0
    file_size := 65536
    page_size := 32768
    unused_reserved_space := 0
    database_size_in_pages := 2
    uninit := fun _ => 0
    uninit8 := 0 }

/-- A payload of 102379 bytes whose byte `i` is `i % 251`. -/
def long_payload : Payload :=
  { P := 102379, bytes := fun i => i % 251, rowid := 7 }

/-- The first lines of `DB::insert` (662-687): the root page is loaded and the
descent loop runs.  The result is the leaf reached, its page number and the
stack of parents. -/
def DB.reach_leaf (db : DB) (root_pg_n id : Nat) : Option (BTreePage × Nat × List Nat) :=
  match BTreePage.load db root_pg_n with
  | none => none
  | some root => db.insert_descend id 21 root root_pg_n []

/-- Rowids read through the cell-pointer array of a page are strictly increasing. -/
def BTreePage.sorted (pg : BTreePage) : Prop :=
  ∀ a b, a < b → b < pg.header.num_of_cells → pg.rowid_at a < pg.rowid_at b

/-- Database left by a sequence of `DB::insert` calls on `empty_table_db`
(`empty_table_db` itself if a call has no result). -/
def db_after (rows : List (Nat × Payload)) : DB :=
  match insert_all 2 rows empty_table_db with
  | none => empty_table_db
  | some r => r.2

/-- The table of `empty_table_db` after the rowids 1 and 2 were inserted. -/
def two_row_db : DB := db_after [(1, text_row 5 97), (2, text_row 5 98)]

/-! ## Table b-trees in the file -/

/-- Child `i` of an interior page: the left child of cell `i` for
`i < num_of_cells`, the right-most child for `i = num_of_cells`. -/
def BTreePage.child_at (pg : BTreePage) (i : Nat) : Nat :=
  if i < pg.header.num_of_cells then
    pg.get_cell_left_child_pointer (pg.get_cell_content_offset i)
  else pg.get_right_most_pointer

/-- Page `pg_n` is the root of a table b-tree of depth at most `d` all of whose
rowids satisfy `R`, and the tree stays off page 1: every page lies in the file
and lists its cells in strictly increasing rowid order, every interior key
separates its children (the rowids under `left_child(cells[i])` are at most
`cells[i].rowid` and greater than `cells[i-1].rowid`, those under the
right-most child are greater than the last key), and no page of the tree is
page 1.  The last condition is a restriction of this predicate, not a property
of table b-trees: a table can be rooted at page 1, whose b-tree header sits at
offset 100, and the lemmas stated with this predicate say nothing about such
a table. -/
def TableTreeOffFirstPage (db : DB) : Nat → Nat → (Nat → Prop) → Prop
  | 0, pg_n, R =>
    pg_n ≠ 1 ∧ ∃ pg, BTreePage.load db pg_n = some pg ∧
      pg.header.page_type = .LeafTableBTreePage ∧ pg.sorted ∧
      ∀ i, i < pg.header.num_of_cells → R (pg.rowid_at i)
  | d + 1, pg_n, R =>
    pg_n ≠ 1 ∧ ∃ pg, BTreePage.load db pg_n = some pg ∧
      ((pg.header.page_type = .LeafTableBTreePage ∧ pg.sorted ∧
          ∀ i, i < pg.header.num_of_cells → R (pg.rowid_at i)) ∨
       (pg.header.page_type = .InteriorTableBTreePage ∧ pg.sorted ∧
          ∀ k, k ≤ pg.header.num_of_cells →
            TableTreeOffFirstPage db d (pg.child_at k)
              (fun r => R r ∧ (k < pg.header.num_of_cells → r ≤ pg.rowid_at k) ∧
                (0 < k → pg.rowid_at (k - 1) < r))))

/-- Slot `i` of the leaf page `leaf` is a cell of the tree of depth at most `d`
rooted at page `pg_n`. -/
def LeafCell (db : DB) (leaf : BTreePage) (i : Nat) : Nat → Nat → Prop
  | 0, pg_n =>
    BTreePage.load db pg_n = some leaf ∧ leaf.header.page_type = .LeafTableBTreePage ∧
      i < leaf.header.num_of_cells
  | d + 1, pg_n =>
    (BTreePage.load db pg_n = some leaf ∧ leaf.header.page_type = .LeafTableBTreePage ∧
      i < leaf.header.num_of_cells) ∨
    ∃ pg, BTreePage.load db pg_n = some pg ∧
      pg.header.page_type = .InteriorTableBTreePage ∧
      ∃ k, k ≤ pg.header.num_of_cells ∧ LeafCell db leaf i d (pg.child_at k)

/-- The table of `empty_table_db` after the rowids 1, 2 and 3 were inserted with
200-byte records: the root page 2 has been split into the leaves 3 and 4. -/
def three_row_db : DB :=
  db_after [(1, text_row 196 97), (2, text_row 196 98), (3, text_row 196 99)]

/-- Page object for page `pg_n` of `db` (a default object if the page cannot be
read). -/
def page_of (db : DB) (pg_n : Nat) : BTreePage :=
  (BTreePage.load db pg_n).getD default

/-- An empty payload object, `Payload()`. -/
def no_payload : Payload := { P := 0, bytes := fun _ => 0, rowid := 0 }

/-! ## Size bookkeeping -/

/-- The database `db` has page size `ps` and reserved space `r`, the same
uninitialised memory as `db0` and a file at least as long as that of `db0`;
its file holds `F` whole pages, at least one, and its header counter is `c`. -/
def SizeAt (db0 db : DB) (ps r F c : Nat) : Prop :=
  db.page_size = ps ∧ db.unused_reserved_space = r ∧ db.uninit = db0.uninit ∧
    db.file_size / ps = F ∧ db.database_size_in_pages = c ∧ ps ≤ db.file_size ∧
    db0.file_size ≤ db.file_size

/-- Number of overflow pages `insert_leaf_cell` writes for a payload of `P`
bytes on a leaf table page. -/
def DB.spill_pages (db : DB) (P : Nat) : Nat :=
  if (BTreePage.fresh db .LeafTableBTreePage).compute_directly_stored_payload_size db P < P then
    n_overflow_pages db P
      ((BTreePage.fresh db .LeafTableBTreePage).compute_directly_stored_payload_size db P)
  else 0

/-- A database whose file is 2^32 bytes long (8388608 pages of 512 bytes), with
the header counter 8388608 and an empty leaf as page 2. -/
def huge_file_db : DB :=
  { empty_table_db with file_size := 2 ^ 32, database_size_in_pages := 8388608 }

/-- Overflow page `F + 1 + j` of a chain of `n` pages that starts after the
`F`-th page of the file: its first four bytes are the big-endian number of the
next page of the chain, or 0 on the last page, and the bytes that follow are
the payload bytes from `K + j * (U - 4)` on. -/
def chain_page (payload : Payload) (ps U F K n : Nat) (file : Mem) (j : Nat) : Prop :=
  read_big_endian32 file ((F + j) * ps) = (if j + 1 < n then F + 2 + j else 0) ∧
  ∀ t, t < U - 4 → K + j * (U - 4) + t < payload.P →
    file ((F + j) * ps + 4 + t) = payload.bytes (K + j * (U - 4) + t)

/-- State of the file while the overflow chain is written: `k` pages of the
chain are in place after the `F` pages the file had, and nothing below them
has changed but the counter at offset 28. -/
def ChainSoFar (db t : DB) (payload : Payload) (ps r F c K n k : Nat) : Prop :=
  SizeAt db t ps r (F + k) c ∧
  (∀ x, x < F * ps → ¬ (28 ≤ x ∧ x < 32) → t.file x = db.file x) ∧
  ∀ j, j < k → chain_page payload ps db.get_U F K n t.file j

/-- Page offset that `insert_leaf_cell` has reached when it has written the
payload-size varint, the rowid varint and the directly stored bytes of the
new cell: the place of the 4-byte overflow pointer, if there is one. -/
def BTreePage.leaf_cell_tail (pg : BTreePage) (db : DB) (id cell_offsets_idx : Nat)
    (payload : Payload) : Nat :=
  let pg4 := pg.open_slot cell_offsets_idx (pg.compute_cell_size db id payload.P)
  let offset := pg4.header.start_of_cell_content_area
  let w1 := write_varint payload.P pg4.bytes offset
  let offset := (offset + w1.2) % 65536
  let w2 := write_varint id w1.1 offset
  let offset := (offset + w2.2) % 65536
  (offset + pg.compute_directly_stored_payload_size db payload.P) % 65536

/-! ## The sequence of cells of a leaf split -/

/-- Rowid of cell `i` of the sequence that the split loops of `DB::insert` walk
(the old cells with the new cell at slot `idx`): `id` for `i = idx`, otherwise
the rowid of the cell of `current_page` at `cell_content_offsets[i]`, from
where the loops copy it.  For `i = split_idx` this is the expression of
`split_rowid` at line 711. -/
def BTreePage.virtual_rowid (current_page : BTreePage) (a : SplitArrays) (id idx i : Nat) : Nat :=
  if i = idx then id else current_page.get_cell_rowid (a.cell_content_offsets i)

/-- The table of `empty_table_db` after the rowids 1 and 2 were inserted with
200-byte records: the root leaf has no room for a third such record. -/
def two_wide_rows_db : DB := db_after [(1, text_row 196 97), (2, text_row 196 98)]

/-! ## utils.h: signed big-endian integers -/

/-- Conversion of an unsigned value to the signed integer type of `w` bits
(`static_cast<intN_t>`): the value modulo `2^w` read as two's complement. -/
def to_signed (w u : Nat) : Int :=
  if u % 2 ^ w < 2 ^ (w - 1) then ((u % 2 ^ w : Nat) : Int)
  else ((u % 2 ^ w : Nat) : Int) - ((2 ^ w : Nat) : Int)

/-- Function `read_int8`. -/
def read_int8 (bytes : Mem) (off : Nat) : Int :=
  to_signed 8 (bytes off % 256)

/-- Function `read_int16`: the two bytes are combined in `int` and the result
is converted to `int16_t`. -/
def read_int16 (bytes : Mem) (off : Nat) : Int :=
  to_signed 16 (((bytes off % 256) <<< 8) ||| (bytes (off + 1) % 256))

/-- Function `read_int24`: `value` is an `int32_t` below `2^24`; when bit 23 is
set, `value |= 0xFF000000` is computed in `unsigned int` and converted back. -/
def read_int24 (bytes : Mem) (off : Nat) : Int :=
  let value := ((bytes off % 256) <<< 16) ||| ((bytes (off + 1) % 256) <<< 8) |||
    (bytes (off + 2) % 256)
  if value &&& 0x800000 ≠ 0 then to_signed 32 (value ||| 0xFF000000)
  else to_signed 32 value

/-- Function `read_int32`. -/
def read_int32 (bytes : Mem) (off : Nat) : Int :=
  to_signed 32 (((bytes off % 256) <<< 24) ||| ((bytes (off + 1) % 256) <<< 16) |||
    ((bytes (off + 2) % 256) <<< 8) ||| (bytes (off + 3) % 256))

/-- Function `read_int48`: `value` is an `int64_t` below `2^48`; the test is
`value & 0x8000000000` and the extension `value |= 0xFFFF000000000000`. -/
def read_int48 (bytes : Mem) (off : Nat) : Int :=
  let value := ((bytes off % 256) <<< 40) ||| ((bytes (off + 1) % 256) <<< 32) |||
    ((bytes (off + 2) % 256) <<< 24) ||| ((bytes (off + 3) % 256) <<< 16) |||
    ((bytes (off + 4) % 256) <<< 8) ||| (bytes (off + 5) % 256)
  if value &&& 0x8000000000 ≠ 0 then to_signed 64 (value ||| 0xFFFF000000000000)
  else to_signed 64 value

/-- Function `read_int64`. -/
def read_int64 (bytes : Mem) (off : Nat) : Int :=
  to_signed 64 (((bytes off % 256) <<< 56) ||| ((bytes (off + 1) % 256) <<< 48) |||
    ((bytes (off + 2) % 256) <<< 40) ||| ((bytes (off + 3) % 256) <<< 32) |||
    ((bytes (off + 4) % 256) <<< 24) ||| ((bytes (off + 5) % 256) <<< 16) |||
    ((bytes (off + 6) % 256) <<< 8) ||| (bytes (off + 7) % 256))

/-- Function `write_int64` (it returns 8): `std::memcpy(bytes, &v, 8)` copies the
object representation of the `uint64_t`, which on the little-endian hosts the
program is built for (x86-64, AArch64) has the least significant byte first. -/
def write_int64 (v : Nat) (bytes : Mem) (off : Nat) : Mem :=
  memcpy bytes off (fun j => ((v % 2 ^ 64) >>> (8 * j)) &&& 0xFF) 0 8

/-- Unsigned value of `w` big-endian bytes at `off`. -/
def big_endian_value (bytes : Mem) (off : Nat) : Nat → Nat
  | 0 => 0
  | w + 1 => big_endian_value bytes off w * 256 + bytes (off + w) % 256

/-! ## all.h: columns of a record -/

/-- Function `Payload::get_column_content_size`. -/
def Payload.get_column_content_size (serial_type : Nat) : Nat :=
  if serial_type ≤ 4 then serial_type
  else if serial_type = 5 then 6
  else if serial_type = 6 ∨ serial_type = 7 then 8
  else if serial_type = 8 ∨ serial_type = 9 then 0
  else if serial_type = 10 ∨ serial_type = 11 then 0
  else if serial_type % 2 = 0 then (serial_type - 12) / 2
  else (serial_type - 13) / 2

/-- The loop `while (offset < bytes_in_header)` of `get_integer_column` and
`get_text_column`.  The state is `offset`, `n_columns` and
`target_content_offset`; the result adds `content_size`, which is `none`
while the variable has not been assigned.  Every round advances `offset`, so
`bytes_in_header + 1` rounds of fuel are enough unless `offset` wraps around
`2^64`; running out of fuel gives `none`.  The counter `n_columns` is an
`int`, which the embedding does not bound. -/
def Payload.column_walk (bytes : Mem) (bytes_in_header column_idx : Nat) :
    Nat → Nat → Nat → Nat → Option (Nat × Nat × Option Nat)
  | 0, _, _, _ => none
  | fuel + 1, offset, n_columns, target_content_offset =>
    if offset < bytes_in_header then
      let r := read_varint bytes offset
      let offset := (offset + r.2) % 2 ^ 64
      let n_columns := n_columns + 1
      if n_columns = column_idx then
        some (n_columns, target_content_offset, some (Payload.get_column_content_size r.1))
      else
        Payload.column_walk bytes bytes_in_header column_idx fuel offset n_columns
          ((target_content_offset + Payload.get_column_content_size r.1) % 2 ^ 64)
    else some (n_columns, target_content_offset, none)

/-- The common start of `get_integer_column` and `get_text_column`: the header
length is read and the loop runs. -/
def Payload.find_column (p : Payload) (column_idx : Nat) : Option (Nat × Nat × Option Nat) :=
  let h := read_varint p.bytes 0
  Payload.column_walk p.bytes h.1 column_idx (h.1 + 1) h.2 0 h.1

/-- Function `Payload::get_text_column(column_idx)`: the string as a list of
bytes.  The result is `none` where the source reads the unassigned
`content_size` (for `column_idx = 0` on a record without columns) or the loop
has no result. -/
def Payload.get_text_column (p : Payload) (column_idx : Nat) : Option (List Nat) :=
  match p.find_column column_idx with
  | none => none
  | some (n_columns, target_content_offset, content_size) =>
    if n_columns ≠ column_idx then some []
    else
      match content_size with
      | none => none
      | some content_size =>
        some ((List.range content_size).map fun k => p.bytes (target_content_offset + k) % 256)

/-- Function `Payload::get_integer_column(column_idx)`. -/
def Payload.get_integer_column (p : Payload) (column_idx : Nat) : Option Int :=
  match p.find_column column_idx with
  | none => none
  | some (n_columns, target_content_offset, content_size) =>
    if n_columns ≠ column_idx then some 0
    else
      match content_size with
      | none => none
      | some content_size =>
        some
          (if content_size = 0 then to_signed 64 p.rowid
          else if content_size = 1 then read_int8 p.bytes target_content_offset
          else if content_size = 2 then read_int16 p.bytes target_content_offset
          else if content_size = 3 then read_int24 p.bytes target_content_offset
          else if content_size = 4 then read_int32 p.bytes target_content_offset
          else if content_size = 6 then read_int48 p.bytes target_content_offset
          else if content_size = 8 then read_int64 p.bytes target_content_offset
          else 0)

/-! ## lexer.h -/

/-- Enumeration `Tag`. -/
inductive Tag
  | INTEGER_LITERAL
  | REAL_LITERAL
  | STRING_LITERAL
  | TYPE_TEXT
  | TYPE_INTEGER
  | TYPE_NUMERIC
  | TYPE_BLOB
  | TYPE_REAL
  | CREATE
  | TABLE
  | INSERT
  | INTO
  | VALUES
  | SELECT
  | FROM
  | WHERE
  | AND
  | OR
  | LESS
  | LESS_OR_EQUAL
  | GREATER
  | GREATER_OR_EQUAL
  | NOT_EQUAL
  | EQUAL
  | UNARY_MINUS
  | LEFT_BRACKET
  | RIGHT_BRACKET
  | EOF_TOKEN
  | ERROR
  | COMMA
  | ALL
  deriving DecidableEq, Repr, Inhabited

/-- Struct `Token` with its subclasses `IntegerLiteral` (an `int64_t` value)
and `StringLiteral`; a `std::string` is the list of its characters, each a
byte value. -/
inductive Token
  | plain (tag : Tag)
  | IntegerLiteral (value : Int)
  | StringLiteral (value : List Nat)
  deriving DecidableEq, Repr, Inhabited

/-- Field `tag` of a token. -/
def Token.tag : Token → Tag
  | .plain tag => tag
  | .IntegerLiteral _ => .INTEGER_LITERAL
  | .StringLiteral _ => .STRING_LITERAL

/-- Characters of a string literal of this file as byte values. -/
def chars (s : String) : List Nat :=
  s.toList.map Char.toNat

/-- Constant `EOF_CHAR`. -/
def EOF_CHAR : Nat := 26

/-- Function `is_qoute`. -/
def is_qoute (c : Nat) : Bool := c = 39

/-- Function `is_digit`. -/
def is_digit (c : Nat) : Bool := 48 ≤ c ∧ c ≤ 57

/-- Function `is_letter`. -/
def is_letter (c : Nat) : Bool := (65 ≤ c ∧ c ≤ 95) ∨ (97 ≤ c ∧ c ≤ 122)

/-- Function `to_upper`. -/
def to_upper (c : Nat) : Nat := if 97 ≤ c ∧ c ≤ 122 then c - (97 - 65) else c

/-- Function `to_digit`. -/
def to_digit (c : Nat) : Int := (c : Int) - 48

/-- Function `is_letter_or_digit`. -/
def is_letter_or_digit (c : Nat) : Bool := is_digit c || is_letter c

/-- Lookup `TAG_MAP.at(keyword)`; `none` where `at` throws `std::out_of_range`. -/
def TAG_MAP (keyword : List Nat) : Option Tag :=
  if keyword = chars "TEXT" then some .TYPE_TEXT
  else if keyword = chars "BLOB" then some .TYPE_BLOB
  else if keyword = chars "INTEGER" then some .TYPE_INTEGER
  else if keyword = chars "NUMERIC" then some .TYPE_NUMERIC
  else if keyword = chars "REAL" then some .TYPE_REAL
  else if keyword = chars "CREATE" then some .CREATE
  else if keyword = chars "TABLE" then some .TABLE
  else if keyword = chars "INSERT" then some .INSERT
  else if keyword = chars "INTO" then some .INTO
  else if keyword = chars "VALUES" then some .VALUES
  else if keyword = chars "SELECT" then some .SELECT
  else if keyword = chars "FROM" then some .FROM
  else if keyword = chars "WHERE" then some .WHERE
  else if keyword = chars "AND" then some .AND
  else if keyword = chars "OR" then some .OR
  else none

/-- Struct `Lexer`.  The token `cur` is `none` for `nullptr`. -/
structure Lexer where
  line : Nat
  i : Nat
  peek : Nat
  s : List Nat
  cur : Option Token
  deriving Inhabited

/-- Constructor `Lexer(s)`. -/
def Lexer.create (s : List Nat) : Lexer :=
  { line := 1, i := 0, peek := 32, s := s, cur := none }

/-- Method `Lexer::restart(i)`. -/
def Lexer.restart (lex : Lexer) (i : Nat) : Lexer :=
  { lex with cur := none, i := i, peek := 32 }

/-- Method `Lexer::next_char`.  Reading `s[s.length()]` gives the terminating
zero; an index beyond it is out of bounds, for which the result is `none`. -/
def Lexer.next_char (lex : Lexer) : Option Lexer :=
  if lex.i ≤ lex.s.length then
    let peek := lex.s.getD lex.i 0
    let i := lex.i + 1
    some { lex with i := i, peek := if i = lex.s.length + 1 then EOF_CHAR else peek }
  else none

/-- The first loop of `Lexer::scan`, which skips blanks, tabs and line ends. -/
def Lexer.skip_blanks : Nat → Lexer → Option Lexer
  | 0, _ => none
  | fuel + 1, lex =>
    if lex.peek = 9 ∨ lex.peek = 32 then
      match lex.next_char with
      | none => none
      | some lex1 => Lexer.skip_blanks fuel lex1
    else if lex.peek = 10 then
      match ({ lex with line := lex.line + 1 } : Lexer).next_char with
      | none => none
      | some lex1 => Lexer.skip_blanks fuel lex1
    else some lex

/-- The `do ... while (is_digit(peek))` loop of `Lexer::scan`; leaving the
range of `int64_t` is undefined, for which the result is `none`. -/
def Lexer.scan_digits : Nat → Int → Lexer → Option (Int × Lexer)
  | 0, _, _ => none
  | fuel + 1, n, lex =>
    let n := 10 * n + to_digit lex.peek
    if n ≥ 2 ^ 63 then none
    else
      match lex.next_char with
      | none => none
      | some lex1 =>
        if is_digit lex1.peek then Lexer.scan_digits fuel n lex1 else some (n, lex1)

/-- The `do ... while (is_letter_or_digit(peek))` loop of `Lexer::scan`. -/
def Lexer.scan_word : Nat → List Nat → Lexer → Option (List Nat × Lexer)
  | 0, _, _ => none
  | fuel + 1, s, lex =>
    let s := s ++ [lex.peek]
    match lex.next_char with
    | none => none
    | some lex1 =>
      if is_letter_or_digit lex1.peek then Lexer.scan_word fuel s lex1 else some (s, lex1)

/-- The `while (!is_qoute(peek))` loop of `Lexer::scan`. -/
def Lexer.scan_quoted : Nat → List Nat → Lexer → Option (List Nat × Lexer)
  | 0, _, _ => none
  | fuel + 1, s, lex =>
    if ¬ is_qoute lex.peek then
      match lex.next_char with
      | none => none
      | some lex1 => Lexer.scan_quoted fuel (s ++ [lex.peek]) lex1
    else some (s, lex)

/-- A token that `Lexer::scan` makes after one more `next_char()`. -/
def Lexer.advance_with (lex : Lexer) (t : Token) : Option Lexer :=
  match lex.next_char with
  | none => none
  | some lex1 => some { lex1 with cur := some t }

/-- The two-character operators of `Lexer::scan`: after `next_char_and_compare('=')`
the token is `yes` if the character is `=` and `no` otherwise, and one more
character is read in both cases. -/
def Lexer.scan_operator (lex : Lexer) (yes no : Tag) : Option Lexer :=
  match lex.next_char with
  | none => none
  | some lex1 =>
    if lex1.peek = 61 then lex1.advance_with (.plain yes) else lex1.advance_with (.plain no)

/-- Method `Lexer::scan`: the lexer afterwards, whose `cur` is the token
returned.  Every loop reads a character per round and `next_char` has no
result beyond the end of the string, so `s.length() + 3` rounds of fuel are
never used up. -/
def Lexer.scan (lex0 : Lexer) : Option Lexer :=
  let fuel := lex0.s.length + 3
  match Lexer.skip_blanks fuel { lex0 with cur := none } with
  | none => none
  | some lex =>
    if is_digit lex.peek then
      match Lexer.scan_digits fuel 0 lex with
      | none => none
      | some (n, lex1) => some { lex1 with cur := some (.IntegerLiteral n) }
    else if is_letter lex.peek then
      match Lexer.scan_word fuel [] lex with
      | none => none
      | some (s, lex1) =>
        match TAG_MAP (s.map to_upper) with
        | some tag => some { lex1 with cur := some (.plain tag) }
        | none => some { lex1 with cur := some (.StringLiteral s) }
    else if is_qoute lex.peek then
      match lex.next_char with
      | none => none
      | some lex1 =>
        match Lexer.scan_quoted fuel [] lex1 with
        | none => none
        | some (s, lex2) => lex2.advance_with (.StringLiteral s)
    else if lex.peek = 44 then lex.advance_with (.plain .COMMA)
    else if lex.peek = 42 then lex.advance_with (.plain .ALL)
    else if lex.peek = 61 then lex.advance_with (.plain .EQUAL)
    else if lex.peek = 40 then lex.advance_with (.plain .LEFT_BRACKET)
    else if lex.peek = 41 then lex.advance_with (.plain .RIGHT_BRACKET)
    else if lex.peek = 33 then lex.scan_operator .NOT_EQUAL .ERROR
    else if lex.peek = 60 then lex.scan_operator .LESS_OR_EQUAL .LESS
    else if lex.peek = 62 then lex.scan_operator .GREATER_OR_EQUAL .GREATER
    else if lex.peek = EOF_CHAR then some { lex with cur := some (.plain .EOF_TOKEN) }
    else some { lex with cur := some (.plain .ERROR) }

/-! ## all.h: `Parser::parse_values` -/

/-- Enumeration `ColumnAffinity`. -/
inductive ColumnAffinity
  | TEXT
  | INTEGER
  | NUMERIC
  | REAL
  | BLOB
  deriving DecidableEq, Repr, Inhabited

/-- Struct `DB::TableSchema`.  The `std::map<std::string, uint16_t> columns` is
the list of its entries in iteration order, that is by ascending key. -/
structure TableSchema where
  root_pg_n : Nat
  columns : List (List Nat × Nat)
  columns_affinity : List ColumnAffinity
  deriving Inhabited

/-- Constructor `Parser(lex, db, table_name)`, which calls `lex.scan()`. -/
def Parser.create (lex : Lexer) : Option Lexer :=
  lex.scan

/-- State of the first loop of `Parser::parse_values`. -/
structure ValuesSizes where
  ok : Bool
  rowid : Nat
  bytes_in_header : Nat
  P : Nat
  lex : Lexer

/-- The first loop of `Parser::parse_values` (lines 1921-1952) over the
entries of `columns`; `ok = false` stands for `return false`.  An index
outside `columns_affinity` is out of bounds, for which the result is `none`. -/
def Parser.values_sizes (schema : TableSchema) :
    List (List Nat × Nat) → ValuesSizes → Option ValuesSizes
  | [], st => some st
  | pair :: rest, st =>
    match st.lex.scan with
    | none => none
    | some lex1 =>
      match schema.columns_affinity.get? pair.2, lex1.cur with
      | none, _ => none
      | _, none => none
      | some affinity, some token =>
        let checked : Option ValuesSizes :=
          if affinity = .TEXT then
            match token with
            | .StringLiteral text =>
              let serial_type := (2 * text.length + 13) % 2 ^ 64
              some { st with
                bytes_in_header := (st.bytes_in_header + get_n_bytes_in_varint serial_type) % 2 ^ 64
                P := (st.P + text.length) % 2 ^ 64 }
            | _ => none
          else if affinity = .INTEGER then
            match token with
            | .IntegerLiteral value =>
              if pair.1 = chars "id" then
                some { st with
                  rowid := (value % 2 ^ 64).toNat
                  bytes_in_header := (st.bytes_in_header + 1) % 2 ^ 64 }
              else
                some { st with
                  bytes_in_header := (st.bytes_in_header + get_n_bytes_in_varint 6) % 2 ^ 64
                  P := (st.P + 8) % 2 ^ 64 }
            | _ => none
          else some st
        match checked with
        | none => some { st with ok := false, lex := lex1 }
        | some st1 =>
          match lex1.scan with
          | none => none
          | some lex2 =>
            match lex2.cur with
            | none => none
            | some token2 =>
              if token2.tag = .RIGHT_BRACKET then some { st1 with lex := lex2 }
              else if token2.tag ≠ .COMMA then some { st1 with ok := false, lex := lex2 }
              else Parser.values_sizes schema rest { st1 with lex := lex2 }

/-- The second loop of `Parser::parse_values` (lines 1964-1982), which writes
the serial types; the state is the buffer, `offset` and the lexer.  The cast
`static_cast<StringLiteral*>(token)` of a token that is no string literal is
undefined, for which the result is `none`. -/
def Parser.values_types (schema : TableSchema) :
    List (List Nat × Nat) → Mem × Nat × Lexer → Option (Mem × Nat × Lexer)
  | [], st => some st
  | pair :: rest, (bytes, offset, lex) =>
    match lex.scan with
    | none => none
    | some lex1 =>
      match schema.columns_affinity.get? pair.2, lex1.cur with
      | none, _ => none
      | _, none => none
      | some affinity, some token =>
        let written : Option (Mem × Nat) :=
          if affinity = .TEXT then
            match token with
            | .StringLiteral text =>
              let w := write_varint ((2 * text.length + 13) % 2 ^ 64) bytes offset
              some (w.1, (offset + w.2) % 2 ^ 64)
            | _ => none
          else if affinity = .INTEGER then
            let w := write_varint (if pair.1 = chars "id" then 0 else 6) bytes offset
            some (w.1, (offset + w.2) % 2 ^ 64)
          else some (bytes, offset)
        match written with
        | none => none
        | some (bytes1, offset1) =>
          match lex1.scan with
          | none => none
          | some lex2 =>
            match lex2.cur with
            | none => none
            | some token2 =>
              if token2.tag = .RIGHT_BRACKET then some (bytes1, offset1, lex2)
              else Parser.values_types schema rest (bytes1, offset1, lex2)

/-- The third loop of `Parser::parse_values` (lines 1986-2004), which writes
the column bodies.  Casting a token that is not of the class read is
undefined, for which the result is `none`. -/
def Parser.values_bodies (schema : TableSchema) :
    List (List Nat × Nat) → Mem × Nat × Lexer → Option (Mem × Nat × Lexer)
  | [], st => some st
  | pair :: rest, (bytes, offset, lex) =>
    match lex.scan with
    | none => none
    | some lex1 =>
      match schema.columns_affinity.get? pair.2, lex1.cur with
      | none, _ => none
      | _, none => none
      | some affinity, some token =>
        let written : Option (Mem × Nat) :=
          if affinity = .TEXT then
            match token with
            | .StringLiteral text =>
              some (bytes.storeList offset text, (offset + text.length) % 2 ^ 64)
            | _ => none
          else if affinity = .INTEGER ∧ pair.1 ≠ chars "id" then
            match token with
            | .IntegerLiteral value =>
              some (write_int64 (value % 2 ^ 64).toNat bytes offset, (offset + 8) % 2 ^ 64)
            | _ => none
          else some (bytes, offset)
        match written with
        | none => none
        | some (bytes1, offset1) =>
          match lex1.scan with
          | none => none
          | some lex2 =>
            match lex2.cur with
            | none => none
            | some token2 =>
              if token2.tag = .RIGHT_BRACKET then some (bytes1, offset1, lex2)
              else Parser.values_bodies schema rest (bytes1, offset1, lex2)

/-- Method `Parser::parse_values(p)` for the table `schema`: the return value,
the payload object and the lexer afterwards.  `uninit` is the content of the
buffer that `Payload::recreate` allocates. -/
def Parser.parse_values (lex : Lexer) (schema : TableSchema) (uninit : Mem) (p : Payload) :
    Option (Bool × Payload × Lexer) :=
  match lex.cur with
  | none => none
  | some token =>
    if token.tag ≠ .LEFT_BRACKET then some (false, p, lex)
    else
      let lexer_i := lex.i
      match Parser.values_sizes schema schema.columns
          { ok := true, rowid := 0, bytes_in_header := 0, P := 0, lex := lex } with
      | none => none
      | some st =>
        if st.ok = false then some (false, p, st.lex)
        else
          let bytes_in_header :=
            (st.bytes_in_header + get_n_bytes_in_varint_plus st.bytes_in_header) % 2 ^ 64
          let P := (st.P + bytes_in_header) % 2 ^ 64
          let w := write_varint bytes_in_header uninit 0
          match Parser.values_types schema schema.columns (w.1, w.2, st.lex.restart lexer_i) with
          | none => none
          | some (bytes1, offset1, lex1) =>
            match Parser.values_bodies schema schema.columns
                (bytes1, offset1, lex1.restart lexer_i) with
            | none => none
            | some (bytes2, _, lex2) =>
              some (true, { P := P, bytes := bytes2, rowid := st.rowid }, lex2)

/-- The `VALUES` part of an `INSERT` statement handed to a new `Parser`, then
`parse_values` on an empty `Payload()`: the return value and the payload. -/
def parse_values_of (s : List Nat) (schema : TableSchema) : Option (Bool × Payload) :=
  match Parser.create (Lexer.create s) with
  | none => none
  | some lex =>
    (Parser.parse_values lex schema (fun _ => 0) { P := 0, bytes := fun _ => 0, rowid := 0 }).map
      fun r => (r.1, r.2.1)

/-- A table declared as `(a INTEGER, id INTEGER)`. -/
def schema_a_id : TableSchema :=
  { root_pg_n := 2
    columns := [(chars "a", 0), (chars "id", 1)]
    columns_affinity := [.INTEGER, .INTEGER] }

/-- A table declared as `(t TEXT)`. -/
def schema_t : TableSchema :=
  { root_pg_n := 2
    columns := [(chars "t", 0)]
    columns_affinity := [.TEXT] }

/-! ## The record format -/

/-- The value formed by the seven-bit groups `d 0 .. d (j - 1)`, most
significant first. -/
def pack7 (d : Nat → Nat) : Nat → Nat
  | 0 => 0
  | j + 1 => pack7 d j * 128 + d j

/-- The bytes from `off` on are the varint of `v` as `write_varint` writes it. -/
def varint_at (bytes : Mem) (off v : Nat) : Prop :=
  ∀ j, j < (write_varint v (fun _ => 0) 0).2 →
    bytes (off + j) % 256 = (write_varint v (fun _ => 0) 0).1 j

/-- The serial types `ts` are stored from `off` on, one varint after the other. -/
def serial_types_at (bytes : Mem) : Nat → List Nat → Prop
  | _, [] => True
  | off, t :: ts =>
    varint_at bytes off t ∧ serial_types_at bytes (off + (write_varint t (fun _ => 0) 0).2) ts

/-- The buffer starts with a well-formed record header: the varint of the
header length `H`, which counts itself, followed by the varints of the serial
types `ts`. -/
def record_header (bytes : Mem) (H : Nat) (ts : List Nat) : Prop :=
  varint_at bytes 0 H ∧
  serial_types_at bytes (write_varint H (fun _ => 0) 0).2 ts ∧
  H = (write_varint H (fun _ => 0) 0).2 +
    (ts.map fun t => (write_varint t (fun _ => 0) 0).2).sum

/-! ## all.h: column types -/

/-- Enumeration `ColumnType`. -/
inductive ColumnType
  | NULL_
  | INT8
  | BIG_ENDIAN_INT16
  | BIG_ENDIAN_INT24
  | BIG_ENDIAN_INT32
  | BIG_ENDIAN_INT48
  | BIG_ENDIAN_INT64
  | BIG_ENDIAN_IEEE_754_2008_FLOAT64
  | ZERO
  | ONE
  | RESERVED
  | BLOB
  | STRING
  deriving DecidableEq, Repr, Inhabited

/-- Function `Payload::get_column_type`. -/
def Payload.get_column_type (serial_type : Nat) : ColumnType :=
  if serial_type = 0 then .NULL_
  else if serial_type = 1 then .INT8
  else if serial_type = 2 then .BIG_ENDIAN_INT16
  else if serial_type = 3 then .BIG_ENDIAN_INT24
  else if serial_type = 4 then .BIG_ENDIAN_INT32
  else if serial_type = 5 then .BIG_ENDIAN_INT48
  else if serial_type = 6 then .BIG_ENDIAN_INT64
  else if serial_type = 7 then .BIG_ENDIAN_IEEE_754_2008_FLOAT64
  else if serial_type = 8 then .ZERO
  else if serial_type = 9 then .ONE
  else if serial_type = 10 then .RESERVED
  else if serial_type = 11 then .RESERVED
  else if serial_type % 2 = 0 then .BLOB
  else .STRING

/-- A record buffer given by its bytes, with the `rowid` member set. -/
def record_of (rowid : Nat) (l : List Nat) : Payload :=
  { P := l.length, bytes := Mem.storeList (fun _ => 0) 0 l, rowid := rowid }

/-- The dispatch on `content_size` at the end of `get_integer_column`. -/
def Payload.integer_of_content (p : Payload) (target_content_offset content_size : Nat) : Int :=
  if content_size = 0 then to_signed 64 p.rowid
  else if content_size = 1 then read_int8 p.bytes target_content_offset
  else if content_size = 2 then read_int16 p.bytes target_content_offset
  else if content_size = 3 then read_int24 p.bytes target_content_offset
  else if content_size = 4 then read_int32 p.bytes target_content_offset
  else if content_size = 6 then read_int48 p.bytes target_content_offset
  else if content_size = 8 then read_int64 p.bytes target_content_offset
  else 0

/-! ## Sequences of local inserts -/

/-- A sequence of `insert_leaf_cell` calls on one page object, each at the
slot `lower_bound(rowid)`: the return codes in call order, the page and the
database afterwards. -/
def insert_cells : List (Nat × Payload) → BTreePage × DB → List ReturnCodes × BTreePage × DB
  | [], s => ([], s)
  | (id, p) :: rest, (pg, db) =>
    let r := pg.insert_leaf_cell db id (pg.lower_bound id) p
    let q := insert_cells rest r.2
    (r.1 :: q.1, q.2)

/-- A fresh leaf page of `empty_table_db` (`U = 512`) after
`insert_leaf_cell(5, _, r1)` and `insert_leaf_cell(2, _, r2)` with records of
297 and 198 bytes, whose cells take 300 and 201 bytes. -/
def crowded_leaf : List ReturnCodes × BTreePage × DB :=
  insert_cells [(5, text_row 293 97), (2, text_row 194 98)]
    (BTreePage.fresh empty_table_db .LeafTableBTreePage, empty_table_db)

/-! ## all.h: opening a database -/

/-- Constructor `DB::DB(fn)` on an existing file, as far as the b-tree engine
uses the header: the first 100 bytes are read, `page_size` is the big-endian
`uint16_t` at offset 16, `unused_reserved_space` the byte at offset 20 and
`database_size_in_pages` the big-endian `uint32_t` at offset 28.  A file
shorter than 100 bytes leaves the buffer unread, for which the result is
`none`. -/
def DB.create (file : Mem) (file_size : Nat) (uninit : Mem) (uninit8 : Nat) : Option DB :=
  if 100 ≤ file_size then
    some
      { file := file
        file_size := file_size
        page_size := read_big_endian16 file 16
        unused_reserved_space := read_big_endian8 file 20
        database_size_in_pages := read_big_endian32 file 28
        uninit := uninit
        uninit8 := uninit8 }
  else none

/-- The table of `empty_table_db` after the rowids 1 and 3 were inserted with
records of 397 and 98 bytes: a root leaf with cells of 400 and 100 bytes. -/
def two_uneven_rows_db : DB := db_after [(1, text_row 393 97), (3, text_row 94 98)]

/-- A file of 65536 bytes whose header stores the page size 1 (bytes `00 01`
at offset 16), the encoding of 65536, and the reserved space 0. -/
def page_size_one_file : Mem :=
  fun j => if j = 17 then 1 else 0

/-- A fresh leaf page of `empty_table_db` after `insert_leaf_cell(1, 0, r)` with
a record of 6 bytes: one cell of 8 bytes at offset 504. -/
def one_cell_leaf : ReturnCodes × BTreePage × DB :=
  (BTreePage.fresh empty_table_db .LeafTableBTreePage).insert_leaf_cell empty_table_db 1 0
    (text_row 3 97)

/-! ## all.h: `DB::parse_create_table_sql` -/

/-- Comparison `a < b` of two `std::string`s: lexicographic on the byte values. -/
def string_lt : List Nat → List Nat → Bool
  | [], [] => false
  | [], _ :: _ => true
  | _ :: _, [] => false
  | a :: as, b :: bs => if a < b then true else if b < a then false else string_lt as bs

/-- Assignment `m[key] = value` on a `std::map<std::string, uint16_t>`, kept as
the list of its entries by ascending key. -/
def map_assign : List (List Nat × Nat) → List Nat → Nat → List (List Nat × Nat)
  | [], key, value => [(key, value)]
  | (k, v) :: rest, key, value =>
    if key = k then (k, value) :: rest
    else if string_lt key k then (key, value) :: (k, v) :: rest
    else (k, v) :: map_assign rest key value

/-- Member `DB::tables`, a `std::map<std::string, TableSchema>`; the order of
its entries is not used. -/
abbrev Tables := List (List Nat × TableSchema)

/-- Access `tables[name]`, which makes an empty `TableSchema` for a new name. -/
def Tables.at (tables : Tables) (name : List Nat) : TableSchema :=
  match tables.find? (fun e => e.1 = name) with
  | some e => e.2
  | none => { root_pg_n := 0, columns := [], columns_affinity := [] }

/-- Assignment to `tables[name]`. -/
def Tables.set (tables : Tables) (name : List Nat) (schema : TableSchema) : Tables :=
  (name, schema) :: tables.filter (fun e => e.1 ≠ name)

/-- The statements `tables[table_name].columns[column_name] = idx;
tables[table_name].columns_affinity.push_back(affinity)`. -/
def Tables.add_column (tables : Tables) (table_name column_name : List Nat) (idx : Nat)
    (affinity : ColumnAffinity) : Tables :=
  let schema := tables.at table_name
  tables.set table_name
    { schema with
      columns := map_assign schema.columns column_name idx
      columns_affinity := schema.columns_affinity ++ [affinity] }

/-- The `while` loop of `DB::parse_create_table_sql`; `none` stands for a
lexer without result or used-up fuel, and the early `return`s end the loop
with the tables as they are.  Every round scans at least one token. -/
def parse_create_table_loop : Nat → Lexer → List Nat → Nat → Tables → Option Tables
  | 0, _, _, _, _ => none
  | fuel + 1, lex, table_name, idx, tables =>
    match lex.cur with
    | none => none
    | some token =>
      if token.tag = .EOF_TOKEN ∨ token.tag = .ERROR then some tables
      else
        let step : Option (Option (Lexer × List Nat × Tables)) :=
          if token.tag = .CREATE then
            match lex.scan with
            | none => none
            | some lex1 =>
              if (lex1.cur.map Token.tag) ≠ some .TABLE then some none
              else
                match lex1.scan with
                | none => none
                | some lex2 =>
                  match lex2.cur with
                  | some (.StringLiteral s) => some (some (lex2, s, tables))
                  | _ => some none
          else
            match token with
            | .StringLiteral column_name =>
              match lex.scan with
              | none => none
              | some lex1 =>
                if (lex1.cur.map Token.tag) = some .TYPE_TEXT then
                  some (some (lex1, table_name,
                    tables.add_column table_name column_name idx .TEXT))
                else if (lex1.cur.map Token.tag) = some .TYPE_INTEGER then
                  some (some (lex1, table_name,
                    tables.add_column table_name column_name idx .INTEGER))
                else some (some (lex1, table_name, tables))
            | _ => some (some (lex, table_name, tables))
        match step with
        | none => none
        | some none => some tables
        | some (some (lex1, table_name1, tables1)) =>
          let idx1 := if (lex1.cur.map Token.tag) = some .COMMA then (idx + 1) % 65536 else idx
          match lex1.scan with
          | none => none
          | some lex2 => parse_create_table_loop fuel lex2 table_name1 idx1 tables1

/-- Function `DB::parse_create_table_sql(sql)` on the tables `tables`. -/
def parse_create_table_sql (tables : Tables) (sql : List Nat) : Option Tables :=
  match (Lexer.create sql).scan with
  | none => none
  | some lex => parse_create_table_loop (sql.length + 2) lex [] 0 tables

/-- The tables after `parse_create_table_sql` has read the declaration
`CREATE TABLE t (name TEXT, id INTEGER)`. -/
def tables_name_id : Option Tables :=
  parse_create_table_sql [] (chars "CREATE TABLE t (name TEXT, id INTEGER)")

/-- An interior page of 512 bytes with the 71 cells `(rowid i + 1, left child
i + 3)` for `i = 0 .. 70`, put there one after the other by
`insert_interior_cell`, and the right-most pointer 74. -/
def wide_root_page : BTreePage :=
  let pg := forLoop (fun i pg => (pg.insert_interior_cell empty_table_db (i + 1) i (i + 3)).2) 71
    (BTreePage.fresh empty_table_db .InteriorTableBTreePage)
  ({ pg with header := { pg.header with right_most_pointer := 74 } }).write_header

/-- A leaf page of 512 bytes with the single row `rowid`, a text of 300
characters, put there by `insert_leaf_cell`. -/
def one_row_leaf (rowid : Nat) : BTreePage :=
  ((BTreePage.fresh empty_table_db .LeafTableBTreePage).insert_leaf_cell empty_table_db rowid 0
    (text_row 300 97)).2.1

/-- A database file of 74 pages of 512 bytes: page 2 is the table root
`wide_root_page`, and every page `p` of 3 .. 74 is the leaf `one_row_leaf (p - 2)`,
so that the table holds the rowids 1 .. 72, one per leaf, and the root has no
room for another key. -/
def wide_root_db : DB :=
  { file := fun j =>
      if j < 512 then (if j = 16 then 2 else if j = 31 then 74 else 0)
      else if j < 1024 then wide_root_page.bytes (j - 512)
      else (one_row_leaf (j / 512 - 1)).bytes (j % 512)
    file_size := 74 * 512
    page_size := 512
    unused_reserved_space := 0
    database_size_in_pages := 74
    uninit := fun _ => 0
    uninit8 := 0 }

/-- Page 1 of a database file as a table root: an interior page whose b-tree
header sits at offset 100, with the one cell `(rowid 1, left child 2)`, put
there by `insert_interior_cell`, and the right-most pointer 3. -/
def first_page_root : BTreePage :=
  let pg := (({ BTreePage.fresh empty_table_db .InteriorTableBTreePage with
    is_first_page := true }).insert_interior_cell empty_table_db 1 0 2).2
  ({ pg with header := { pg.header with right_most_pointer := 3 } }).write_header

/-- A database file of three pages of 512 bytes whose page 1 is the table root
`first_page_root` (with the page size and the page count of the file header at
the offsets 16 and 28) and whose pages 2 and 3 are the leaves `one_row_leaf 1`
and `one_row_leaf 2`: the table holds the rowids 1 and 2. -/
def first_page_root_db : DB :=
  { file := fun j =>
      if j = 16 then 2 else if j = 31 then 3
      else if j < 512 then first_page_root.bytes j
      else (one_row_leaf (j / 512)).bytes (j % 512)
    file_size := 3 * 512
    page_size := 512
    unused_reserved_space := 0
    database_size_in_pages := 3
    uninit := fun _ => 0
    uninit8 := 0 }

/-- The table of `empty_table_db` after the rowids 120 and 100 were inserted
with records of 297 and 198 bytes: the second cell takes the 201 bytes that
the space check lets in and overwrites the low byte of the cell pointer of
slot 1. -/
def overlapped_leaf_db : DB := db_after [(120, text_row 293 97), (100, text_row 194 97)]

/-- The rows of `separated_rows_db` in call order: the rowids 5 and 7 with
records of 297 bytes, then the rowid 2 with a record of 198 bytes. -/
def separated_rows : List (Nat × Payload) :=
  [(5, text_row 293 97), (7, text_row 293 98), (2, text_row 194 99)]

/-- The table of `empty_table_db` after the three inserts of `separated_rows`:
the second insert splits the root leaf, the third goes to the left leaf. -/
def separated_rows_db : DB := db_after separated_rows

/-- Local `last_ovflw_pg_size` of `insert_leaf_cell`, a `uint16_t`: the number
of payload bytes copied to the last overflow page, for the payload size `P` and
the directly stored size `directly_stored_payload < P`. -/
def last_ovflw_pg_size (db : DB) (P directly_stored_payload : Nat) : Nat :=
  let d := (db.get_U + 2 ^ 64 - 4) % 2 ^ 64
  let r := (P - directly_stored_payload) % d
  (if r = 0 then db.get_U + 65536 - 4 else r) % 65536

/-! ## The virtual sequence of a leaf split -/

/-- Size of cell `i` of the page, as the first loop of `get_split_index`
computes it: `compute_cell_size(get_cell_rowid(o), get_cell_payload_size(o))`
for `o = get_cell_content_offset(i)`. -/
def BTreePage.cell_size_at (pg : BTreePage) (db : DB) (i : Nat) : Nat :=
  pg.compute_cell_size db (pg.get_cell_rowid (pg.get_cell_content_offset i))
    (pg.get_cell_payload_size (pg.get_cell_content_offset i))

/-- Size of entry `j` of the virtual sequence: the cells of the page with a new
cell of size `new_size` inserted at `idx`. -/
def BTreePage.virtual_size (pg : BTreePage) (db : DB) (idx new_size j : Nat) : Nat :=
  if j < idx then pg.cell_size_at db j
  else if j = idx then new_size
  else pg.cell_size_at db (j - 1)

/-- Sum of the sizes of the first `k` entries of the virtual sequence. -/
def BTreePage.virtual_sum (pg : BTreePage) (db : DB) (idx new_size : Nat) : Nat → Nat
  | 0 => 0
  | k + 1 => BTreePage.virtual_sum pg db idx new_size k + pg.virtual_size db idx new_size k

/-- The distance `|S - 2 * sums[i]|` that `get_split_index` minimises. -/
def split_diff (S : Nat) (sums : Nat → Nat) (i : Nat) : Nat :=
  Int.natAbs ((S : Int) - 2 * (sums i : Int))

set_option maxRecDepth 100000
set_option synthInstance.maxSize 4096
set_option synthInstance.maxHeartbeats 400000

/-! ## Varint codec at the nine-byte boundary -/

/-- C10 (code behaviour at the failing input): for `v = 2^56` the function
`write_varint` emits nine bytes, and `read_varint` applied to them returns the
byte count 9 but the value `2^55`, not `v`. -/
theorem read_varint_write_varint_two_pow_56 :
    (write_varint (2 ^ 56) (fun _ => 0) 0).2 = 9 ∧
    read_varint (write_varint (2 ^ 56) (fun _ => 0) 0).1 0 = (2 ^ 55, 9) := by
  decide!

/-! ## Scenarios on a table that starts as an empty leaf -/

/-- C1 (code behaviour at the failing input): on the empty table of
`empty_table_db`, the calls `insert(2, 1, _)`, `insert(2, 3, _)` and
`insert(2, 2, _)` with records of 397, 98 and 398 bytes all return
`CellInserted`; afterwards `find(2, 1, _)` and `find(2, 2, _)` return
`CellFound` but `find(2, 3, _)` returns `CellNotFound`. -/
theorem find_misses_rowid_after_leaf_split :
    (insert_all 2 [(1, text_row 393 97), (3, text_row 94 98), (2, text_row 394 99)]
        empty_table_db).map
      (fun r => (r.1, r.2.find_code 30 2 1, r.2.find_code 30 2 2, r.2.find_code 30 2 3)) =
    some ([.CellInserted, .CellInserted, .CellInserted],
      some .CellFound, some .CellFound, some .CellNotFound) := by
  decide!

/-- C2 (code behaviour at the failing input): the root page 2 is a leaf holding
the single rowid 5 and `find(2, 5, _)` returns `CellFound`; the free space is
202 and the new cell for rowid 2 takes 201 bytes, so `insert_leaf_cell`
accepts it and `insert(2, 2, _)` returns `CellInserted`; afterwards
`find(2, 2, _)` returns `CellFound` and `find(2, 5, _)` returns `CellNotFound`. -/
theorem insert_without_split_loses_old_rowid :
    ((insert_all 2 [(5, text_row 293 97)] empty_table_db).bind fun r =>
      (BTreePage.load r.2 2).bind fun root =>
        (r.2.insert 2 2 (text_row 194 98)).map fun r2 =>
          (r.1, root.header.page_type, root.header.num_of_cells, root.rowid_at 0,
            r.2.find_code 30 2 5, root.compute_free_space,
            root.compute_cell_size r.2 2 (text_row 194 98).P,
            (root.insert_leaf_cell r.2 2 (root.lower_bound 2) (text_row 194 98)).1,
            r2.1, r2.2.find_code 30 2 2, r2.2.find_code 30 2 5)) =
    some ([.CellInserted], .LeafTableBTreePage, 1, 5, some .CellFound, 202, 201,
      .CellInserted, .CellInserted, some .CellFound, some .CellNotFound) := by
  decide!

/-- C4 (code behaviour at the failing input): page 2 is the root of its table, a
leaf with the rowids 1 and 3; `insert(2, 2, _)` finds it full, the split index
is 0, `check_split_is_enough` passes and the call returns `CellInserted`.  The
root becomes an interior page with the one cell `(left_child = 3, rowid = 1)`
and `right_most_pointer = 4`.  Page 4 is a leaf with two cells whose slot 0
points at offset 111 (rowid 2), but whose slot 1 holds the offset 98 although
the cell with rowid 3 was copied to offset 11: the rowid read through slot 1
is 98. -/
theorem root_split_right_page_slot_overwritten :
    ((insert_all 2 [(1, text_row 393 97), (3, text_row 94 98)] empty_table_db).bind fun r =>
      (BTreePage.load r.2 2).bind fun leaf =>
        (r.2.insert 2 2 (text_row 394 99)).bind fun r3 =>
          (BTreePage.load r3.2 2).bind fun root =>
            (BTreePage.load r3.2 4).map fun right =>
              ((leaf.header.page_type, leaf.header.num_of_cells, leaf.rowid_at 0, leaf.rowid_at 1),
               (leaf.lower_bound 2, (leaf.split_plan r.2 2 (text_row 394 99).P 1).1,
                r.2.check_split_is_enough 0 2 (leaf.split_plan r.2 2 (text_row 394 99).P 1).2.sums),
               (r3.1, root.header.page_type, root.header.num_of_cells,
                root.get_cell_left_child_pointer (root.get_cell_content_offset 0),
                root.rowid_at 0, root.header.right_most_pointer, r3.2.file_size),
               (right.header.page_type, right.header.num_of_cells,
                right.get_cell_content_offset 0, right.rowid_at 0,
                right.get_cell_content_offset 1, right.rowid_at 1, right.get_cell_rowid 11))) =
    some ((.LeafTableBTreePage, 2, 1, 3), (1, 0, true),
      (.CellInserted, .InteriorTableBTreePage, 1, 3, 1, 4, 2048),
      (.LeafTableBTreePage, 2, 111, 2, 98, 98, 3)) := by
  decide!

/-- The separator convention of a leaf split: after `insert(2, 1, _)`,
`insert(2, 2, _)` and `insert(2, 3, _)` with 200-byte records, all returning
`CellInserted`, the root page 2 is an interior page whose cell 0 has rowid 1
and left child 3, and page 3 is a leaf that stores the rowid 1: the key is the
last rowid of the left subtree, it is not strictly greater than all of them. -/
theorem left_subtree_holds_the_separator_key :
    ((insert_all 2 [(1, text_row 196 97), (2, text_row 196 98), (3, text_row 196 99)]
        empty_table_db).bind fun r =>
      (BTreePage.load r.2 2).bind fun root =>
        (BTreePage.load r.2 (root.get_cell_left_child_pointer (root.get_cell_content_offset 0))).map
          fun left =>
            (r.1, root.header.page_type, root.header.num_of_cells, root.rowid_at 0,
              root.get_cell_left_child_pointer (root.get_cell_content_offset 0),
              left.header.page_type, left.header.num_of_cells, left.rowid_at 0,
              decide (left.rowid_at 0 < root.rowid_at 0))) =
    some ([.CellInserted, .CellInserted, .CellInserted], .InteriorTableBTreePage, 1, 1, 3,
      .LeafTableBTreePage, 1, 1, false) := by
  decide!

/-- C7 (code behaviour at the failing input): with `U = 32768` and a payload of
`P = 102379 > X` bytes, `insert_leaf_cell` stores the cell on an empty leaf
(`CellInserted`, three overflow pages), and `read_cell` at that cell returns a
payload with the same `P` and rowid whose byte 4079 is 88, while byte 4079 of
the inserted payload is 63. -/
theorem read_cell_long_payload_differs :
    (((BTreePage.fresh large_page_db .LeafTableBTreePage).insert_leaf_cell large_page_db 7 0
        long_payload).1,
     (BTreePage.fresh large_page_db .LeafTableBTreePage).max_payload large_page_db,
     long_payload.bytes 4079,
     (((BTreePage.fresh large_page_db .LeafTableBTreePage).insert_leaf_cell large_page_db 7 0
        long_payload).2.1.read_cell
        ((BTreePage.fresh large_page_db .LeafTableBTreePage).insert_leaf_cell large_page_db 7 0
          long_payload).2.2 10
        (((BTreePage.fresh large_page_db .LeafTableBTreePage).insert_leaf_cell large_page_db 7 0
          long_payload).2.1.get_cell_content_offset 0) long_payload).map
       (fun p => (p.P, p.rowid, p.bytes 4079))) =
    (.CellInserted, 32733, 63, some (102379, 7, 88)) := by
  decide!

/-! ## Binary search on a page -/

/-- Rowids of the cells of a page, read through the cell-pointer array, are in
strictly increasing order. -/
theorem sorted_rowids_mono (pg : BTreePage)
    (hs : ∀ a b, a < b → b < pg.header.num_of_cells → pg.rowid_at a < pg.rowid_at b)
    (a b : Nat) (hab : a ≤ b) (hb : b < pg.header.num_of_cells) :
    pg.rowid_at a ≤ pg.rowid_at b := by
  rcases Nat.eq_or_lt_of_le hab with h | h
  · subst h; exact Nat.le_refl _
  · exact Nat.le_of_lt (hs a b h hb)

/-- Invariant of the loop of `lower_bound`: with enough fuel the result `r` lies
between `left` and `right`, every slot below `r` has a rowid smaller than `id`
and every slot from `r` on has a rowid at least `id`. -/
theorem lower_bound_loop_spec (pg : BTreePage) (id n : Nat)
    (hmono : ∀ a b, a ≤ b → b < n → pg.rowid_at a ≤ pg.rowid_at b) :
    ∀ fuel left right, right - left ≤ fuel → left ≤ right → right ≤ n →
      (∀ i, i < left → pg.rowid_at i < id) →
      (∀ i, right ≤ i → i < n → id ≤ pg.rowid_at i) →
      left ≤ pg.lower_bound_loop id fuel left right ∧
      pg.lower_bound_loop id fuel left right ≤ right ∧
      (∀ i, i < pg.lower_bound_loop id fuel left right → pg.rowid_at i < id) ∧
      (∀ i, pg.lower_bound_loop id fuel left right ≤ i → i < n → id ≤ pg.rowid_at i) := by
  intro fuel
  induction fuel with
  | zero =>
    intro left right hf hlr hrn hlo hhi
    have hEq : left = right := by omega
    subst hEq
    simp only [BTreePage.lower_bound_loop]
    exact ⟨Nat.le_refl _, Nat.le_refl _, hlo, hhi⟩
  | succ fuel ih =>
    intro left right hf hlr hrn hlo hhi
    by_cases hlt : left < right
    · have hmid1 : left ≤ (right + left) / 2 := by omega
      have hmid2 : (right + left) / 2 < right := by omega
      by_cases hc : pg.compare_rowid ((right + left) / 2) id = true
      · have hgt : pg.rowid_at ((right + left) / 2) < id := by
          simpa [BTreePage.compare_rowid, BTreePage.rowid_at] using hc
        have hrec := ih ((right + left) / 2 + 1) right (by omega) (by omega) hrn
          (fun i hi => Nat.lt_of_le_of_lt
            (hmono i ((right + left) / 2) (by omega) (by omega)) hgt) hhi
        simp only [BTreePage.lower_bound_loop, hlt, if_true, hc]
        exact ⟨by omega, hrec.2.1, hrec.2.2.1, hrec.2.2.2⟩
      · have hge : id ≤ pg.rowid_at ((right + left) / 2) := by
          simpa [BTreePage.compare_rowid, BTreePage.rowid_at] using hc
        have hrec := ih left ((right + left) / 2) (by omega) hmid1 (by omega) hlo
          (fun i hi hin => Nat.le_trans hge (hmono ((right + left) / 2) i hi hin))
        have hc2 : pg.compare_rowid ((right + left) / 2) id = false := by
          simpa using hc
        simp only [BTreePage.lower_bound_loop, hlt, if_true, hc2, Bool.false_eq_true, if_false]
        exact ⟨hrec.1, by omega, hrec.2.2.1, hrec.2.2.2⟩
    · have hEq : left = right := by omega
      subst hEq
      simp only [BTreePage.lower_bound_loop, hlt, if_false]
      exact ⟨Nat.le_refl _, Nat.le_refl _, hlo, hhi⟩

/-- On a page whose rowids are strictly increasing, `lower_bound(id)` is at most
`num_of_cells`, every slot below it has a rowid smaller than `id`, and every
slot from it on has a rowid at least `id`. -/
theorem lower_bound_spec (pg : BTreePage) (id : Nat)
    (hs : ∀ a b, a < b → b < pg.header.num_of_cells → pg.rowid_at a < pg.rowid_at b) :
    pg.lower_bound id ≤ pg.header.num_of_cells ∧
    (∀ i, i < pg.lower_bound id → pg.rowid_at i < id) ∧
    (∀ i, pg.lower_bound id ≤ i → i < pg.header.num_of_cells → id ≤ pg.rowid_at i) := by
  have h := lower_bound_loop_spec pg id pg.header.num_of_cells (sorted_rowids_mono pg hs)
    pg.header.num_of_cells 0 pg.header.num_of_cells (by omega) (Nat.zero_le _) (Nat.le_refl _)
    (fun i hi => absurd hi (Nat.not_lt_zero i)) (fun i hi hin => absurd hin (by omega))
  exact ⟨h.2.1, h.2.2.1, h.2.2.2⟩

/-- On a page whose rowids are strictly increasing, `lower_bound(id)` is the slot
of the cell with rowid `id` when there is one. -/
theorem lower_bound_of_mem (pg : BTreePage) (id j : Nat)
    (hs : ∀ a b, a < b → b < pg.header.num_of_cells → pg.rowid_at a < pg.rowid_at b)
    (hj : j < pg.header.num_of_cells) (hid : pg.rowid_at j = id) :
    pg.lower_bound id = j := by
  obtain ⟨_, hlo, hhi⟩ := lower_bound_spec pg id hs
  rcases Nat.lt_trichotomy (pg.lower_bound id) j with h | h | h
  · have h1 := hhi (pg.lower_bound id) (Nat.le_refl _) (by omega)
    have h2 := hs (pg.lower_bound id) j h hj
    omega
  · exact h
  · have := hlo j h
    omega

/-! ## Insert of a rowid that is already stored -/

/-- An option that is `some` is `some` of its `getD`. -/
theorem eq_some_getD {α : Type} (o : Option α) (d : α) (h : o.isSome = true) :
    o = some (o.getD d) := by
  cases o with
  | none => cases h
  | some a => rfl

/-- `DB::insert` in terms of `reach_leaf`. -/
theorem insert_eq_of_reach_leaf (db : DB) (root_pg_n id : Nat) (payload : Payload)
    (x : BTreePage × Nat × List Nat) (h : db.reach_leaf root_pg_n id = some x) :
    db.insert root_pg_n id payload =
      if x.1.lower_bound id ≠ x.1.header.num_of_cells ∧
          x.1.get_cell_rowid (x.1.get_cell_content_offset (x.1.lower_bound id)) = id then
        some (.RowidAlreadyInDatabase, db)
      else if (x.1.insert_leaf_cell db id (x.1.lower_bound id) payload).1 = .CellInserted then
        some (.CellInserted,
          (x.1.insert_leaf_cell db id (x.1.lower_bound id) payload).2.2.write x.2.1
            (x.1.insert_leaf_cell db id (x.1.lower_bound id) payload).2.1.bytes)
      else db.insert_split root_pg_n id payload x.1 x.2.1 x.2.2 (x.1.lower_bound id) := by
  rcases x with ⟨cp, cn, ps⟩
  unfold DB.reach_leaf at h
  unfold DB.insert
  cases hl : BTreePage.load db root_pg_n with
  | none => rw [hl] at h; cases h
  | some root =>
    rw [hl] at h
    simp only at h
    simp only [h]

/-- Duplicate rowid on a leaf in rowid order: when the leaf reached by the
descent of `DB::insert` lists its cells in strictly increasing rowid order
(as `get_cell_rowid` reads them) and one of them has the rowid `id`, the call
returns `RowidAlreadyInDatabase` and the database is left as it was: the file
content and length and `header.database_size_in_pages` are unchanged, and
`DB::find` gives afterwards what it gave before. -/
theorem insert_existing_rowid_no_mutation (db : DB) (root_pg_n id : Nat) (payload : Payload)
    (x : BTreePage × Nat × List Nat) (j : Nat)
    (hleaf : db.reach_leaf root_pg_n id = some x)
    (hs : x.1.sorted)
    (hj : j < x.1.header.num_of_cells) (hid : x.1.rowid_at j = id) :
    ∃ db1, db.insert root_pg_n id payload = some (.RowidAlreadyInDatabase, db1) ∧
      db1.file = db.file ∧ db1.file_size = db.file_size ∧
      db1.database_size_in_pages = db.database_size_in_pages ∧
      ∀ fuel p, db1.find fuel root_pg_n id p = db.find fuel root_pg_n id p := by
  refine ⟨db, ?_, rfl, rfl, rfl, fun _ _ => rfl⟩
  rw [insert_eq_of_reach_leaf db root_pg_n id payload x hleaf]
  have hlb : x.1.lower_bound id = j := lower_bound_of_mem x.1 id j hs hj hid
  have hrow : x.1.get_cell_rowid (x.1.get_cell_content_offset j) = id := hid
  rw [hlb, if_pos ⟨Nat.ne_of_lt hj, hrow⟩]

/-- The lemma `insert_existing_rowid_no_mutation` at a concrete input: in the
table that holds the rowids 1 and 2, `insert(2, 2, _)` reaches the root leaf,
whose slot 1 has the rowid 2. -/
theorem insert_existing_rowid_no_mutation_witness :
    two_row_db.find_code 30 2 2 = some .CellFound ∧
    ∃ db1, two_row_db.insert 2 2 (text_row 7 99) = some (.RowidAlreadyInDatabase, db1) ∧
      db1.file = two_row_db.file ∧ db1.file_size = two_row_db.file_size ∧
      db1.database_size_in_pages = two_row_db.database_size_in_pages ∧
      ∀ fuel p, db1.find fuel 2 2 p = two_row_db.find fuel 2 2 p := by
  have hleaf : (two_row_db.reach_leaf 2 2).isSome = true := by decide!
  have hn : ((two_row_db.reach_leaf 2 2).getD default).1.header.num_of_cells = 2 := by decide!
  have h0 : ((two_row_db.reach_leaf 2 2).getD default).1.rowid_at 0 = 1 := by decide!
  have h1 : ((two_row_db.reach_leaf 2 2).getD default).1.rowid_at 1 = 2 := by decide!
  refine ⟨by decide!, ?_⟩
  exact insert_existing_rowid_no_mutation two_row_db 2 2 (text_row 7 99)
    ((two_row_db.reach_leaf 2 2).getD default) 1 (eq_some_getD _ _ hleaf)
    (by
      intro a b hab hb
      rw [hn] at hb
      have ha : a = 0 := by omega
      have hb1 : b = 1 := by omega
      subst ha; subst hb1
      rw [h0, h1]; decide)
    (by rw [hn]; decide) h1

/-! ## Point lookup on a well-formed table b-tree -/

/-- A page loaded from a page number other than 1 has `is_first_page` clear. -/
theorem load_is_first_page (db : DB) (pg_n : Nat) (pg : BTreePage)
    (h : BTreePage.load db pg_n = some pg) (hn : pg_n ≠ 1) : pg.is_first_page = false := by
  unfold BTreePage.load at h
  cases hr : db.read_page pg_n with
  | none => rw [hr] at h; cases h
  | some b =>
    rw [hr] at h
    simp only [Option.some.injEq] at h
    rw [← h]
    simp [hn]

/-- On a page object whose `is_first_page` is clear, `recreate(pg_n)` gives the
page object that the constructor gives. -/
theorem recreate_page_eq_load (db : DB) (cur : BTreePage) (pg_n : Nat)
    (h : cur.is_first_page = false) : cur.recreate_page db pg_n = BTreePage.load db pg_n := by
  unfold BTreePage.recreate_page BTreePage.load
  cases db.read_page pg_n with
  | none => rfl
  | some b => simp [h]

/-- The child chosen by the descent is child `lower_bound(id)`. -/
theorem child_for_eq_child_at (pg : BTreePage) (id : Nat)
    (h : pg.lower_bound id ≤ pg.header.num_of_cells) :
    pg.child_for id = pg.child_at (pg.lower_bound id) := by
  unfold BTreePage.child_for BTreePage.child_at
  by_cases hlt : pg.lower_bound id < pg.header.num_of_cells
  · have hne : pg.lower_bound id ≠ pg.header.num_of_cells := by omega
    simp only [hne, ne_eq, not_false_eq_true, if_true, hlt]
  · have he : pg.lower_bound id = pg.header.num_of_cells := by omega
    simp only [he, ne_eq, not_true_eq_false, if_false, Nat.lt_irrefl]

/-- Every rowid stored in a well-formed tree satisfies the range predicate of
the tree. -/
theorem leaf_cell_in_range (db : DB) (leaf : BTreePage) (i : Nat) :
    ∀ d pg_n (R : Nat → Prop), TableTreeOffFirstPage db d pg_n R → LeafCell db leaf i d pg_n →
      R (leaf.rowid_at i) := by
  intro d
  induction d with
  | zero =>
    intro pg_n R ht hc
    obtain ⟨_, pg, hl, _, _, hR⟩ := ht
    obtain ⟨hl2, _, hi⟩ := hc
    rw [hl] at hl2
    cases hl2
    exact hR i hi
  | succ d ih =>
    intro pg_n R ht hc
    obtain ⟨_, pg, hl, hcase⟩ := ht
    rcases hc with ⟨hl2, hty, hi⟩ | ⟨pg2, hl2, hty, k, hk, hrec⟩
    · rw [hl] at hl2
      cases hl2
      rcases hcase with ⟨_, _, hR⟩ | ⟨hint, _, _⟩
      · exact hR i hi
      · rw [hint] at hty; cases hty
    · rw [hl] at hl2
      cases hl2
      rcases hcase with ⟨hleaf, _, _⟩ | ⟨_, _, hch⟩
      · rw [hleaf] at hty; cases hty
      · exact (ih (pg.child_at k) _ (hch k hk) hrec).1

/-- The descent loop of `DB::find` on a well-formed tree ends, with enough fuel,
on a leaf of the tree that lists its cells in increasing rowid order, and
every cell of the tree with the rowid `id` is a cell of that leaf. -/
theorem find_descend_spec (db : DB) (id : Nat) :
    ∀ d pg_n (R : Nat → Prop) cur fuel, TableTreeOffFirstPage db d pg_n R →
      BTreePage.load db pg_n = some cur → d < fuel →
      ∃ leaf, db.find_descend id fuel cur = some leaf ∧
        leaf.header.page_type = .LeafTableBTreePage ∧ leaf.sorted ∧
        (∀ i, i < leaf.header.num_of_cells → LeafCell db leaf i d pg_n) ∧
        (∀ leaf2 i, LeafCell db leaf2 i d pg_n → leaf2.rowid_at i = id → leaf2 = leaf) := by
  intro d
  induction d with
  | zero =>
    intro pg_n R cur fuel ht hl hf
    obtain ⟨_, pg, hl1, hty, hs, _⟩ := ht
    rw [hl] at hl1
    cases hl1
    obtain ⟨f, rfl⟩ : ∃ f, fuel = f + 1 := ⟨fuel - 1, by omega⟩
    refine ⟨cur, ?_, hty, hs, fun i hi => ⟨hl, hty, hi⟩, ?_⟩
    · simp [DB.find_descend, hty]
    · intro leaf2 i hc _
      obtain ⟨hl2, _, _⟩ := hc
      rw [hl] at hl2
      cases hl2
      rfl
  | succ d ih =>
    intro pg_n R cur fuel ht hl hf
    obtain ⟨hne1, pg, hl1, hcase⟩ := ht
    rw [hl] at hl1
    cases hl1
    obtain ⟨f, rfl⟩ : ∃ f, fuel = f + 1 := ⟨fuel - 1, by omega⟩
    rcases hcase with ⟨hty, hs, _⟩ | ⟨hty, hs, hch⟩
    · refine ⟨cur, ?_, hty, hs, fun i hi => Or.inl ⟨hl, hty, hi⟩, ?_⟩
      · simp [DB.find_descend, hty]
      · intro leaf2 i hc _
        rcases hc with ⟨hl2, _, _⟩ | ⟨pg2, hl2, hty2, _⟩
        · rw [hl] at hl2
          cases hl2
          rfl
        · rw [hl] at hl2
          cases hl2
          rw [hty] at hty2
          cases hty2
    · obtain ⟨hlb, hlo, hhi⟩ := lower_bound_spec cur id hs
      have hchild := hch (cur.lower_bound id) hlb
      have hchild2 := hchild
      have hcne : cur.child_at (cur.lower_bound id) ≠ 1 := by
        cases d with
        | zero => exact hchild2.1
        | succ d => exact hchild2.1
      have hcload : ∃ nx, BTreePage.load db (cur.child_at (cur.lower_bound id)) = some nx := by
        cases d with
        | zero =>
          obtain ⟨_, nx, hnx, _⟩ := hchild2
          exact ⟨nx, hnx⟩
        | succ d =>
          obtain ⟨_, nx, hnx, _⟩ := hchild2
          exact ⟨nx, hnx⟩
      obtain ⟨nx, hnx⟩ := hcload
      obtain ⟨leaf, hfd, hlty, hlsorted, hcells, huniq⟩ :=
        ih (cur.child_at (cur.lower_bound id)) _ nx f hchild hnx (by omega)
      have hnotleaf : cur.header.page_type ≠ .LeafTableBTreePage := by
        rw [hty]; decide
      have hrec : cur.recreate_page db (cur.child_for id) = some nx := by
        rw [recreate_page_eq_load db cur _ (load_is_first_page db pg_n cur hl hne1),
          child_for_eq_child_at cur id hlb, hnx]
      refine ⟨leaf, ?_, hlty, hlsorted, ?_, ?_⟩
      · simp only [DB.find_descend, hnotleaf, if_false, hrec]
        exact hfd
      · intro i hi
        exact Or.inr ⟨cur, hl, hty, cur.lower_bound id, hlb, hcells i hi⟩
      · intro leaf2 i hc hrow
        rcases hc with ⟨hl2, hty2, _⟩ | ⟨pg2, hl2, _, k, hk, hrec2⟩
        · rw [hl] at hl2
          cases hl2
          rw [hty] at hty2
          cases hty2
        · rw [hl] at hl2
          cases hl2
          have hrange := leaf_cell_in_range db leaf2 i d (cur.child_at k) _ (hch k hk) hrec2
          rw [hrow] at hrange
          obtain ⟨_, hup, hdown⟩ := hrange
          have hk_eq : k = cur.lower_bound id := by
            rcases Nat.lt_trichotomy k (cur.lower_bound id) with h | h | h
            · have h1 := hlo k h
              have h2 := hup (by omega)
              omega
            · exact h
            · have h1 := hdown (by omega)
              have h2 := hhi (k - 1) (by omega) (by omega)
              omega
          subst hk_eq
          exact huniq leaf2 i hrec2 hrow

/-- The root of a well-formed tree is not page 1 and lies in the file. -/
theorem table_tree_load (db : DB) (d pg_n : Nat) (R : Nat → Prop) (h : TableTreeOffFirstPage db d pg_n R) :
    pg_n ≠ 1 ∧ ∃ cur, BTreePage.load db pg_n = some cur := by
  cases d with
  | zero =>
    obtain ⟨h1, pg, hl, _⟩ := h
    exact ⟨h1, pg, hl⟩
  | succ d =>
    obtain ⟨h1, pg, hl, _⟩ := h
    exact ⟨h1, pg, hl⟩

/-- A leaf cell of a tree is a slot below `num_of_cells` of its leaf. -/
theorem leaf_cell_lt (db : DB) (leaf : BTreePage) (i : Nat) :
    ∀ d pg_n, LeafCell db leaf i d pg_n → i < leaf.header.num_of_cells := by
  intro d
  induction d with
  | zero =>
    intro pg_n h
    exact h.2.2
  | succ d ih =>
    intro pg_n h
    rcases h with ⟨_, _, hi⟩ | ⟨pg, _, _, k, _, hrec⟩
    · exact hi
    · exact ih _ hrec

/-- Search on a tree that stays off page 1: on a table b-tree of depth at most
`d` (every page in strictly increasing rowid order as `get_cell_rowid` reads
the rowids, every interior key separating its children, no page being
page 1) whose leaf cells can all be read, `DB::find` with more fuel
than `d` returns a result; the result is `CellFound` exactly when some leaf
cell of the tree has the rowid `id`, the payload is then the one `read_cell`
builds from that cell, and otherwise the result is `CellNotFound` with `*p`
untouched. -/
theorem find_on_table_tree (db : DB) (d fuel root_pg_n id : Nat) (p : Payload)
    (ht : TableTreeOffFirstPage db d root_pg_n (fun _ => True)) (hfuel : d < fuel)
    (hread : ∀ leaf i, LeafCell db leaf i d root_pg_n →
      (leaf.read_cell db fuel (leaf.get_cell_content_offset i) p).isSome = true) :
    ∃ r, db.find fuel root_pg_n id p = some r ∧
      (r.1 = .CellFound ↔ ∃ leaf i, LeafCell db leaf i d root_pg_n ∧ leaf.rowid_at i = id) ∧
      (r.1 = .CellFound → ∃ leaf i, LeafCell db leaf i d root_pg_n ∧ leaf.rowid_at i = id ∧
        leaf.read_cell db fuel (leaf.get_cell_content_offset i) p = some r.2) ∧
      (r.1 ≠ .CellFound → r = (.CellNotFound, p)) := by
  obtain ⟨_, cur, hl⟩ := table_tree_load db d root_pg_n _ ht
  obtain ⟨leaf, hfd, _, hs, hcells, huniq⟩ :=
    find_descend_spec db id d root_pg_n _ cur fuel ht hl hfuel
  have hnone : ∀ leaf2 i, LeafCell db leaf2 i d root_pg_n → leaf2.rowid_at i = id →
      leaf.lower_bound id < leaf.header.num_of_cells ∧
        leaf.rowid_at (leaf.lower_bound id) = id := by
    intro leaf2 i hc hrow
    have he := huniq leaf2 i hc hrow
    subst he
    have hi := leaf_cell_lt db leaf2 i d root_pg_n hc
    have hlb := lower_bound_of_mem leaf2 id i hs hi hrow
    rw [hlb]
    exact ⟨hi, hrow⟩
  by_cases hidx : leaf.lower_bound id = leaf.header.num_of_cells
  · refine ⟨(.CellNotFound, p), ?_, ?_, ?_, fun _ => rfl⟩
    · simp only [DB.find, hl, hfd, hidx, if_true]
    · constructor
      · intro h; cases h
      · rintro ⟨leaf2, i, hc, hrow⟩
        have := (hnone leaf2 i hc hrow).1
        omega
    · intro h; cases h
  · by_cases hrow : leaf.rowid_at (leaf.lower_bound id) = id
    · have hlt : leaf.lower_bound id < leaf.header.num_of_cells := by
        have := (lower_bound_spec leaf id hs).1
        omega
      have hc := hcells _ hlt
      have hsome := hread leaf _ hc
      obtain ⟨q, hq⟩ : ∃ q, leaf.read_cell db fuel
          (leaf.get_cell_content_offset (leaf.lower_bound id)) p = some q := by
        cases hrc : leaf.read_cell db fuel
            (leaf.get_cell_content_offset (leaf.lower_bound id)) p with
        | none => rw [hrc] at hsome; cases hsome
        | some q => exact ⟨q, rfl⟩
      have hrow2 : leaf.get_cell_rowid (leaf.get_cell_content_offset (leaf.lower_bound id)) = id :=
        hrow
      refine ⟨(.CellFound, q), ?_, ?_, ?_, fun h => absurd rfl h⟩
      · simp only [DB.find, hl, hfd, hidx, if_false, hrow2, ne_eq, not_true_eq_false, hq]
      · exact ⟨fun _ => ⟨leaf, _, hc, hrow⟩, fun _ => rfl⟩
      · intro _
        exact ⟨leaf, _, hc, hrow, hq⟩
    · have hrow2 : leaf.get_cell_rowid (leaf.get_cell_content_offset (leaf.lower_bound id)) ≠ id :=
        hrow
      refine ⟨(.CellNotFound, p), ?_, ?_, ?_, fun _ => rfl⟩
      · simp only [DB.find, hl, hfd, hidx, if_false, hrow2, ne_eq, not_false_eq_true, if_true]
      · constructor
        · intro h; cases h
        · rintro ⟨leaf2, i, hc, hr⟩
          exact absurd (hnone leaf2 i hc hr).2 hrow
      · intro h; cases h

/-- A page of `three_row_db` that can be read is `page_of` it. -/
theorem load_eq_page_of (db : DB) (pg_n : Nat) (h : (BTreePage.load db pg_n).isSome = true) :
    BTreePage.load db pg_n = some (page_of db pg_n) :=
  eq_some_getD _ _ h

/-- The tree of `three_row_db` rooted at page 2 is a well-formed table b-tree of
depth 1. -/
theorem three_row_db_table_tree : TableTreeOffFirstPage three_row_db 1 2 (fun _ => True) := by
  have hl2 : BTreePage.load three_row_db 2 = some (page_of three_row_db 2) :=
    load_eq_page_of _ _ (by decide!)
  have hl3 : BTreePage.load three_row_db 3 = some (page_of three_row_db 3) :=
    load_eq_page_of _ _ (by decide!)
  have hl4 : BTreePage.load three_row_db 4 = some (page_of three_row_db 4) :=
    load_eq_page_of _ _ (by decide!)
  have hn2 : (page_of three_row_db 2).header.num_of_cells = 1 := by decide!
  have hn3 : (page_of three_row_db 3).header.num_of_cells = 1 := by decide!
  have hn4 : (page_of three_row_db 4).header.num_of_cells = 2 := by decide!
  have hc0 : (page_of three_row_db 2).child_at 0 = 3 := by decide!
  have hc1 : (page_of three_row_db 2).child_at 1 = 4 := by decide!
  have hk : (page_of three_row_db 2).rowid_at 0 = 1 := by decide!
  have h30 : (page_of three_row_db 3).rowid_at 0 = 1 := by decide!
  have h40 : (page_of three_row_db 4).rowid_at 0 = 2 := by decide!
  have h41 : (page_of three_row_db 4).rowid_at 1 = 3 := by decide!
  refine ⟨by decide, page_of three_row_db 2, hl2, Or.inr ⟨by decide!, ?_, ?_⟩⟩
  · intro a b hab hb
    rw [hn2] at hb
    omega
  · intro k hk1
    rw [hn2] at hk1
    have hk2 : k = 0 ∨ k = 1 := by omega
    rcases hk2 with rfl | rfl
    · rw [hc0]
      refine ⟨by decide, page_of three_row_db 3, hl3, by decide!, ?_, ?_⟩
      · intro a b hab hb
        rw [hn3] at hb
        omega
      · intro i hi
        rw [hn3] at hi
        have hi0 : i = 0 := by omega
        subst hi0
        rw [h30, hk]
        exact ⟨trivial, fun _ => Nat.le_refl _, fun h => absurd h (by decide)⟩
    · rw [hc1]
      refine ⟨by decide, page_of three_row_db 4, hl4, by decide!, ?_, ?_⟩
      · intro a b hab hb
        rw [hn4] at hb
        have ha : a = 0 := by omega
        have hb1 : b = 1 := by omega
        subst ha; subst hb1
        rw [h40, h41]; decide
      · intro i hi
        rw [hn2]
        rw [hn4] at hi
        have hi0 : i = 0 ∨ i = 1 := by omega
        rcases hi0 with rfl | rfl
        · rw [h40]
          exact ⟨trivial, fun h => absurd h (by decide), fun _ => by
            show (page_of three_row_db 2).rowid_at 0 < 2
            rw [hk]; decide⟩
        · rw [h41]
          exact ⟨trivial, fun h => absurd h (by decide), fun _ => by
            show (page_of three_row_db 2).rowid_at 0 < 3
            rw [hk]; decide⟩

/-- The lemma `find_on_table_tree` at a concrete input: on `three_row_db`, whose
table is the root page 2 with the leaves 3 and 4, `find(2, 3, _)` returns
`CellFound`, the rowid 3 being stored in slot 1 of page 4. -/
theorem find_on_table_tree_witness :
    ∃ r, three_row_db.find 5 2 3 no_payload = some r ∧ r.1 = .CellFound ∧
      ∃ leaf i, LeafCell three_row_db leaf i 1 2 ∧ leaf.rowid_at i = 3 ∧
        leaf.read_cell three_row_db 5 (leaf.get_cell_content_offset i) no_payload = some r.2 := by
  have hl2 : BTreePage.load three_row_db 2 = some (page_of three_row_db 2) :=
    load_eq_page_of _ _ (by decide!)
  have hl3 : BTreePage.load three_row_db 3 = some (page_of three_row_db 3) :=
    load_eq_page_of _ _ (by decide!)
  have hl4 : BTreePage.load three_row_db 4 = some (page_of three_row_db 4) :=
    load_eq_page_of _ _ (by decide!)
  have hn2 : (page_of three_row_db 2).header.num_of_cells = 1 := by decide!
  have hn3 : (page_of three_row_db 3).header.num_of_cells = 1 := by decide!
  have hn4 : (page_of three_row_db 4).header.num_of_cells = 2 := by decide!
  have hc0 : (page_of three_row_db 2).child_at 0 = 3 := by decide!
  have hc1 : (page_of three_row_db 2).child_at 1 = 4 := by decide!
  have ht2 : (page_of three_row_db 2).header.page_type = .InteriorTableBTreePage := by decide!
  have ht4 : (page_of three_row_db 4).header.page_type = .LeafTableBTreePage := by decide!
  have hread : ∀ leaf i, LeafCell three_row_db leaf i 1 2 →
      (leaf.read_cell three_row_db 5 (leaf.get_cell_content_offset i) no_payload).isSome
        = true := by
    intro leaf i hc
    rcases hc with ⟨hl, hty, _⟩ | ⟨pg, hl, _, k, hk, hl5, _, hi⟩
    · rw [hl2] at hl
      cases hl
      rw [ht2] at hty
      cases hty
    · rw [hl2] at hl
      cases hl
      rw [hn2] at hk
      have hk2 : k = 0 ∨ k = 1 := by omega
      rcases hk2 with rfl | rfl
      · rw [hc0, hl3] at hl5
        cases hl5
        rw [hn3] at hi
        have hi0 : i = 0 := by omega
        subst hi0
        decide!
      · rw [hc1, hl4] at hl5
        cases hl5
        rw [hn4] at hi
        have hi0 : i = 0 ∨ i = 1 := by omega
        rcases hi0 with rfl | rfl
        · decide!
        · decide!
  obtain ⟨r, hfind, hiff, hfound, _⟩ :=
    find_on_table_tree three_row_db 1 5 2 3 no_payload three_row_db_table_tree (by decide) hread
  have hex : ∃ leaf i, LeafCell three_row_db leaf i 1 2 ∧ leaf.rowid_at i = 3 :=
    ⟨page_of three_row_db 4, 1,
      Or.inr ⟨page_of three_row_db 2, hl2, ht2, 1, by rw [hn2],
        by rw [hc1]; exact ⟨hl4, ht4, by rw [hn4]; decide⟩⟩,
      by decide!⟩
  exact ⟨r, hfind, hiff.mpr hex, hfound (hiff.mpr hex)⟩

/-! ## Big-endian words -/

/-- Four bytes combined with shifts and bitwise or are their base-256 number. -/
theorem or_of_four_bytes (b0 b1 b2 b3 : Nat) (h1 : b1 < 256) (h2 : b2 < 256) (h3 : b3 < 256) :
    (b0 <<< 24) ||| (b1 <<< 16) ||| (b2 <<< 8) ||| b3 =
      b0 * 2 ^ 24 + b1 * 2 ^ 16 + b2 * 2 ^ 8 + b3 := by
  rw [Nat.lor_assoc, Nat.lor_assoc]
  simp only [Nat.shiftLeft_eq]
  have e3 : b2 * 2 ^ 8 ||| b3 = b2 * 2 ^ 8 + b3 := by
    rw [Nat.mul_comm, ← Nat.mul_add_lt_is_or (by omega)]
  have e2 : b1 * 2 ^ 16 ||| (b2 * 2 ^ 8 + b3) = b1 * 2 ^ 16 + (b2 * 2 ^ 8 + b3) := by
    rw [Nat.mul_comm, ← Nat.mul_add_lt_is_or (by omega)]
  have e1 : b0 * 2 ^ 24 ||| (b1 * 2 ^ 16 + (b2 * 2 ^ 8 + b3)) =
      b0 * 2 ^ 24 + (b1 * 2 ^ 16 + (b2 * 2 ^ 8 + b3)) := by
    rw [Nat.mul_comm, ← Nat.mul_add_lt_is_or (by omega)]
  rw [e3, e2, e1]
  omega

/-- Masking with `0xFF` is the remainder modulo 256. -/
theorem and_ff (x : Nat) : x &&& 0xFF = x % 256 := by
  have e : (0xFF : Nat) = 2 ^ 8 - 1 := by norm_num
  rw [e, Nat.and_pow_two_sub_one_eq_mod]

/-- The four bytes `write_big_endian32` stores. -/
theorem write_big_endian32_bytes (v : Nat) (m : Mem) (o : Nat) :
    (write_big_endian32 v m o) o = v / 2 ^ 24 % 256 ∧
    (write_big_endian32 v m o) (o + 1) = v / 2 ^ 16 % 256 ∧
    (write_big_endian32 v m o) (o + 2) = v / 2 ^ 8 % 256 ∧
    (write_big_endian32 v m o) (o + 3) = v % 256 := by
  simp only [write_big_endian32, Mem.store8, and_ff, Nat.shiftRight_eq_div_pow]
  refine ⟨?_, ?_, ?_, ?_⟩
  · simp
  · simp
  · simp
  · simp

/-- `read_big_endian32` as a base-256 number. -/
theorem read_big_endian32_eq (m : Mem) (o : Nat) :
    read_big_endian32 m o =
      m o % 256 * 2 ^ 24 + m (o + 1) % 256 * 2 ^ 16 + m (o + 2) % 256 * 2 ^ 8 + m (o + 3) % 256 := by
  unfold read_big_endian32
  exact or_of_four_bytes _ _ _ _ (Nat.mod_lt _ (by decide)) (Nat.mod_lt _ (by decide))
    (Nat.mod_lt _ (by decide))

/-- A memory whose four bytes at `o` are those of `v < 2^32` reads back as `v`. -/
theorem read_big_endian32_of_bytes (m : Mem) (o v : Nat) (hv : v < 2 ^ 32)
    (h0 : m o = v / 2 ^ 24 % 256) (h1 : m (o + 1) = v / 2 ^ 16 % 256)
    (h2 : m (o + 2) = v / 2 ^ 8 % 256) (h3 : m (o + 3) = v % 256) :
    read_big_endian32 m o = v := by
  rw [read_big_endian32_eq, h0, h1, h2, h3]
  omega

/-! ## The pager and the size counter -/

/-- Fields of the database after `DB::write`. -/
theorem write_fields (db : DB) (pg_n : Nat) (b : Mem) :
    (db.write pg_n b).page_size = db.page_size ∧
    (db.write pg_n b).unused_reserved_space = db.unused_reserved_space ∧
    (db.write pg_n b).uninit = db.uninit ∧
    (db.write pg_n b).database_size_in_pages = db.database_size_in_pages ∧
    (db.write pg_n b).file_size =
      max (max db.file_size (db.page_offset pg_n + db.page_size)) (28 + 4) :=
  ⟨rfl, rfl, rfl, rfl, rfl⟩

/-- Offset of page `pg_n` when no 32-bit wrap occurs. -/
theorem page_offset_eq (db : DB) (pg_n : Nat) (h1 : 1 ≤ pg_n) (hps : 0 < db.page_size)
    (h : pg_n * db.page_size ≤ 2 ^ 32) : db.page_offset pg_n = (pg_n - 1) * db.page_size := by
  unfold DB.page_offset DB.get_page_size
  have hle : pg_n ≤ 2 ^ 32 := by
    calc pg_n = pg_n * 1 := (Nat.mul_one _).symm
      _ ≤ pg_n * db.page_size := Nat.mul_le_mul_left _ hps
      _ ≤ 2 ^ 32 := h
  have e1 : (pg_n + 2 ^ 32 - 1) % 2 ^ 32 = pg_n - 1 := by omega
  rw [e1]
  apply Nat.mod_eq_of_lt
  have : (pg_n - 1) * db.page_size + db.page_size = pg_n * db.page_size := by
    have : pg_n = (pg_n - 1) + 1 := by omega
    conv_rhs => rw [this, Nat.add_mul, Nat.one_mul]
  omega

/-- Whole pages in a file that was extended to `p` pages. -/
theorem max_mul_div (a p s : Nat) (h : 0 < s) : (max a (p * s)) / s = max (a / s) p := by
  rcases le_total a (p * s) with h1 | h1
  · rw [max_eq_right h1, Nat.mul_div_cancel _ h]
    have : a / s ≤ p := Nat.div_le_of_le_mul (by rw [Nat.mul_comm]; exact h1)
    omega
  · rw [max_eq_left h1]
    have : p ≤ a / s := (Nat.le_div_iff_mul_le h).mpr h1
    omega

/-- `DB::write` of page `pg_n` leaves a file of `max F pg_n` whole pages. -/
theorem SizeAt.write (db0 db : DB) (ps r F c pg_n : Nat) (b : Mem) (h : SizeAt db0 db ps r F c)
    (hps : 32 ≤ ps) (h1 : 1 ≤ pg_n) (hroom : pg_n * ps ≤ 2 ^ 32) :
    SizeAt db0 (db.write pg_n b) ps r (max F pg_n) c := by
  obtain ⟨e1, e2, e3, e4, e5, e6, e7⟩ := h
  obtain ⟨w1, w2, w3, w4, w5⟩ := write_fields db pg_n b
  have hoff : db.page_offset pg_n = (pg_n - 1) * ps := by
    rw [← e1]
    exact page_offset_eq db pg_n h1 (by omega) (by rw [e1]; exact hroom)
  have hsz : (db.write pg_n b).file_size = max db.file_size (pg_n * ps) := by
    rw [w5, hoff, e1]
    have : (pg_n - 1) * ps + ps = pg_n * ps := by
      have : pg_n = (pg_n - 1) + 1 := by omega
      conv_rhs => rw [this, Nat.add_mul, Nat.one_mul]
    rw [this]
    omega
  refine ⟨w1.trans e1, w2.trans e2, w3.trans e3, ?_, w4.trans e5, ?_, ?_⟩
  · rw [hsz, max_mul_div _ _ _ (by omega), e4]
  · rw [hsz]
    omega
  · rw [hsz]
    omega

/-- Setting the header counter. -/
theorem SizeAt.set_counter (db0 db : DB) (ps r F c v : Nat) (h : SizeAt db0 db ps r F c) :
    SizeAt db0 { db with database_size_in_pages := v } ps r F v := by
  obtain ⟨e1, e2, e3, e4, _, e6, e7⟩ := h
  exact ⟨e1, e2, e3, e4, rfl, e6, e7⟩

/-- `compute_database_size_in_pages` is the number of whole pages of the file. -/
theorem SizeAt.compute (db0 db : DB) (ps r F c : Nat) (h : SizeAt db0 db ps r F c)
    (hps : 32 ≤ ps) (hroom : (F + 1) * ps ≤ 2 ^ 32) :
    db.compute_database_size_in_pages = F := by
  obtain ⟨e1, _, _, e4, _, _, _⟩ := h
  unfold DB.compute_database_size_in_pages DB.get_page_size
  rw [e1]
  have hlt : db.file_size < (F + 1) * ps := by
    rw [← e4, Nat.mul_comm]
    exact Nat.lt_mul_div_succ _ (by omega)
  rw [Nat.mod_eq_of_lt (by omega), e4]

/-- Induction principle for counted loops. -/
theorem forLoop_invariant {σ : Type} (f : Nat → σ → σ) (Q : Nat → σ → Prop) (n : Nat) (s : σ)
    (h0 : Q 0 s) (hstep : ∀ k t, k < n → Q k t → Q (k + 1) (f k t)) :
    Q n (forLoop f n s) := by
  induction n with
  | zero => exact h0
  | succ n ih =>
    exact hstep n _ (Nat.lt_succ_self n)
      (ih (fun k t hk hq => hstep k t (Nat.lt_succ_of_lt hk) hq))

/-- Room for `b` pages is room for fewer. -/
theorem room_mono (a b ps X : Nat) (hab : a ≤ b) (h : b * ps ≤ X) : a * ps ≤ X :=
  Nat.le_trans (Nat.mul_le_mul_right ps hab) h

/-- A page count with room below `2^32` is below `2^32`. -/
theorem room_lt (a ps : Nat) (hps : 32 ≤ ps) (h : (a + 1) * ps ≤ 2 ^ 32) :
    (a + 1) * 32 ≤ 2 ^ 32 :=
  Nat.le_trans (Nat.mul_le_mul_left _ hps) h

/-- A file with at least one page has a positive page count. -/
theorem SizeAt.pos (db0 db : DB) (ps r F c : Nat) (h : SizeAt db0 db ps r F c) (hps : 32 ≤ ps) :
    1 ≤ F := by
  obtain ⟨_, _, _, e4, _, e6, _⟩ := h
  rw [← e4]
  exact (Nat.le_div_iff_mul_le (by omega)).mpr (by omega)

/-- Writing the overflow chain appends `n_overflow_pages` pages and adds as much
to the header counter. -/
theorem SizeAt.overflow_chain (db0 db : DB) (ps r F c K first : Nat) (payload : Payload)
    (h : SizeAt db0 db ps r F c) (hps : 32 ≤ ps) (hfirst : first = F + 1)
    (hroom : (F + n_overflow_pages db payload.P K + 1) * ps ≤ 2 ^ 32) :
    SizeAt db0 (write_overflow_chain db payload K first) ps r
      (F + n_overflow_pages db payload.P K)
      ((c + n_overflow_pages db payload.P K) % 2 ^ 32) := by
  have hF := SizeAt.pos db0 db ps r F c h hps
  have hlt := room_lt _ ps hps hroom
  generalize hn : n_overflow_pages db payload.P K = n at hroom hlt ⊢
  have hbound : (first + n + 2 ^ 32 - 1) % 2 ^ 32 = F + n := by
    rw [hfirst]; omega
  have h1 := SizeAt.set_counter db0 db ps r F c ((c + n) % 2 ^ 32) h
  have hloop : SizeAt db0
      (forLoop (overflow_step payload K first) (F + n - first)
        (db.uninit, { db with database_size_in_pages := (c + n) % 2 ^ 32 })).2
      ps r (F + (F + n - first)) ((c + n) % 2 ^ 32) := by
    apply forLoop_invariant (overflow_step payload K first)
      (fun k s => SizeAt db0 s.2 ps r (F + k) ((c + n) % 2 ^ 32))
    · exact h1
    · intro k t hk hq
      have hw := SizeAt.write db0 t.2 ps r (F + k) ((c + n) % 2 ^ 32) (first + k)
        (write_big_endian32 ((first + k + 1) % 2 ^ 32)
          (memcpy t.1 4 payload.bytes
            (K + (((t.2.get_U + 2 ^ 32 - 4) % 2 ^ 32) *
              ((first + k + 2 ^ 32 - first) % 2 ^ 32)) % 2 ^ 32) (t.2.get_U - 4)) 0)
        hq hps (by omega) (room_mono _ _ ps _ (by omega) hroom)
      have hmax : max (F + k) (first + k) = F + (k + 1) := by omega
      rw [hmax] at hw
      exact hw
  have hc : db.database_size_in_pages = c := h.2.2.2.2.1
  unfold SqlHard.write_overflow_chain
  simp only [hn, hbound, hc]
  have hw := SizeAt.write db0 _ ps r (F + (F + n - first)) ((c + n) % 2 ^ 32) (F + n)
    (write_big_endian32 0
      (memcpy
        (forLoop (overflow_step payload K first) (F + n - first)
          (db.uninit, { db with database_size_in_pages := (c + n) % 2 ^ 32 })).1 4 payload.bytes
        (K + (((db.get_U + 2 ^ 32 - 4) % 2 ^ 32) * ((n + 2 ^ 32 - 1) % 2 ^ 32)) % 2 ^ 32)
        ((if (payload.P - K) % ((db.get_U + 2 ^ 64 - 4) % 2 ^ 64) = 0 then
            db.get_U + 65536 - 4
          else (payload.P - K) % ((db.get_U + 2 ^ 64 - 4) % 2 ^ 64)) % 65536)) 0)
    hloop hps (by omega) (room_mono _ _ ps _ (by omega) hroom)
  have hmax : max (F + (F + n - first)) (F + n) = F + n := by omega
  rw [hmax] at hw
  exact hw

/-- The loop of `shift_cell_offsets_array` leaves the header alone. -/
theorem shift_loop_header (idx : Nat) :
    ∀ k pg, (BTreePage.shift_loop idx k pg).header = pg.header := by
  intro k
  induction k with
  | zero => intro pg; rfl
  | succ k ih =>
    intro pg
    simp only [BTreePage.shift_loop]
    rw [ih]
    rfl

/-- Opening a slot keeps the page type. -/
theorem open_slot_page_type (pg : BTreePage) (idx cell_size : Nat) :
    (pg.open_slot idx cell_size).header.page_type = pg.header.page_type := by
  simp only [BTreePage.open_slot, BTreePage.write_header, BTreePage.write_cell_content_offset,
    BTreePage.shift_cell_offsets_array, shift_loop_header]

/-- `get_U` depends on the page size and the reserved space only. -/
theorem get_U_congr (db db0 : DB) (h1 : db.page_size = db0.page_size)
    (h2 : db.unused_reserved_space = db0.unused_reserved_space) : db.get_U = db0.get_U := by
  unfold DB.get_U DB.get_page_size
  rw [h1, h2]

/-- On a leaf table page the directly stored size depends on `U` only. -/
theorem directly_stored_leaf (pg : BTreePage) (db db0 : DB)
    (hty : pg.header.page_type = .LeafTableBTreePage) (hU : db.get_U = db0.get_U) (P : Nat) :
    pg.compute_directly_stored_payload_size db P =
      (BTreePage.fresh db0 .LeafTableBTreePage).compute_directly_stored_payload_size db0 P := by
  simp only [BTreePage.compute_directly_stored_payload_size, BTreePage.min_payload,
    BTreePage.max_payload, hty, hU, BTreePage.fresh]

/-- The overflow page count depends on `U` only. -/
theorem n_overflow_pages_congr (db db0 : DB) (hU : db.get_U = db0.get_U) (P K : Nat) :
    n_overflow_pages db P K = n_overflow_pages db0 P K := by
  simp only [n_overflow_pages, hU]

/-- Effect of `insert_leaf_cell` on the size bookkeeping: either the cell is
stored and the file and the counter grow by the number of overflow pages, or
nothing changes. -/
theorem SizeAt.insert_leaf_cell (db0 db : DB) (ps r F : Nat) (pg : BTreePage)
    (id idx : Nat) (payload : Payload) (h : SizeAt db0 db ps r F F) (hps : 32 ≤ ps)
    (hty : pg.header.page_type = .LeafTableBTreePage)
    (hps0 : db0.page_size = ps) (hr0 : db0.unused_reserved_space = r)
    (hroom : (F + db0.spill_pages payload.P + 1) * ps ≤ 2 ^ 32) :
    ((pg.insert_leaf_cell db id idx payload).1 = .CellInserted ∧
      SizeAt db0 (pg.insert_leaf_cell db id idx payload).2.2 ps r
        (F + db0.spill_pages payload.P) (F + db0.spill_pages payload.P) ∧
      (pg.insert_leaf_cell db id idx payload).2.1.header.page_type = .LeafTableBTreePage) ∨
    ((pg.insert_leaf_cell db id idx payload).1 ≠ .CellInserted ∧
      (pg.insert_leaf_cell db id idx payload).2.2 = db ∧
      (pg.insert_leaf_cell db id idx payload).2.1 = pg) := by
  have hU : db.get_U = db0.get_U := get_U_congr db db0 (h.1.trans hps0.symm) (h.2.1.trans hr0.symm)
  have hK := directly_stored_leaf pg db db0 hty hU payload.P
  by_cases hfull : pg.compute_cell_size db id payload.P > pg.compute_free_space
  · right
    have e : pg.insert_leaf_cell db id idx payload = (.NotEnoughSpaceToInsert, pg, db) := by
      simp only [BTreePage.insert_leaf_cell, hfull, if_true]
    rw [e]
    exact ⟨(by intro hne; cases hne), rfl, rfl⟩
  · left
    by_cases hsp : pg.compute_directly_stored_payload_size db payload.P < payload.P
    · have hs : db0.spill_pages payload.P =
          n_overflow_pages db payload.P
            (pg.compute_directly_stored_payload_size db payload.P) := by
        unfold DB.spill_pages
        rw [← hK, if_pos hsp]
        exact (n_overflow_pages_congr db db0 hU _ _).symm
      have hroom1 : (F + 1) * ps ≤ 2 ^ 32 := room_mono _ _ ps _ (by omega) hroom
      have hcomp := SizeAt.compute db0 db ps r F F h hps hroom1
      have hlt := room_lt _ ps hps hroom
      have hch := SizeAt.overflow_chain db0 db ps r F F
        (pg.compute_directly_stored_payload_size db payload.P)
        ((db.compute_database_size_in_pages + 1) % 2 ^ 32) payload h hps
        (by rw [hcomp]; omega) (by rw [← hs]; exact hroom)
      rw [← hs] at hch
      have hmod : (F + db0.spill_pages payload.P) % 2 ^ 32 = F + db0.spill_pages payload.P := by
        omega
      rw [hmod] at hch
      simp only [BTreePage.insert_leaf_cell, hfull, if_false, hsp, if_true]
      exact ⟨trivial, hch, by rw [open_slot_page_type]; exact hty⟩
    · have hs : db0.spill_pages payload.P = 0 := by
        unfold DB.spill_pages
        rw [← hK, if_neg hsp]
      simp only [BTreePage.insert_leaf_cell, hfull, if_false, hsp]
      rw [hs]
      exact ⟨trivial, h, by rw [open_slot_page_type]; exact hty⟩

/-- A byte of the page that `DB::write` has just written. -/
theorem write_file_in_page (db : DB) (pg_n : Nat) (b : Mem) (i : Nat)
    (hi : i < db.page_size) (h32 : 32 ≤ db.page_offset pg_n + i) :
    (db.write pg_n b).file (db.page_offset pg_n + i) = b i := by
  simp only [DB.write, DB.file_write, DB.get_page_size]
  have h1 : ¬ (28 ≤ db.page_offset pg_n + i ∧ db.page_offset pg_n + i < 28 + 4) := by omega
  have h2 : ¬ ((max db.file_size (db.page_offset pg_n + db.page_size)) ≤ db.page_offset pg_n + i ∧
      db.page_offset pg_n + i < 28) := by omega
  have h3 : db.page_offset pg_n ≤ db.page_offset pg_n + i ∧
      db.page_offset pg_n + i < db.page_offset pg_n + db.page_size := by omega
  simp only [h1, h2, h3, if_false, if_true, and_self, Nat.add_sub_cancel_left, Nat.add_zero]

/-- A byte of the file below the page that `DB::write` writes, other than the
four bytes of the counter, is unchanged. -/
theorem write_file_below (db : DB) (pg_n : Nat) (b : Mem) (x : Nat)
    (hx : x < db.page_offset pg_n) (hsz : x < db.file_size)
    (h28 : ¬ (28 ≤ x ∧ x < 32)) :
    (db.write pg_n b).file x = db.file x := by
  simp only [DB.write, DB.file_write, DB.get_page_size]
  have h1 : ¬ (28 ≤ x ∧ x < 28 + 4) := by omega
  have h2 : ¬ ((max db.file_size (db.page_offset pg_n + db.page_size)) ≤ x ∧ x < 28) := by omega
  have h3 : ¬ (db.page_offset pg_n ≤ x ∧ x < db.page_offset pg_n + db.page_size) := by omega
  have h4 : ¬ (db.file_size ≤ x ∧ x < db.page_offset pg_n) := by omega
  simp only [h1, h2, h3, h4, if_false]

/-- Bytes of a buffer after `write_big_endian32` at its start: the first four
are the word, the others are unchanged. -/
theorem write_big_endian32_above (v : Nat) (m : Mem) (i : Nat) (hi : 4 ≤ i) :
    (write_big_endian32 v m 0) i = m i := by
  simp only [write_big_endian32, Mem.store8]
  have h0 : ¬ i = 0 := by omega
  have h1 : ¬ i = 0 + 1 := by omega
  have h2 : ¬ i = 0 + 2 := by omega
  have h3 : ¬ i = 0 + 3 := by omega
  simp only [h0, h1, h2, h3, if_false]

/-- A buffer that starts with `write_big_endian32 v` reads back as `v`. -/
theorem read_write_big_endian32_zero (v : Nat) (m : Mem) (hv : v < 2 ^ 32) :
    read_big_endian32 (write_big_endian32 v m 0) 0 = v := by
  obtain ⟨h0, h1, h2, h3⟩ := write_big_endian32_bytes v m 0
  exact read_big_endian32_of_bytes _ 0 v hv h0 h1 h2 h3

/-- `read_big_endian32` depends on the four bytes it reads only. -/
theorem read_big_endian32_congr (m1 m2 : Mem) (o1 o2 : Nat)
    (h : ∀ i, i < 4 → m1 (o1 + i) = m2 (o2 + i)) :
    read_big_endian32 m1 o1 = read_big_endian32 m2 o2 := by
  rw [read_big_endian32_eq, read_big_endian32_eq]
  have h0 := h 0 (by decide)
  have h1 := h 1 (by decide)
  have h2 := h 2 (by decide)
  have h3 := h 3 (by decide)
  simp only [Nat.add_zero] at h0
  rw [h0, h1, h2, h3]

/-! ## The overflow chain written by `insert_leaf_cell` -/

/-- `get_U` is a `uint16_t`. -/
theorem get_U_lt (db : DB) : db.get_U < 65536 := by
  unfold DB.get_U
  exact Nat.mod_lt _ (by decide)

/-- The number of overflow pages is the ceiling of `(P - K) / (U - 4)`, and the
last page carries what the pages before it leave over. -/
theorem n_overflow_pages_spec (db : DB) (P K : Nat) (hU : 5 ≤ db.get_U) (hK : K < P)
    (hP : P < 2 ^ 32) :
    1 ≤ n_overflow_pages db P K ∧
    (n_overflow_pages db P K - 1) * (db.get_U - 4) < P - K ∧
    P - K ≤ n_overflow_pages db P K * (db.get_U - 4) ∧
    (if (P - K) % ((db.get_U + 2 ^ 64 - 4) % 2 ^ 64) = 0 then db.get_U + 65536 - 4
      else (P - K) % ((db.get_U + 2 ^ 64 - 4) % 2 ^ 64)) % 65536 =
      P - K - (n_overflow_pages db P K - 1) * (db.get_U - 4) := by
  have hlt := get_U_lt db
  have hd : (db.get_U + 2 ^ 64 - 4) % 2 ^ 64 = db.get_U - 4 := by omega
  unfold n_overflow_pages
  simp only [hd]
  generalize db.get_U - 4 = d at *
  have hd1 : 1 ≤ d := by omega
  have hd2 : d < 65536 := by omega
  have hdm := Nat.div_add_mod (P - K) d
  have hml := Nat.mod_lt (P - K) (show 0 < d by omega)
  have hq : (P - K) / d ≤ P - K := Nat.div_le_self _ _
  have hqm : (P - K) / d % 2 ^ 32 = (P - K) / d := Nat.mod_eq_of_lt (by omega)
  rw [hqm]
  have hcomm : d * ((P - K) / d) = (P - K) / d * d := Nat.mul_comm _ _
  by_cases hr : (P - K) % d = 0
  · simp only [hr, ne_eq, not_true_eq_false, if_false, if_true]
    have hq1 : 1 ≤ (P - K) / d := by
      rcases Nat.eq_zero_or_pos ((P - K) / d) with h0 | h0
      · rw [h0] at hdm; omega
      · exact h0
    have hsub : ((P - K) / d - 1) * d + d = (P - K) / d * d := by
      have : (P - K) / d = ((P - K) / d - 1) + 1 := by omega
      conv_rhs => rw [this, Nat.add_mul, Nat.one_mul]
    refine ⟨hq1, by omega, by omega, ?_⟩
    have hU16 : db.get_U + 65536 - 4 = d + 65536 := by omega
    omega
  · simp only [hr, ne_eq, not_false_eq_true, if_true, if_false]
    have hd2' : 2 ≤ d := by omega
    have h2q : (P - K) / d * 2 ≤ (P - K) / d * d := Nat.mul_le_mul_left _ hd2'
    have hq1 : ((P - K) / d + 1) % 2 ^ 32 = (P - K) / d + 1 := Nat.mod_eq_of_lt (by omega)
    rw [hq1]
    have hsub : ((P - K) / d + 1 - 1) * d = (P - K) / d * d := by
      rw [Nat.add_sub_cancel]
    have hadd : ((P - K) / d + 1) * d = (P - K) / d * d + d := by
      rw [Nat.add_mul, Nat.one_mul]
    refine ⟨by omega, by omega, by omega, ?_⟩
    rw [hsub]
    omega

/-- An overflow page of the chain stays what it is when its bytes in the file
stay what they are. -/
theorem chain_page_congr (payload : Payload) (ps U F K n j : Nat) (f1 f2 : Mem)
    (hUps : U ≤ ps) (hU : 5 ≤ U)
    (hsame : ∀ i, i < ps → f2 ((F + j) * ps + i) = f1 ((F + j) * ps + i))
    (h : chain_page payload ps U F K n f1 j) : chain_page payload ps U F K n f2 j := by
  obtain ⟨h1, h2⟩ := h
  refine ⟨?_, ?_⟩
  · rw [← h1]
    exact read_big_endian32_congr _ _ _ _ (fun i hi => hsame i (by omega))
  · intro t ht hlt
    rw [← h2 t ht hlt, Nat.add_assoc ((F + j) * ps) 4 t]
    exact hsame (4 + t) (by omega)

/-- The page that one step of the chain loop writes is an overflow page of the
chain. -/
theorem chain_page_of_write (db : DB) (payload : Payload) (ps U F K n j next len : Nat)
    (buf : Mem) (hps : db.page_size = ps) (h32 : 32 ≤ ps) (hF : 1 ≤ F)
    (hroom : (F + j + 1) * ps ≤ 2 ^ 32) (hUps : U ≤ ps) (hU : 5 ≤ U)
    (hnext : next < 2 ^ 32) (hn : next = if j + 1 < n then F + 2 + j else 0)
    (hlen : ∀ t, t < U - 4 → K + j * (U - 4) + t < payload.P → t < len) :
    chain_page payload ps U F K n
      (db.write (F + 1 + j)
        (write_big_endian32 next (memcpy buf 4 payload.bytes (K + j * (U - 4)) len) 0)).file
      j := by
  have hoff : db.page_offset (F + 1 + j) = (F + j) * ps := by
    have := page_offset_eq db (F + 1 + j) (by omega) (by omega)
      (by rw [hps]; exact room_mono _ _ ps _ (by omega) hroom)
    rw [this, hps]
    congr 1
    omega
  have hge : ps ≤ (F + j) * ps := by
    calc ps = 1 * ps := (Nat.one_mul _).symm
      _ ≤ (F + j) * ps := Nat.mul_le_mul_right _ (by omega)
  have hbyte : ∀ i, i < ps →
      (db.write (F + 1 + j)
        (write_big_endian32 next (memcpy buf 4 payload.bytes (K + j * (U - 4)) len) 0)).file
        ((F + j) * ps + i) =
      (write_big_endian32 next (memcpy buf 4 payload.bytes (K + j * (U - 4)) len) 0) i := by
    intro i hi
    rw [← hoff]
    exact write_file_in_page db _ _ i (by rw [hps]; exact hi) (by rw [hoff]; omega)
  refine ⟨?_, ?_⟩
  · rw [← hn]
    calc read_big_endian32 _ ((F + j) * ps)
        = read_big_endian32
            (write_big_endian32 next (memcpy buf 4 payload.bytes (K + j * (U - 4)) len) 0) 0 := by
          apply read_big_endian32_congr
          intro i hi
          rw [hbyte i (by omega), Nat.zero_add]
      _ = next := read_write_big_endian32_zero next _ hnext
  · intro t ht hlt
    rw [Nat.add_assoc ((F + j) * ps) 4 t, hbyte (4 + t) (by omega),
      write_big_endian32_above _ _ _ (by omega)]
    have hl := hlen t ht hlt
    simp only [memcpy]
    have hc : 4 ≤ 4 + t ∧ 4 + t < 4 + len := by omega
    rw [if_pos hc]
    congr 1
    omega

/-- Writing page `F + k + 1` leaves the `F + k` pages before it as they are,
but for the counter at offset 28. -/
theorem write_keeps_below (db0 t : DB) (ps r Fk c : Nat) (b : Mem) (x : Nat)
    (h : SizeAt db0 t ps r Fk c) (h32 : 32 ≤ ps) (hroom : (Fk + 1) * ps ≤ 2 ^ 32)
    (hx : x < Fk * ps) (h28 : ¬ (28 ≤ x ∧ x < 32)) :
    (t.write (Fk + 1) b).file x = t.file x := by
  obtain ⟨e1, _, _, e4, _, _, _⟩ := h
  have hoff : t.page_offset (Fk + 1) = Fk * ps := by
    have := page_offset_eq t (Fk + 1) (by omega) (by omega) (by rw [e1]; exact hroom)
    rw [this, e1, Nat.add_sub_cancel]
  have hsz : Fk * ps ≤ t.file_size := by
    rw [← e4]
    exact Nat.div_mul_le_self _ _
  exact write_file_below t _ b x (by rw [hoff]; exact hx) (by omega) h28

/-- One more page of the overflow chain. -/
theorem ChainSoFar.step (db t : DB) (payload : Payload) (ps r F c K n k next len : Nat)
    (buf : Mem) (h : ChainSoFar db t payload ps r F c K n k) (h32 : 32 ≤ ps) (hF : 1 ≤ F)
    (hroom : (F + k + 1) * ps ≤ 2 ^ 32) (hUps : db.get_U ≤ ps) (hU : 5 ≤ db.get_U)
    (hnext : next < 2 ^ 32) (hn : next = if k + 1 < n then F + 2 + k else 0)
    (hlen : ∀ u, u < db.get_U - 4 → K + k * (db.get_U - 4) + u < payload.P → u < len) :
    ChainSoFar db
      (t.write (F + 1 + k)
        (write_big_endian32 next (memcpy buf 4 payload.bytes (K + k * (db.get_U - 4)) len) 0))
      payload ps r F c K n (k + 1) := by
  obtain ⟨hs, hlow, hpages⟩ := h
  have e : F + 1 + k = F + k + 1 := by omega
  have hmono : ∀ j, j ≤ k → (F + j) * ps ≤ (F + k) * ps :=
    fun j hj => Nat.mul_le_mul_right _ (by omega)
  have hkeep : ∀ x, x < (F + k) * ps → ¬ (28 ≤ x ∧ x < 32) →
      (t.write (F + 1 + k)
        (write_big_endian32 next (memcpy buf 4 payload.bytes (K + k * (db.get_U - 4)) len)
          0)).file x = t.file x := by
    intro x hx h28
    rw [e]
    exact write_keeps_below db t ps r (F + k) c _ x hs h32 hroom hx h28
  refine ⟨?_, ?_, ?_⟩
  · have hw := SizeAt.write db t ps r (F + k) c (F + 1 + k)
      (write_big_endian32 next (memcpy buf 4 payload.bytes (K + k * (db.get_U - 4)) len) 0)
      hs h32 (by omega) (by rw [e]; exact hroom)
    have hmax : max (F + k) (F + 1 + k) = F + (k + 1) := by omega
    rw [hmax] at hw
    exact hw
  · intro x hx h28
    have h0 := hmono 0 (Nat.zero_le _)
    rw [hkeep x (by simp only [Nat.add_zero] at h0; omega) h28]
    exact hlow x hx h28
  · intro j hj
    rcases Nat.lt_or_ge j k with hjk | hjk
    · apply chain_page_congr payload ps db.get_U F K n j t.file _ hUps hU _ (hpages j hjk)
      intro i hi
      have h1 := hmono (j + 1) (by omega)
      have h2 : (F + (j + 1)) * ps = (F + j) * ps + ps := by
        rw [← Nat.add_assoc, Nat.add_mul _ 1, Nat.one_mul]
      have h3 : ps ≤ (F + j) * ps := by
        calc ps = 1 * ps := (Nat.one_mul _).symm
          _ ≤ (F + j) * ps := Nat.mul_le_mul_right _ (by omega)
      exact hkeep _ (by omega) (by omega)
    · have hjk2 : j = k := by omega
      subst hjk2
      exact chain_page_of_write t payload ps db.get_U F K n j next len buf hs.1 h32 hF hroom
        hUps hU hnext hn hlen

/-- The source offset of chain page `k` in the payload, computed in 32 bits, is
`K + k * (U - 4)`. -/
theorem chain_src_eq (U K P n k a : Nat) (hU : 5 ≤ U) (hU16 : U < 65536) (hk : k + 1 ≤ n)
    (hn : (n - 1) * (U - 4) < P - K) (hP : P < 2 ^ 32) (ha : a = k) :
    K + (((U + 2 ^ 32 - 4) % 2 ^ 32) * a) % 2 ^ 32 = K + k * (U - 4) := by
  subst ha
  have h1 : (U + 2 ^ 32 - 4) % 2 ^ 32 = U - 4 := by omega
  have h2 : a * (U - 4) ≤ (n - 1) * (U - 4) := Nat.mul_le_mul_right _ (by omega)
  rw [h1, Nat.mul_comm, Nat.mod_eq_of_lt (by omega)]

/-- The overflow chain as `write_overflow_chain` leaves it: the file has grown
by `n_overflow_pages` pages, each of them an overflow page of the chain, and
the pages before them are unchanged but for the counter at offset 28. -/
theorem overflow_chain_written (db : DB) (ps r F c K : Nat) (payload : Payload)
    (h : SizeAt db db ps r F c) (h32 : 32 ≤ ps) (hU : 5 ≤ db.get_U) (hUps : db.get_U ≤ ps)
    (hK : K < payload.P) (hP : payload.P < 2 ^ 32)
    (hroom : (F + n_overflow_pages db payload.P K + 1) * ps ≤ 2 ^ 32) :
    ChainSoFar db (write_overflow_chain db payload K (F + 1)) payload ps r F
      ((c + n_overflow_pages db payload.P K) % 2 ^ 32) K (n_overflow_pages db payload.P K)
      (n_overflow_pages db payload.P K) := by
  have hF := SizeAt.pos db db ps r F c h h32
  have hlt := room_lt _ ps h32 hroom
  have hU16 := get_U_lt db
  obtain ⟨hn1, hn2, hn3, hlast⟩ := n_overflow_pages_spec db payload.P K hU hK hP
  generalize hn : n_overflow_pages db payload.P K = n at hroom hlt hn1 hn2 hn3 hlast ⊢
  have hbound : (F + 1 + n + 2 ^ 32 - 1) % 2 ^ 32 = F + n := by omega
  have hcount : F + n - (F + 1) = n - 1 := by omega
  have hloop : ChainSoFar db
      (forLoop (overflow_step payload K (F + 1)) (n - 1)
        (db.uninit, { db with database_size_in_pages := (c + n) % 2 ^ 32 })).2
      payload ps r F ((c + n) % 2 ^ 32) K n (n - 1) := by
    apply forLoop_invariant (overflow_step payload K (F + 1))
      (fun k s => ChainSoFar db s.2 payload ps r F ((c + n) % 2 ^ 32) K n k)
    · exact ⟨SizeAt.set_counter db db ps r F c _ h, fun _ _ _ => rfl,
        fun j hj => absurd hj (Nat.not_lt_zero j)⟩
    · intro k t hk hq
      have hUt : t.2.get_U = db.get_U :=
        get_U_congr t.2 db (hq.1.1.trans h.1.symm) (hq.1.2.1.trans h.2.1.symm)
      have hsrc := chain_src_eq db.get_U K payload.P n k
        ((F + 1 + k + 2 ^ 32 - (F + 1)) % 2 ^ 32) hU hU16 (by omega) hn2 hP (by omega)
      have hnext : (F + 1 + k + 1) % 2 ^ 32 = F + k + 2 := by omega
      have hst := ChainSoFar.step db t.2 payload ps r F ((c + n) % 2 ^ 32) K n k (F + k + 2)
        (db.get_U - 4) t.1 hq h32 hF (room_mono _ _ ps _ (by omega) hroom) hUps hU (by omega)
        (by rw [if_pos (by omega)]; omega) (fun u hu _ => hu)
      simp only [overflow_step, hUt, hsrc, hnext]
      exact hst
  have hsrc := chain_src_eq db.get_U K payload.P n (n - 1) ((n + 2 ^ 32 - 1) % 2 ^ 32) hU hU16
    (by omega) hn2 hP (by omega)
  have hst := ChainSoFar.step db _ payload ps r F ((c + n) % 2 ^ 32) K n (n - 1) 0
    (payload.P - K - (n - 1) * (db.get_U - 4))
    (forLoop (overflow_step payload K (F + 1)) (n - 1)
      (db.uninit, { db with database_size_in_pages := (c + n) % 2 ^ 32 })).1
    hloop h32 hF (room_mono _ _ ps _ (by omega) hroom) hUps hU (by decide)
    (by rw [if_neg (by omega)]) (fun u _ hlt2 => by omega)
  have hc : db.database_size_in_pages = c := h.2.2.2.2.1
  have e1 : F + 1 + (n - 1) = F + n := by omega
  have e2 : n - 1 + 1 = n := by omega
  rw [e1, e2] at hst
  unfold write_overflow_chain
  simp only [hn, hbound, hcount, hc, hsrc, hlast]
  exact hst

/-- A buffer reads back the word that `write_big_endian32` stored at `o`. -/
theorem read_write_big_endian32 (v : Nat) (m : Mem) (o : Nat) (hv : v < 2 ^ 32) :
    read_big_endian32 (write_big_endian32 v m o) o = v := by
  obtain ⟨h0, h1, h2, h3⟩ := write_big_endian32_bytes v m o
  exact read_big_endian32_of_bytes _ o v hv h0 h1 h2 h3

/-- C8 (amended): let `insert_leaf_cell` store on a page a payload of
`P < 2^32` bytes whose directly stored size `K` is below `P`, on a database
with a page size of at least 32 bytes, `5 <= U <= page_size`, whose file holds
`F >= 1` whole pages and stays within 2^32 bytes with the chain.  Then the
call returns `CellInserted`; the number `n` of overflow pages is the ceiling
of `(P - K) / (U - 4)`; the file holds `F + n` pages afterwards and its first
`F` pages are unchanged but for the counter at offset 28; the cell's overflow
pointer is `F + 1`; overflow page `F + 1 + j` starts with the big-endian
`F + 2 + j` for `j < n - 1` and with 0 for `j = n - 1`, followed by the
payload bytes from `K + j * (U - 4)` on.  For `U = 512` and the record of an
id column and a 4000-byte text, `P = 4004`, `K = 448` and `n = 7`. -/
theorem insert_leaf_cell_overflow_chain (db : DB) (pg : BTreePage) (id idx : Nat)
    (payload : Payload)
    (h32 : 32 ≤ db.page_size) (hone : db.page_size ≤ db.file_size)
    (hU : 5 ≤ db.get_U) (hUps : db.get_U ≤ db.page_size) (hP : payload.P < 2 ^ 32)
    (hfit : pg.compute_cell_size db id payload.P ≤ pg.compute_free_space)
    (hK : pg.compute_directly_stored_payload_size db payload.P < payload.P)
    (hroom : (db.file_size / db.page_size +
        n_overflow_pages db payload.P (pg.compute_directly_stored_payload_size db payload.P) + 1)
      * db.page_size ≤ 2 ^ 32) :
    (pg.insert_leaf_cell db id idx payload).1 = .CellInserted ∧
    (payload.P - pg.compute_directly_stored_payload_size db payload.P ≤
        n_overflow_pages db payload.P (pg.compute_directly_stored_payload_size db payload.P) *
          (db.get_U - 4) ∧
      (n_overflow_pages db payload.P (pg.compute_directly_stored_payload_size db payload.P) - 1) *
          (db.get_U - 4) <
        payload.P - pg.compute_directly_stored_payload_size db payload.P) ∧
    (pg.insert_leaf_cell db id idx payload).2.2.file_size / db.page_size =
      db.file_size / db.page_size +
        n_overflow_pages db payload.P (pg.compute_directly_stored_payload_size db payload.P) ∧
    (∀ x, x < db.file_size / db.page_size * db.page_size → ¬ (28 ≤ x ∧ x < 32) →
      (pg.insert_leaf_cell db id idx payload).2.2.file x = db.file x) ∧
    read_big_endian32 (pg.insert_leaf_cell db id idx payload).2.1.bytes
      (pg.leaf_cell_tail db id idx payload) = db.file_size / db.page_size + 1 ∧
    (∀ j, j < n_overflow_pages db payload.P
        (pg.compute_directly_stored_payload_size db payload.P) →
      chain_page payload db.page_size db.get_U (db.file_size / db.page_size)
        (pg.compute_directly_stored_payload_size db payload.P)
        (n_overflow_pages db payload.P (pg.compute_directly_stored_payload_size db payload.P))
        (pg.insert_leaf_cell db id idx payload).2.2.file j) ∧
    ((text_row 4000 97).P = 4004 ∧ empty_table_db.get_U = 512 ∧
      (BTreePage.fresh empty_table_db .LeafTableBTreePage).compute_directly_stored_payload_size
        empty_table_db 4004 = 448 ∧
      n_overflow_pages empty_table_db 4004 448 = 7) := by
  have h0 : SizeAt db db db.page_size db.unused_reserved_space (db.file_size / db.page_size)
      db.database_size_in_pages := ⟨rfl, rfl, rfl, rfl, rfl, hone, Nat.le_refl _⟩
  have hlt := room_lt _ _ h32 hroom
  have hcomp := SizeAt.compute db db _ _ _ _ h0 h32 (room_mono _ _ _ _ (by omega) hroom)
  have hfirst : (db.compute_database_size_in_pages + 1) % 2 ^ 32 =
      db.file_size / db.page_size + 1 := by
    rw [hcomp]; omega
  obtain ⟨_, hn2, hn3, _⟩ := n_overflow_pages_spec db payload.P _ hU hK hP
  obtain ⟨hs, hlow, hpages⟩ := overflow_chain_written db _ _ _ _ _ payload h0 h32 hU hUps hK hP
    hroom
  have hnot : ¬ (pg.compute_cell_size db id payload.P > pg.compute_free_space) := by omega
  have hdb : (pg.insert_leaf_cell db id idx payload).2.2 =
      write_overflow_chain db payload (pg.compute_directly_stored_payload_size db payload.P)
        (db.file_size / db.page_size + 1) := by
    simp only [BTreePage.insert_leaf_cell, hnot, if_false, hK, if_true, hfirst]
  have hcode : (pg.insert_leaf_cell db id idx payload).1 = .CellInserted := by
    simp only [BTreePage.insert_leaf_cell, hnot, if_false, hK, if_true]
  have hptr : read_big_endian32 (pg.insert_leaf_cell db id idx payload).2.1.bytes
      (pg.leaf_cell_tail db id idx payload) = db.file_size / db.page_size + 1 := by
    simp only [BTreePage.insert_leaf_cell, hnot, if_false, hK, if_true, hfirst,
      BTreePage.leaf_cell_tail]
    exact read_write_big_endian32 _ _ _ (by omega)
  rw [hdb]
  exact ⟨hcode, ⟨hn3, hn2⟩, hs.2.2.2.1, hlow, hptr, hpages, by decide!⟩

/-- Witness for C8: the 4004-byte record of a 4000-byte text, stored in the
empty leaf 2 of `empty_table_db` (two pages of 512 bytes): seven overflow
pages 3..9 are written, the cell's overflow pointer is 3, and each of the
seven pages is a page of the chain. -/
theorem insert_leaf_cell_overflow_chain_witness :
    ((page_of empty_table_db 2).insert_leaf_cell empty_table_db 1 0 (text_row 4000 97)).1 =
      .CellInserted ∧
    ((page_of empty_table_db 2).insert_leaf_cell empty_table_db 1 0
      (text_row 4000 97)).2.2.file_size / 512 = 2 + 7 ∧
    read_big_endian32
      ((page_of empty_table_db 2).insert_leaf_cell empty_table_db 1 0 (text_row 4000 97)).2.1.bytes
      ((page_of empty_table_db 2).leaf_cell_tail empty_table_db 1 0 (text_row 4000 97)) = 2 + 1 ∧
    ∀ j, j < 7 → chain_page (text_row 4000 97) 512 512 2 448 7
      ((page_of empty_table_db 2).insert_leaf_cell empty_table_db 1 0
        (text_row 4000 97)).2.2.file j := by
  have hk : (page_of empty_table_db 2).compute_directly_stored_payload_size empty_table_db
      (text_row 4000 97).P = 448 := by decide!
  have hn : n_overflow_pages empty_table_db (text_row 4000 97).P 448 = 7 := by decide!
  have hF : empty_table_db.file_size / empty_table_db.page_size = 2 := by decide
  have hps : empty_table_db.page_size = 512 := rfl
  have hU : empty_table_db.get_U = 512 := by decide
  have h := insert_leaf_cell_overflow_chain empty_table_db (page_of empty_table_db 2) 1 0
    (text_row 4000 97) (by decide) (by decide) (by decide) (by decide) (by decide!)
    (by decide!) (by rw [hk]; decide!) (by rw [hk, hn]; decide)
  rw [hk, hn, hF, hps, hU] at h
  exact ⟨h.1, h.2.2.1, h.2.2.2.2.1, h.2.2.2.2.2.1⟩

/-- C8 (counterexample): on a file of 2^32 bytes (`F = 8388608` pages of 512
bytes) `insert_leaf_cell` stores the 4004-byte record with `K = 448` and
returns `CellInserted`, but the cell's overflow pointer is 1, not `F + 1`,
and the file still holds `F` pages afterwards: the chain was written over
the pages 1..7. -/
theorem overflow_chain_overwrites_at_four_gib :
    (((page_of huge_file_db 2).insert_leaf_cell huge_file_db 1 0 (text_row 4000 97)).1,
     (page_of huge_file_db 2).header.page_type,
     (page_of huge_file_db 2).compute_directly_stored_payload_size huge_file_db
       (text_row 4000 97).P,
     huge_file_db.file_size / huge_file_db.page_size,
     read_big_endian32
       ((page_of huge_file_db 2).insert_leaf_cell huge_file_db 1 0 (text_row 4000 97)).2.1.bytes
       ((page_of huge_file_db 2).leaf_cell_tail huge_file_db 1 0 (text_row 4000 97)),
     ((page_of huge_file_db 2).insert_leaf_cell huge_file_db 1 0
       (text_row 4000 97)).2.2.file_size / huge_file_db.page_size) =
    (.CellInserted, .LeafTableBTreePage, 448, 8388608, 1, 8388608) := by
  decide!

/-! ## The key of a leaf split -/

/-- A big-endian 16-bit read is below 65536. -/
theorem read_big_endian16_lt (m : Mem) (o : Nat) : read_big_endian16 m o < 65536 := by
  unfold read_big_endian16
  have h1 : m o % 256 < 256 := Nat.mod_lt _ (by decide)
  have h2 : m (o + 1) % 256 < 256 := Nat.mod_lt _ (by decide)
  rw [Nat.shiftLeft_eq]
  exact Nat.or_lt_two_pow (n := 16) (by omega) (by omega)

/-- The first loop of `get_split_index` records, for every old cell, the
offset of the cell in the page: at its own index below `idx`, one index
higher from `idx` on. -/
theorem split_fill_offsets (pg : BTreePage) (db : DB) (idx n : Nat) (a0 : SplitArrays) :
    ∀ j,
      (j < idx → j < n →
        (forLoop (pg.split_fill_step db idx) n a0).cell_content_offsets j =
          pg.get_cell_content_offset j) ∧
      (idx < j → j ≤ n →
        (forLoop (pg.split_fill_step db idx) n a0).cell_content_offsets j =
          pg.get_cell_content_offset (j - 1)) := by
  refine forLoop_invariant (pg.split_fill_step db idx)
    (fun k a => ∀ j,
      (j < idx → j < k → a.cell_content_offsets j = pg.get_cell_content_offset j) ∧
      (idx < j → j ≤ k → a.cell_content_offsets j = pg.get_cell_content_offset (j - 1)))
    n a0 ?_ ?_
  · intro j
    exact ⟨fun _ h => absurd h (Nat.not_lt_zero j), fun h1 h2 => by omega⟩
  · intro k t _ hq j
    have hlt : pg.get_cell_content_offset k % 65536 = pg.get_cell_content_offset k :=
      Nat.mod_eq_of_lt (read_big_endian16_lt _ _)
    constructor
    · intro h1 h2
      simp only [BTreePage.split_fill_step, arr_set]
      by_cases hjk : j = k
      · subst hjk
        have : ¬ (j ≥ idx) := by omega
        simp [this, hlt]
      · have hne : ¬ (j = k + if k ≥ idx then 1 else 0) := by
          split <;> omega
        simp only [hne, if_false]
        split <;> exact (hq j).1 h1 (by omega)
    · intro h1 h2
      simp only [BTreePage.split_fill_step, arr_set]
      by_cases hjk : j = k + 1
      · subst hjk
        have : k ≥ idx := by omega
        simp [this, hlt]
      · have hne : ¬ (j = k + if k ≥ idx then 1 else 0) := by
          split <;> omega
        simp only [hne, if_false]
        split <;> exact (hq j).2 h1 (by omega)

/-- The second loop of `get_split_index` picks an index among those it visits. -/
theorem split_choose_le (S : Nat) (sums : Nat → Nat) (n : Nat) :
    (forLoop (split_choose_step S sums) (n + 1) (S, 0)).2 ≤ n := by
  have h := forLoop_invariant (split_choose_step S sums)
    (fun k st => st.2 < k ∨ st.2 = 0) (n + 1) (S, 0) (Or.inr rfl)
    (by
      intro k t _ hq
      unfold split_choose_step
      simp only
      split
      · exact Or.inl (Nat.lt_succ_self k)
      · rcases hq with h | h
        · exact Or.inl (by omega)
        · exact Or.inr h)
  simp only at h
  omega

/-- The plan of a leaf split: `DB::insert` splits a leaf whose rowids are
strictly increasing, with `idx = lower_bound(id)` and `id` not on the page.
The statement is about the split index and the scratch arrays, not about the
pages that the copy loops write.  The split
loops walk the sequence of `n + 1` cells made of the old cells with the new
one at slot `idx`: `cell_content_offsets[i]` is the place of old cell `i`
below `idx` and of old cell `i - 1` above it.  The rowids of the sequence are
strictly increasing, `split_idx <= n`, and the key that goes to the parent is
the rowid of cell `split_idx`, the last cell of the left half: every rowid of
the left half (cells `0 .. split_idx`) is at most the key, and every rowid of
the right half (cells `split_idx + 1 .. n`) is greater than the key. -/
theorem leaf_split_key_separates (pg : BTreePage) (db : DB) (id P : Nat)
    (hs : pg.sorted)
    (hnew : ¬ (pg.lower_bound id ≠ pg.header.num_of_cells ∧
      pg.get_cell_rowid (pg.get_cell_content_offset (pg.lower_bound id)) = id)) :
    (pg.split_plan db id P (pg.lower_bound id)).1 ≤ pg.header.num_of_cells ∧
    (∀ i, i ≤ pg.header.num_of_cells → i ≠ pg.lower_bound id →
      (pg.split_plan db id P (pg.lower_bound id)).2.cell_content_offsets i =
        pg.get_cell_content_offset (if i < pg.lower_bound id then i else i - 1)) ∧
    (∀ i j, i < j → j ≤ pg.header.num_of_cells →
      pg.virtual_rowid (pg.split_plan db id P (pg.lower_bound id)).2 id (pg.lower_bound id) i <
        pg.virtual_rowid (pg.split_plan db id P (pg.lower_bound id)).2 id (pg.lower_bound id) j) ∧
    (∀ i, i ≤ (pg.split_plan db id P (pg.lower_bound id)).1 →
      pg.virtual_rowid (pg.split_plan db id P (pg.lower_bound id)).2 id (pg.lower_bound id) i ≤
        (if (pg.split_plan db id P (pg.lower_bound id)).1 = pg.lower_bound id then id
          else pg.get_cell_rowid ((pg.split_plan db id P (pg.lower_bound id)).2.cell_content_offsets
            (pg.split_plan db id P (pg.lower_bound id)).1))) ∧
    (∀ i, (pg.split_plan db id P (pg.lower_bound id)).1 < i → i ≤ pg.header.num_of_cells →
      (if (pg.split_plan db id P (pg.lower_bound id)).1 = pg.lower_bound id then id
          else pg.get_cell_rowid ((pg.split_plan db id P (pg.lower_bound id)).2.cell_content_offsets
            (pg.split_plan db id P (pg.lower_bound id)).1)) <
        pg.virtual_rowid (pg.split_plan db id P (pg.lower_bound id)).2 id (pg.lower_bound id) i) := by
  obtain ⟨hle, hlo, hhi⟩ := lower_bound_spec pg id hs
  generalize hidx : pg.lower_bound id = idx at *
  generalize hn : pg.header.num_of_cells = n at *
  have hsplit : (pg.split_plan db id P idx).1 ≤ n := by
    simp only [BTreePage.split_plan, BTreePage.get_split_index, hn]
    exact split_choose_le _ _ n
  have hoff : ∀ i, i ≤ n → i ≠ idx →
      (pg.split_plan db id P idx).2.cell_content_offsets i =
        pg.get_cell_content_offset (if i < idx then i else i - 1) := by
    intro i hi hne
    have hfill := split_fill_offsets pg db idx n
      { s := 0, sums := fun _ => 0,
        cell_sizes := arr_set (fun _ => 0) idx (pg.compute_cell_size db id P),
        cell_content_offsets := fun _ => 0 } i
    have hsame : (pg.split_plan db id P idx).2.cell_content_offsets i =
        (forLoop (pg.split_fill_step db idx) n
          { s := 0, sums := fun _ => 0,
            cell_sizes := arr_set (fun _ => 0) idx (pg.compute_cell_size db id P),
            cell_content_offsets := fun _ => 0 }).cell_content_offsets i := by
      simp only [BTreePage.split_plan, BTreePage.get_split_index, hn]
      split <;> rfl
    rw [hsame]
    by_cases h : i < idx
    · simp only [h, if_true]
      exact hfill.1 h (by omega)
    · simp only [h, if_false]
      exact hfill.2 (by omega) hi
  have hv : ∀ i, i ≤ n →
      pg.virtual_rowid (pg.split_plan db id P idx).2 id idx i =
        if i = idx then id else pg.rowid_at (if i < idx then i else i - 1) := by
    intro i hi
    unfold BTreePage.virtual_rowid
    by_cases h : i = idx
    · simp only [h, if_true]
    · simp only [h, if_false]
      rw [hoff i hi h]
      rfl
  have hstrict : ∀ k, idx ≤ k → k < n → id < pg.rowid_at k := by
    intro k hk hkn
    have h1 := hhi idx (Nat.le_refl _) (by omega)
    have h2 := sorted_rowids_mono pg hs idx k hk (by omega)
    have h3 : pg.rowid_at idx ≠ id := by
      intro h
      exact hnew ⟨by omega, h⟩
    omega
  have hmono : ∀ i j, i < j → j ≤ n →
      pg.virtual_rowid (pg.split_plan db id P idx).2 id idx i <
        pg.virtual_rowid (pg.split_plan db id P idx).2 id idx j := by
    intro i j hij hj
    rw [hv i (by omega), hv j hj]
    rcases Nat.lt_trichotomy i idx with hi | hi | hi
    · rcases Nat.lt_trichotomy j idx with hj1 | hj1 | hj1
      · have e1 : ¬ (i = idx) := by omega
        have e2 : ¬ (j = idx) := by omega
        simp only [e1, e2, if_false, hi, hj1, if_true]
        exact hs i j hij (by omega)
      · have e1 : ¬ (i = idx) := by omega
        simp only [e1, if_false, hi, if_true, hj1]
        exact hlo i hi
      · have e1 : ¬ (i = idx) := by omega
        have e2 : ¬ (j = idx) := by omega
        have e3 : ¬ (j < idx) := by omega
        simp only [e1, e2, e3, if_false, hi, if_true]
        exact hs i (j - 1) (by omega) (by omega)
    · have e2 : ¬ (j = idx) := by omega
      have e3 : ¬ (j < idx) := by omega
      simp only [hi, e2, e3, if_false, if_true]
      exact hstrict (j - 1) (by omega) (by omega)
    · have e1 : ¬ (i = idx) := by omega
      have e2 : ¬ (j = idx) := by omega
      have e3 : ¬ (j < idx) := by omega
      have e4 : ¬ (i < idx) := by omega
      simp only [e1, e2, e3, e4, if_false]
      exact hs (i - 1) (j - 1) (by omega) (by omega)
  have hkey : (if (pg.split_plan db id P idx).1 = idx then id
      else pg.get_cell_rowid ((pg.split_plan db id P idx).2.cell_content_offsets
        (pg.split_plan db id P idx).1)) =
      pg.virtual_rowid (pg.split_plan db id P idx).2 id idx (pg.split_plan db id P idx).1 := rfl
  refine ⟨hsplit, hoff, hmono, ?_, ?_⟩
  · intro i hi
    rw [hkey]
    rcases Nat.eq_or_lt_of_le hi with h | h
    · rw [h]
    · exact Nat.le_of_lt (hmono i _ h hsplit)
  · intro i hi hin
    rw [hkey]
    exact hmono _ i hi hin

/-- The lemma `leaf_split_key_separates` at a concrete input: the root leaf of
`two_wide_rows_db` holds the rowids 1 and 2; for `insert(2, 3, _)` with a
200-byte record `lower_bound` is 2, the split
index is 0, the key is the rowid 1 of cell 0, and the cells 1 and 2 of the
sequence, which go to the right half, have rowids greater than 1. -/
theorem leaf_split_key_separates_witness :
    (page_of two_wide_rows_db 2).lower_bound 3 = 2 ∧
    ((page_of two_wide_rows_db 2).split_plan two_wide_rows_db 3 200 2).1 = 0 ∧
    (page_of two_wide_rows_db 2).get_cell_rowid
      (((page_of two_wide_rows_db 2).split_plan two_wide_rows_db 3 200 2).2.cell_content_offsets 0)
      = 1 ∧
    ∀ i, 0 < i → i ≤ 2 →
      1 < (page_of two_wide_rows_db 2).virtual_rowid
        ((page_of two_wide_rows_db 2).split_plan two_wide_rows_db 3 200 2).2 3 2 i := by
  have hn : (page_of two_wide_rows_db 2).header.num_of_cells = 2 := by decide!
  have h0 : (page_of two_wide_rows_db 2).rowid_at 0 = 1 := by decide!
  have h1 : (page_of two_wide_rows_db 2).rowid_at 1 = 2 := by decide!
  have hlb : (page_of two_wide_rows_db 2).lower_bound 3 = 2 := by decide!
  have hsp : ((page_of two_wide_rows_db 2).split_plan two_wide_rows_db 3 200 2).1 = 0 := by
    decide!
  have hk : (page_of two_wide_rows_db 2).get_cell_rowid
      (((page_of two_wide_rows_db 2).split_plan two_wide_rows_db 3 200 2).2.cell_content_offsets 0)
      = 1 := by decide!
  have h := leaf_split_key_separates (page_of two_wide_rows_db 2) two_wide_rows_db 3 200
    (by
      intro a b hab hb
      rw [hn] at hb
      have ha : a = 0 := by omega
      have hb1 : b = 1 := by omega
      subst ha; subst hb1
      rw [h0, h1]; decide)
    (by
      intro hc
      exact hc.1 (by rw [hlb, hn]))
  rw [hlb, hn, hsp] at h
  refine ⟨hlb, hsp, hk, ?_⟩
  intro i hi hi2
  have h5 := h.2.2.2.2 i hi hi2
  rw [if_neg (by decide), hk] at h5
  exact h5

/-! ## Signed big-endian readers -/

/-- An OR with a value below `2^k` adds it to a multiple of `2^k`. -/
theorem or_acc (acc b k : Nat) (hb : b < 2 ^ k) (hacc : 2 ^ k ∣ acc) : acc ||| b = acc + b := by
  obtain ⟨c, rfl⟩ := hacc
  exact (Nat.mul_add_lt_is_or hb c).symm

/-- Two bytes combined with a shift and a bitwise or. -/
theorem or_of_two_bytes (b0 b1 : Nat) (h1 : b1 < 256) :
    (b0 <<< 8) ||| b1 = b0 * 256 + b1 := by
  simp only [Nat.shiftLeft_eq]
  exact or_acc _ _ 8 (by omega) (by omega)

/-- Three bytes combined with shifts and bitwise or. -/
theorem or_of_three_bytes (b0 b1 b2 : Nat) (h1 : b1 < 256) (h2 : b2 < 256) :
    (b0 <<< 16) ||| (b1 <<< 8) ||| b2 = b0 * 65536 + b1 * 256 + b2 := by
  simp only [Nat.shiftLeft_eq]
  have e1 : b0 * 2 ^ 16 ||| b1 * 2 ^ 8 = b0 * 2 ^ 16 + b1 * 2 ^ 8 :=
    or_acc _ _ 16 (by omega) (by omega)
  rw [e1]
  have e2 : (b0 * 2 ^ 16 + b1 * 2 ^ 8) ||| b2 = b0 * 2 ^ 16 + b1 * 2 ^ 8 + b2 :=
    or_acc _ _ 8 (by omega) (by omega)
  rw [e2]
  omega

/-- Six bytes combined with shifts and bitwise or. -/
theorem or_of_six_bytes (b0 b1 b2 b3 b4 b5 : Nat) (h1 : b1 < 256) (h2 : b2 < 256)
    (h3 : b3 < 256) (h4 : b4 < 256) (h5 : b5 < 256) :
    (b0 <<< 40) ||| (b1 <<< 32) ||| (b2 <<< 24) ||| (b3 <<< 16) ||| (b4 <<< 8) ||| b5 =
      b0 * 2 ^ 40 + b1 * 2 ^ 32 + b2 * 2 ^ 24 + b3 * 2 ^ 16 + b4 * 2 ^ 8 + b5 := by
  simp only [Nat.shiftLeft_eq]
  have e1 : b0 * 2 ^ 40 ||| b1 * 2 ^ 32 = b0 * 2 ^ 40 + b1 * 2 ^ 32 :=
    or_acc _ _ 40 (by omega) (by omega)
  rw [e1]
  have e2 : (b0 * 2 ^ 40 + b1 * 2 ^ 32) ||| b2 * 2 ^ 24 =
      b0 * 2 ^ 40 + b1 * 2 ^ 32 + b2 * 2 ^ 24 := or_acc _ _ 32 (by omega) (by omega)
  rw [e2]
  have e3 : (b0 * 2 ^ 40 + b1 * 2 ^ 32 + b2 * 2 ^ 24) ||| b3 * 2 ^ 16 =
      b0 * 2 ^ 40 + b1 * 2 ^ 32 + b2 * 2 ^ 24 + b3 * 2 ^ 16 :=
    or_acc _ _ 24 (by omega) (by omega)
  rw [e3]
  have e4 : (b0 * 2 ^ 40 + b1 * 2 ^ 32 + b2 * 2 ^ 24 + b3 * 2 ^ 16) ||| b4 * 2 ^ 8 =
      b0 * 2 ^ 40 + b1 * 2 ^ 32 + b2 * 2 ^ 24 + b3 * 2 ^ 16 + b4 * 2 ^ 8 :=
    or_acc _ _ 16 (by omega) (by omega)
  rw [e4]
  exact or_acc _ _ 8 (by omega) (by omega)

/-- Eight bytes combined with shifts and bitwise or. -/
theorem or_of_eight_bytes (b0 b1 b2 b3 b4 b5 b6 b7 : Nat) (h1 : b1 < 256) (h2 : b2 < 256)
    (h3 : b3 < 256) (h4 : b4 < 256) (h5 : b5 < 256) (h6 : b6 < 256) (h7 : b7 < 256) :
    (b0 <<< 56) ||| (b1 <<< 48) ||| (b2 <<< 40) ||| (b3 <<< 32) ||| (b4 <<< 24) |||
      (b5 <<< 16) ||| (b6 <<< 8) ||| b7 =
      b0 * 2 ^ 56 + b1 * 2 ^ 48 + b2 * 2 ^ 40 + b3 * 2 ^ 32 + b4 * 2 ^ 24 + b5 * 2 ^ 16 +
        b6 * 2 ^ 8 + b7 := by
  have e6 := or_of_six_bytes (b0 * 2 ^ 16 + b1 * 2 ^ 8 + b2) b3 b4 b5 b6 b7 h3 h4 h5 h6 h7
  have e3 := or_of_three_bytes b0 b1 b2 h1 h2
  simp only [Nat.shiftLeft_eq] at e6 e3 ⊢
  have e1 : b0 * 2 ^ 56 ||| b1 * 2 ^ 48 = b0 * 2 ^ 56 + b1 * 2 ^ 48 :=
    or_acc _ _ 56 (by omega) (by omega)
  rw [e1]
  have e2 : (b0 * 2 ^ 56 + b1 * 2 ^ 48) ||| b2 * 2 ^ 40 =
      b0 * 2 ^ 56 + b1 * 2 ^ 48 + b2 * 2 ^ 40 := or_acc _ _ 48 (by omega) (by omega)
  rw [e2]
  have e0 : b0 * 2 ^ 56 + b1 * 2 ^ 48 + b2 * 2 ^ 40 = (b0 * 2 ^ 16 + b1 * 2 ^ 8 + b2) * 2 ^ 40 := by
    omega
  rw [e0, e6]

/-- Masking with one bit tests that bit. -/
theorem and_bit_ne_zero (x i : Nat) : x &&& 2 ^ i ≠ 0 ↔ x / 2 ^ i % 2 = 1 := by
  rw [Nat.and_two_pow, Nat.testBit_to_div_mod]
  by_cases h : x / 2 ^ i % 2 = 1
  · simp [h]
  · simp [h]

/-- C15: for every buffer and offset, `read_int8`, `read_int16`, `read_int24`,
`read_int32` and `read_int64` return the two's-complement value of the 1, 2,
3, 4 and 8 big-endian bytes at the offset: with `u` the unsigned big-endian
value of the `w` bytes, the result is `u` when the top bit of the first byte
is clear and `u - 2^(8w)` when it is set, and it is negative exactly when that
bit is set. -/
theorem signed_readers_twos_complement (bytes : Mem) (off : Nat) :
    (read_int8 bytes off =
        (if 128 ≤ bytes off % 256 then ((big_endian_value bytes off 1 : Nat) : Int) - 2 ^ 8
          else ((big_endian_value bytes off 1 : Nat) : Int)) ∧
      (read_int8 bytes off < 0 ↔ 128 ≤ bytes off % 256)) ∧
    (read_int16 bytes off =
        (if 128 ≤ bytes off % 256 then ((big_endian_value bytes off 2 : Nat) : Int) - 2 ^ 16
          else ((big_endian_value bytes off 2 : Nat) : Int)) ∧
      (read_int16 bytes off < 0 ↔ 128 ≤ bytes off % 256)) ∧
    (read_int24 bytes off =
        (if 128 ≤ bytes off % 256 then ((big_endian_value bytes off 3 : Nat) : Int) - 2 ^ 24
          else ((big_endian_value bytes off 3 : Nat) : Int)) ∧
      (read_int24 bytes off < 0 ↔ 128 ≤ bytes off % 256)) ∧
    (read_int32 bytes off =
        (if 128 ≤ bytes off % 256 then ((big_endian_value bytes off 4 : Nat) : Int) - 2 ^ 32
          else ((big_endian_value bytes off 4 : Nat) : Int)) ∧
      (read_int32 bytes off < 0 ↔ 128 ≤ bytes off % 256)) ∧
    (read_int64 bytes off =
        (if 128 ≤ bytes off % 256 then ((big_endian_value bytes off 8 : Nat) : Int) - 2 ^ 64
          else ((big_endian_value bytes off 8 : Nat) : Int)) ∧
      (read_int64 bytes off < 0 ↔ 128 ≤ bytes off % 256)) := by
  have h0 : bytes off % 256 < 256 := Nat.mod_lt _ (by decide)
  have h1 : bytes (off + 1) % 256 < 256 := Nat.mod_lt _ (by decide)
  have h2 : bytes (off + 2) % 256 < 256 := Nat.mod_lt _ (by decide)
  have h3 : bytes (off + 3) % 256 < 256 := Nat.mod_lt _ (by decide)
  have h4 : bytes (off + 4) % 256 < 256 := Nat.mod_lt _ (by decide)
  have h5 : bytes (off + 5) % 256 < 256 := Nat.mod_lt _ (by decide)
  have h6 : bytes (off + 6) % 256 < 256 := Nat.mod_lt _ (by decide)
  have h7 : bytes (off + 7) % 256 < 256 := Nat.mod_lt _ (by decide)
  generalize hb0 : bytes off % 256 = b0 at *
  generalize hb1 : bytes (off + 1) % 256 = b1 at *
  generalize hb2 : bytes (off + 2) % 256 = b2 at *
  generalize hb3 : bytes (off + 3) % 256 = b3 at *
  generalize hb4 : bytes (off + 4) % 256 = b4 at *
  generalize hb5 : bytes (off + 5) % 256 = b5 at *
  generalize hb6 : bytes (off + 6) % 256 = b6 at *
  generalize hb7 : bytes (off + 7) % 256 = b7 at *
  have v1 : big_endian_value bytes off 1 = b0 := by
    simp [big_endian_value, hb0]
  have v2 : big_endian_value bytes off 2 = b0 * 256 + b1 := by
    simp [big_endian_value, hb0, hb1]
  have v3 : big_endian_value bytes off 3 = b0 * 65536 + b1 * 256 + b2 := by
    simp [big_endian_value, hb0, hb1, hb2]; omega
  have v4 : big_endian_value bytes off 4 = b0 * 2 ^ 24 + b1 * 2 ^ 16 + b2 * 2 ^ 8 + b3 := by
    simp [big_endian_value, hb0, hb1, hb2, hb3]; omega
  have v8 : big_endian_value bytes off 8 =
      b0 * 2 ^ 56 + b1 * 2 ^ 48 + b2 * 2 ^ 40 + b3 * 2 ^ 32 + b4 * 2 ^ 24 + b5 * 2 ^ 16 +
        b6 * 2 ^ 8 + b7 := by
    simp [big_endian_value, hb0, hb1, hb2, hb3, hb4, hb5, hb6, hb7]; omega
  have r1 : read_int8 bytes off = to_signed 8 b0 := by
    simp only [read_int8, hb0]
  have r2 : read_int16 bytes off = to_signed 16 (b0 * 256 + b1) := by
    simp only [read_int16, hb0, hb1, or_of_two_bytes b0 b1 h1]
  have r4 : read_int32 bytes off =
      to_signed 32 (b0 * 2 ^ 24 + b1 * 2 ^ 16 + b2 * 2 ^ 8 + b3) := by
    simp only [read_int32, hb0, hb1, hb2, hb3, or_of_four_bytes b0 b1 b2 b3 h1 h2 h3]
  have r8 : read_int64 bytes off =
      to_signed 64 (b0 * 2 ^ 56 + b1 * 2 ^ 48 + b2 * 2 ^ 40 + b3 * 2 ^ 32 + b4 * 2 ^ 24 +
        b5 * 2 ^ 16 + b6 * 2 ^ 8 + b7) := by
    simp only [read_int64, hb0, hb1, hb2, hb3, hb4, hb5, hb6, hb7,
      or_of_eight_bytes b0 b1 b2 b3 b4 b5 b6 b7 h1 h2 h3 h4 h5 h6 h7]
  have r3 : read_int24 bytes off =
      if 128 ≤ b0 then to_signed 32 (0xFF000000 + (b0 * 65536 + b1 * 256 + b2))
      else to_signed 32 (b0 * 65536 + b1 * 256 + b2) := by
    have hbit : (b0 * 65536 + b1 * 256 + b2) &&& 0x800000 ≠ 0 ↔ 128 ≤ b0 := by
      have e : (0x800000 : Nat) = 2 ^ 23 := by norm_num
      rw [e, and_bit_ne_zero]
      omega
    have hor : (b0 * 65536 + b1 * 256 + b2) ||| 0xFF000000 =
        0xFF000000 + (b0 * 65536 + b1 * 256 + b2) := by
      rw [Nat.lor_comm]
      exact or_acc _ _ 24 (by omega) (by omega)
    simp only [read_int24, hb0, hb1, hb2, or_of_three_bytes b0 b1 b2 h1 h2]
    by_cases h : 128 ≤ b0
    · rw [if_pos (hbit.2 h), if_pos h, hor]
    · rw [if_neg (fun hc => h (hbit.1 hc)), if_neg h]
  rw [r1, r2, r3, r4, r8, v1, v2, v3, v4, v8]
  unfold to_signed
  refine ⟨⟨?_, ?_⟩, ⟨?_, ?_⟩, ⟨?_, ?_⟩, ⟨?_, ?_⟩, ⟨?_, ?_⟩⟩
  all_goals (by_cases h : 128 ≤ b0 <;> simp only [h, if_true, if_false] <;>
    norm_num <;> split <;> omega)

/-! ## The varint writer -/

/-- Masking with `0x7f` is the remainder modulo 128. -/
theorem and_7f (x : Nat) : x &&& 0x7f = x % 128 := by
  have e : (0x7f : Nat) = 2 ^ 7 - 1 := by norm_num
  rw [e, Nat.and_pow_two_sub_one_eq_mod]

/-- Setting the bit `0x80` of a value below 128 adds 128. -/
theorem or_80 (x : Nat) (h : x < 128) : x ||| 0x80 = x + 128 := by
  rw [Nat.lor_comm]
  have := or_acc 128 x 7 (by omega) (by omega)
  omega

/-- The mask `0xff000000 << 32` selects the byte above bit 56. -/
theorem and_high (v : Nat) : v &&& (0xff000000 <<< 32) = ((v >>> 56) % 2 ^ 8) <<< 56 := by
  apply Nat.eq_of_testBit_eq
  intro i
  have e : (0xff000000 <<< 32 : Nat) = (2 ^ 8 - 1) <<< 56 := by decide
  rw [e]
  simp only [Nat.testBit_and, Nat.testBit_shiftLeft, Nat.testBit_two_pow_sub_one,
    Nat.testBit_mod_two_pow, Nat.testBit_shiftRight]
  by_cases h : 56 ≤ i
  · have : 56 + (i - 56) = i := by omega
    simp [h, this, Bool.and_comm]
  · simp [h]

/-- The nine-byte test of `write_varint` holds exactly from `2^56` on. -/
theorem and_high_ne_zero (v : Nat) (hv : v < 2 ^ 64) :
    v &&& (0xff000000 <<< 32) ≠ 0 ↔ 2 ^ 56 ≤ v := by
  rw [and_high, Nat.shiftRight_eq_div_pow, Nat.shiftLeft_eq]
  constructor
  · intro h
    by_contra hc
    have : v / 2 ^ 56 = 0 := Nat.div_eq_of_lt (by omega)
    rw [this] at h
    exact h (by norm_num)
  · intro h
    have h1 : 1 ≤ v / 2 ^ 56 := (Nat.le_div_iff_mul_le (by norm_num)).2 (by omega)
    have h2 : v / 2 ^ 56 < 2 ^ 8 := Nat.div_lt_of_lt_mul (by omega)
    rw [Nat.mod_eq_of_lt h2]
    have : 0 < v / 2 ^ 56 * 2 ^ 56 := Nat.mul_pos (by omega) (by norm_num)
    omega

/-- Below `2^56` one more group of seven bits is one more byte. -/
theorem get_n_bytes_in_varint_step (v : Nat) (hv : v < 2 ^ 56) (h : 128 ≤ v) :
    get_n_bytes_in_varint v = get_n_bytes_in_varint (v / 128) + 1 := by
  have h128 : v / 128 * 128 ≤ v := Nat.div_mul_le_self v 128
  have h129 : v < 128 * (v / 128 + 1) := Nat.lt_mul_div_succ v (by norm_num)
  generalize v / 128 = q at *
  unfold get_n_bytes_in_varint
  by_cases c1 : v ≤ 0x3fff
  · rw [if_neg (by omega), if_pos c1, if_pos (by omega)]
  by_cases c2 : v ≤ 0x1fffff
  · rw [if_neg (by omega), if_neg c1, if_pos c2, if_neg (by omega), if_pos (by omega)]
  by_cases c3 : v ≤ 0xfffffff
  · rw [if_neg (by omega), if_neg c1, if_neg c2, if_pos c3, if_neg (by omega),
      if_neg (by omega), if_pos (by omega)]
  by_cases c4 : v ≤ 0x7ffffffff
  · rw [if_neg (by omega), if_neg c1, if_neg c2, if_neg c3, if_pos c4, if_neg (by omega),
      if_neg (by omega), if_neg (by omega), if_pos (by omega)]
  by_cases c5 : v ≤ 0x3ffffffffff
  · rw [if_neg (by omega), if_neg c1, if_neg c2, if_neg c3, if_neg c4, if_pos c5,
      if_neg (by omega), if_neg (by omega), if_neg (by omega), if_neg (by omega),
      if_pos (by omega)]
  by_cases c6 : v ≤ 0x1ffffffffffff
  · rw [if_neg (by omega), if_neg c1, if_neg c2, if_neg c3, if_neg c4, if_neg c5, if_pos c6,
      if_neg (by omega), if_neg (by omega), if_neg (by omega), if_neg (by omega),
      if_neg (by omega), if_pos (by omega)]
  · rw [if_neg (by omega), if_neg c1, if_neg c2, if_neg c3, if_neg c4, if_neg c5, if_neg c6,
      if_pos (by omega), if_neg (by omega), if_neg (by omega), if_neg (by omega),
      if_neg (by omega), if_neg (by omega), if_neg (by omega), if_pos (by omega)]

/-- One round of the `do ... while` loop of `write_varint`. -/
theorem write_varint_fill_succ (fuel v : Nat) :
    write_varint_fill (fuel + 1) v =
      (v % 128 + 128) :: (if v / 128 ≠ 0 then write_varint_fill fuel (v / 128) else []) := by
  simp only [write_varint_fill, and_7f, Nat.shiftRight_eq_div_pow]
  rw [or_80 _ (Nat.mod_lt _ (by decide))]

/-- The loop of `write_varint` produces as many groups as
`get_n_bytes_in_varint` says. -/
theorem write_varint_fill_length (fuel : Nat) :
    ∀ v, v < 128 ^ fuel → v < 2 ^ 56 → 1 ≤ fuel →
      (write_varint_fill fuel v).length = get_n_bytes_in_varint v := by
  induction fuel with
  | zero => intro v _ _ h; omega
  | succ fuel ih =>
    intro v hv h56 _
    rw [write_varint_fill_succ]
    by_cases h : v / 128 ≠ 0
    · have hge : 128 ≤ v := by
        by_contra hc
        exact h (Nat.div_eq_of_lt (by omega))
      have hfuel : 1 ≤ fuel := by
        rcases Nat.eq_zero_or_pos fuel with h0 | h0
        · subst h0; simp at hv; omega
        · exact h0
      have hdiv : v / 128 < 128 ^ fuel := by
        apply Nat.div_lt_of_lt_mul
        rw [Nat.pow_succ] at hv
        omega
      rw [if_pos h, List.length_cons, ih (v / 128) hdiv (by omega) hfuel,
        get_n_bytes_in_varint_step v h56 hge]
    · have hlt : v < 128 := by
        by_contra hc
        have : 1 ≤ v / 128 := (Nat.le_div_iff_mul_le (by norm_num)).2 (by omega)
        omega
      rw [if_neg h, List.length_cons, List.length_nil]
      unfold get_n_bytes_in_varint
      rw [if_pos (by omega)]

/-- Group `j` of the loop of `write_varint` is the `j`-th base-128 digit with
the bit `0x80` set. -/
theorem write_varint_fill_getD (fuel : Nat) :
    ∀ v j, j < (write_varint_fill fuel v).length →
      (write_varint_fill fuel v).getD j 0 = v / 128 ^ j % 128 + 128 := by
  induction fuel with
  | zero => intro v j h; simp [write_varint_fill] at h
  | succ fuel ih =>
    intro v j hj
    rw [write_varint_fill_succ] at hj ⊢
    cases j with
    | zero => simp
    | succ j =>
      by_cases h : v / 128 ≠ 0
      · rw [if_pos h, List.length_cons] at hj
        rw [if_pos h, List.getD_cons_succ, ih (v / 128) j (by omega), Nat.div_div_eq_div_mul,
          Nat.pow_succ, Nat.mul_comm]
      · rw [if_neg h, List.length_cons, List.length_nil] at hj
        omega

/-- Below `2^56`, `write_varint` returns `get_n_bytes_in_varint`; from `2^56`
on it returns 9. -/
theorem write_varint_count (v : Nat) (hv : v < 2 ^ 64) (b : Mem) (off : Nat) :
    (write_varint v b off).2 = if v < 2 ^ 56 then get_n_bytes_in_varint v else 9 := by
  unfold write_varint
  by_cases h1 : v ≤ 0x7f
  · rw [if_pos h1, if_pos (by omega)]
    unfold get_n_bytes_in_varint
    rw [if_pos h1]
  · by_cases h2 : v ≤ 0x3fff
    · rw [if_neg h1, if_pos h2, if_pos (by omega)]
      unfold get_n_bytes_in_varint
      rw [if_neg h1, if_pos h2]
    · by_cases h3 : v &&& (0xff000000 <<< 32) ≠ 0
      · rw [if_neg h1, if_neg h2, if_pos h3]
        have := (and_high_ne_zero v hv).1 h3
        rw [if_neg (by omega)]
      · have h56 : v < 2 ^ 56 := by
          by_contra hc
          exact h3 ((and_high_ne_zero v hv).2 (by omega))
        have hlen := write_varint_fill_length 10 v (by norm_num; omega) h56 (by norm_num)
        rw [if_neg h1, if_neg h2, if_neg h3, if_pos h56]
        cases hf : write_varint_fill 10 v with
        | nil =>
          rw [hf] at hlen
          simp only [List.length_nil] at hlen
          unfold get_n_bytes_in_varint at hlen
          rw [if_neg h1, if_neg h2] at hlen
          split_ifs at hlen
        | cons b0 rest =>
          rw [hf] at hlen
          exact hlen

/-- Element `j` of a reversed list. -/
theorem getD_reverse_lt {α : Type} (l : List α) (d : α) (j : Nat) (h : j < l.length) :
    l.reverse.getD j d = l.getD (l.length - 1 - j) d := by
  rw [List.getD_eq_getElem _ _ (by simpa using h), List.getD_eq_getElem _ _ (by omega),
    List.getElem_reverse]

/-- Below `2^56`, byte `j` of the varint that `write_varint` stores is the
base-128 digit of weight `128^(k - 1 - j)`, with the bit `0x80` set on every
byte but the last (`k` is the byte count). -/
theorem write_varint_bytes (v : Nat) (hv : v < 2 ^ 56) (b : Mem) (off : Nat) :
    ∀ j, j < get_n_bytes_in_varint v →
      (write_varint v b off).1 (off + j) =
        v / 128 ^ (get_n_bytes_in_varint v - 1 - j) % 128 +
          (if j + 1 = get_n_bytes_in_varint v then 0 else 128) := by
  intro j hj
  unfold write_varint
  by_cases h1 : v ≤ 0x7f
  · have hk : get_n_bytes_in_varint v = 1 := by
      unfold get_n_bytes_in_varint; rw [if_pos h1]
    rw [hk] at hj ⊢
    have hj0 : j = 0 := by omega
    subst hj0
    rw [if_pos h1]
    simp only [Mem.store8, and_7f]
    simp
    omega
  · by_cases h2 : v ≤ 0x3fff
    · have hk : get_n_bytes_in_varint v = 2 := by
        unfold get_n_bytes_in_varint; rw [if_neg h1, if_pos h2]
      rw [hk] at hj ⊢
      rw [if_neg h1, if_pos h2]
      simp only [Mem.store8, and_7f, Nat.shiftRight_eq_div_pow]
      rw [or_80 _ (Nat.mod_lt _ (by decide))]
      have hj01 : j = 0 ∨ j = 1 := by omega
      rcases hj01 with h | h
      · subst h; simp; omega
      · subst h; simp; omega
    · have h3 : ¬ (v &&& (0xff000000 <<< 32) ≠ 0) := by
        intro hc
        have := (and_high_ne_zero v (by omega)).1 hc
        omega
      have hlen := write_varint_fill_length 10 v (by norm_num; omega) hv (by norm_num)
      have hget := write_varint_fill_getD 10 v
      rw [if_neg h1, if_neg h2, if_neg h3]
      cases hf : write_varint_fill 10 v with
      | nil =>
        rw [hf] at hlen
        simp only [List.length_nil] at hlen
        omega
      | cons b0 rest =>
        rw [hf] at hlen hget
        simp only [List.length_cons] at hlen hget
        have hb0 : b0 = v % 128 + 128 := by
          have := hget 0 (by omega)
          simpa using this
        simp only [Mem.storeList, List.reverse_cons, List.length_append, List.length_reverse,
          List.length_cons, List.length_nil]
        rw [if_pos (by omega)]
        have hsub : off + j - off = j := by omega
        rw [hsub, ← hlen]
        by_cases hlast : j + 1 = rest.length + 1
        · rw [if_pos hlast, List.getD_append_right _ _ _ _ (by simp; omega)]
          have : j - rest.reverse.length = 0 := by simp; omega
          rw [this, List.getD_cons_zero, and_7f, hb0]
          have : rest.length + 1 - 1 - j = 0 := by omega
          rw [this]
          simp
          omega
        · rw [if_neg hlast, List.getD_append _ _ _ _ (by simp; omega),
            getD_reverse_lt _ _ _ (by omega)]
          have h4 := hget (rest.length - 1 - j + 1) (by omega)
          rw [List.getD_cons_succ] at h4
          have e : rest.length + 1 - 1 - j = rest.length - 1 - j + 1 := by omega
          rw [h4, e]
          have : v / 128 ^ (rest.length - 1 - j + 1) % 128 < 128 := Nat.mod_lt _ (by decide)
          omega

/-- The loop of the nine-byte branch of `write_varint` stores, in the `k`
bytes from `off`, base-128 digits with the bit `0x80` set, and leaves the
other bytes as they were. -/
theorem write_varint_nine_bytes (off : Nat) :
    ∀ k (b : Mem) (v x : Nat),
      (write_varint_nine off k (b, v)).1 x =
        if off ≤ x ∧ x < off + k then v / 128 ^ (k - 1 - (x - off)) % 128 + 128 else b x := by
  intro k
  induction k with
  | zero =>
    intro b v x
    have : ¬ (off ≤ x ∧ x < off + 0) := by omega
    rw [if_neg this]
    rfl
  | succ k ih =>
    intro b v x
    have hstep : write_varint_nine off (k + 1) (b, v) =
        write_varint_nine off k (b.store8 (off + k) ((v &&& 0x7f) ||| 0x80), v >>> 7) := rfl
    rw [hstep, ih, and_7f, or_80 _ (Nat.mod_lt _ (by decide)), Nat.shiftRight_eq_div_pow]
    have hm : v % 128 < 128 := Nat.mod_lt _ (by decide)
    by_cases hx : off ≤ x ∧ x < off + k
    · rw [if_pos hx, if_pos (by omega), Nat.div_div_eq_div_mul]
      have e : k + 1 - 1 - (x - off) = (k - 1 - (x - off)) + 1 := by omega
      have e2 : 2 ^ 7 * 128 ^ (k - 1 - (x - off)) = 128 ^ (k - 1 - (x - off) + 1) := by
        rw [Nat.pow_succ 128]
        omega
      rw [e, e2]
    · rw [if_neg hx]
      by_cases hk : x = off + k
      · subst hk
        rw [if_pos (by omega)]
        have e : k + 1 - 1 - (off + k - off) = 0 := by omega
        rw [e]
        simp only [Mem.store8, if_true, Nat.pow_zero, Nat.div_one]
        omega
      · rw [if_neg (by omega)]
        simp only [Mem.store8, hk, if_false]

/-- The function `write_varint` changes no byte outside the bytes it counts. -/
theorem write_varint_frame (v : Nat) (b : Mem) (off x : Nat)
    (hx : x < off ∨ off + (write_varint v b off).2 ≤ x) :
    (write_varint v b off).1 x = b x := by
  unfold write_varint at hx ⊢
  by_cases h1 : v ≤ 0x7f
  · rw [if_pos h1] at hx ⊢
    simp only [Mem.store8] at hx ⊢
    rw [if_neg (by omega)]
  · by_cases h2 : v ≤ 0x3fff
    · rw [if_neg h1, if_pos h2] at hx ⊢
      simp only [Mem.store8] at hx ⊢
      rw [if_neg (by omega), if_neg (by omega)]
    · by_cases h3 : v &&& (0xff000000 <<< 32) ≠ 0
      · rw [if_neg h1, if_neg h2, if_pos h3] at hx ⊢
        simp only at hx ⊢
        rw [write_varint_nine_bytes, if_neg (by omega)]
        simp only [Mem.store8]
        rw [if_neg (by omega)]
      · rw [if_neg h1, if_neg h2, if_neg h3] at hx ⊢
        cases hf : write_varint_fill 10 v with
        | nil => rfl
        | cons b0 rest =>
          rw [hf] at hx
          simp only [List.length_cons] at hx
          simp only [Mem.storeList, List.reverse_cons, List.length_append, List.length_reverse,
            List.length_cons, List.length_nil]
          rw [if_neg (by omega)]

/-- The value ranges behind the results of `get_n_bytes_in_varint` below `2^56`. -/
theorem get_n_bytes_in_varint_cases (t : Nat) (ht : t < 2 ^ 56) :
    (get_n_bytes_in_varint t = 1 ∧ t < 2 ^ 7) ∨
    (get_n_bytes_in_varint t = 2 ∧ 2 ^ 7 ≤ t ∧ t < 2 ^ 14) ∨
    (get_n_bytes_in_varint t = 3 ∧ 2 ^ 14 ≤ t ∧ t < 2 ^ 21) ∨
    (get_n_bytes_in_varint t = 4 ∧ 2 ^ 21 ≤ t ∧ t < 2 ^ 28) ∨
    (get_n_bytes_in_varint t = 5 ∧ 2 ^ 28 ≤ t ∧ t < 2 ^ 35) ∨
    (get_n_bytes_in_varint t = 6 ∧ 2 ^ 35 ≤ t ∧ t < 2 ^ 42) ∨
    (get_n_bytes_in_varint t = 7 ∧ 2 ^ 42 ≤ t ∧ t < 2 ^ 49) ∨
    (get_n_bytes_in_varint t = 8 ∧ 2 ^ 49 ≤ t) := by
  unfold get_n_bytes_in_varint
  by_cases c0 : t ≤ 0x7f
  · rw [if_pos c0]; omega
  by_cases c1 : t ≤ 0x3fff
  · rw [if_neg c0, if_pos c1]; omega
  by_cases c2 : t ≤ 0x1fffff
  · rw [if_neg c0, if_neg c1, if_pos c2]; omega
  by_cases c3 : t ≤ 0xfffffff
  · rw [if_neg c0, if_neg c1, if_neg c2, if_pos c3]; omega
  by_cases c4 : t ≤ 0x7ffffffff
  · rw [if_neg c0, if_neg c1, if_neg c2, if_neg c3, if_pos c4]; omega
  by_cases c5 : t ≤ 0x3ffffffffff
  · rw [if_neg c0, if_neg c1, if_neg c2, if_neg c3, if_neg c4, if_pos c5]; omega
  by_cases c6 : t ≤ 0x1ffffffffffff
  · rw [if_neg c0, if_neg c1, if_neg c2, if_neg c3, if_neg c4, if_neg c5, if_pos c6]; omega
  · rw [if_neg c0, if_neg c1, if_neg c2, if_neg c3, if_neg c4, if_neg c5, if_neg c6,
      if_pos (by omega)]
    omega

/-- Below `2^56`, `get_n_bytes_in_varint v` is the smallest `k` with
`v < 2^(7k)`. -/
theorem get_n_bytes_in_varint_minimal (v : Nat) (hv : v < 2 ^ 56) :
    get_n_bytes_in_varint v ≤ 8 ∧ v < 2 ^ (7 * get_n_bytes_in_varint v) ∧
    ∀ k, 1 ≤ k → k < get_n_bytes_in_varint v → 2 ^ (7 * k) ≤ v := by
  have hpow : ∀ k n, k + 1 ≤ n → 2 ^ (7 * k) ≤ 2 ^ (7 * (n - 1)) := by
    intro k n h
    exact Nat.pow_le_pow_right (by norm_num) (by omega)
  rcases get_n_bytes_in_varint_cases v hv with h | h | h | h | h | h | h | h
  · rw [h.1]; exact ⟨by norm_num, h.2, fun k h1 h2 => by omega⟩
  · rw [h.1]
    exact ⟨by norm_num, h.2.2, fun k h1 h2 => Nat.le_trans (hpow k 2 (by omega)) h.2.1⟩
  · rw [h.1]
    exact ⟨by norm_num, h.2.2, fun k h1 h2 => Nat.le_trans (hpow k 3 (by omega)) h.2.1⟩
  · rw [h.1]
    exact ⟨by norm_num, h.2.2, fun k h1 h2 => Nat.le_trans (hpow k 4 (by omega)) h.2.1⟩
  · rw [h.1]
    exact ⟨by norm_num, h.2.2, fun k h1 h2 => Nat.le_trans (hpow k 5 (by omega)) h.2.1⟩
  · rw [h.1]
    exact ⟨by norm_num, h.2.2, fun k h1 h2 => Nat.le_trans (hpow k 6 (by omega)) h.2.1⟩
  · rw [h.1]
    exact ⟨by norm_num, h.2.2, fun k h1 h2 => Nat.le_trans (hpow k 7 (by omega)) h.2.1⟩
  · rw [h.1]
    exact ⟨by norm_num, hv, fun k h1 h2 => Nat.le_trans (hpow k 8 (by omega)) h.2⟩

/-- Below `2^56`, `get_n_bytes_in_varint` does not decrease when its argument grows. -/
theorem get_n_bytes_in_varint_mono (u w : Nat) (huw : u ≤ w) (hw : w < 2 ^ 56) :
    get_n_bytes_in_varint u ≤ get_n_bytes_in_varint w := by
  have h1 := get_n_bytes_in_varint_cases u (by omega)
  have h2 := get_n_bytes_in_varint_cases w hw
  omega

/-- C12: for every 64-bit `v`, the number `k` of bytes that `write_varint`
emits is 9 when `v >= 2^56` and otherwise the smallest `k` in 1..8 with
`v < 2^(7k)`; it lies in 1..9 and does not decrease when `v` grows; every
emitted byte but the last has its high bit set (it is in 128..255), and when
`k < 9` the last byte has its high bit clear. -/
theorem write_varint_length_and_continuation_bits (v : Nat) (hv : v < 2 ^ 64) (b : Mem)
    (off : Nat) :
    ((2 ^ 56 ≤ v ∧ (write_varint v b off).2 = 9) ∨
      (v < 2 ^ 56 ∧ (write_varint v b off).2 ≤ 8 ∧ v < 2 ^ (7 * (write_varint v b off).2) ∧
        ∀ k, 1 ≤ k → k < (write_varint v b off).2 → 2 ^ (7 * k) ≤ v)) ∧
    (1 ≤ (write_varint v b off).2 ∧ (write_varint v b off).2 ≤ 9) ∧
    (∀ w, v ≤ w → w < 2 ^ 64 → (write_varint v b off).2 ≤ (write_varint w b off).2) ∧
    (∀ j, j + 1 < (write_varint v b off).2 →
      128 ≤ (write_varint v b off).1 (off + j) ∧ (write_varint v b off).1 (off + j) < 256) ∧
    ((write_varint v b off).2 < 9 →
      (write_varint v b off).1 (off + ((write_varint v b off).2 - 1)) < 128) := by
  have hcount := write_varint_count v hv b off
  by_cases h56 : v < 2 ^ 56
  · rw [if_pos h56] at hcount
    have hbytes := write_varint_bytes v h56 b off
    have hmin := get_n_bytes_in_varint_minimal v h56
    have h1 : 1 ≤ get_n_bytes_in_varint v := by
      have := get_n_bytes_in_varint_cases v h56
      omega
    rw [hcount]
    refine ⟨Or.inr ⟨h56, hmin⟩, ⟨h1, by omega⟩, ?_, ?_, ?_⟩
    · intro w hvw hw
      rw [write_varint_count w hw b off]
      by_cases hw56 : w < 2 ^ 56
      · rw [if_pos hw56]
        exact get_n_bytes_in_varint_mono v w hvw hw56
      · rw [if_neg hw56]
        omega
    · intro j hj
      rw [hbytes j (by omega), if_neg (by omega)]
      have : v / 128 ^ (get_n_bytes_in_varint v - 1 - j) % 128 < 128 := Nat.mod_lt _ (by decide)
      omega
    · intro _
      rw [hbytes _ (by omega), if_pos (by omega)]
      have : v / 128 ^ (get_n_bytes_in_varint v - 1 - (get_n_bytes_in_varint v - 1)) % 128 < 128 :=
        Nat.mod_lt _ (by decide)
      omega
  · rw [if_neg h56] at hcount
    rw [hcount]
    refine ⟨Or.inl ⟨by omega, rfl⟩, by omega, ?_, ?_, by omega⟩
    · intro w hvw hw
      rw [write_varint_count w hw b off, if_neg (by omega)]
    · intro j hj
      have h1 : ¬ v ≤ 0x7f := by omega
      have h2 : ¬ v ≤ 0x3fff := by omega
      have h3 : v &&& (0xff000000 <<< 32) ≠ 0 := (and_high_ne_zero v hv).2 (by omega)
      unfold write_varint
      rw [if_neg h1, if_neg h2, if_pos h3]
      simp only
      rw [write_varint_nine_bytes, if_pos (by omega)]
      have : v >>> 8 / 128 ^ (8 - 1 - (off + j - off)) % 128 < 128 := Nat.mod_lt _ (by decide)
      omega

/-- Witness for C12: `v = 300` is a 64-bit value; its varint has between 1 and
9 bytes (it has 2). -/
theorem write_varint_length_and_continuation_bits_witness :
    (1 ≤ (write_varint 300 (fun _ => 0) 0).2 ∧ (write_varint 300 (fun _ => 0) 0).2 ≤ 9) ∧
    (write_varint 300 (fun _ => 0) 0).2 = 2 :=
  ⟨(write_varint_length_and_continuation_bits 300 (by norm_num) (fun _ => 0) 0).2.1, by decide⟩

/-! ## Code behaviour at failing inputs of the codec -/

/-- C11 (code behaviour at the failing input): on the nine bytes
`81 80 80 80 80 80 80 80 01`, whose first eight bytes carry the continuation
bit, `read_varint` returns the count 9 and the value `2^56 + 1` (the format
gives `2^57 + 1`); on the ten bytes `81 80 80 80 80 80 80 80 80 05` it returns
the count 10 and the value `2^63 + 5`. -/
theorem read_varint_ninth_byte :
    read_varint (Mem.storeList (fun _ => 0) 0
      [0x81, 0x80, 0x80, 0x80, 0x80, 0x80, 0x80, 0x80, 0x01]) 0 = (2 ^ 56 + 1, 9) ∧
    read_varint (Mem.storeList (fun _ => 0) 0
      [0x81, 0x80, 0x80, 0x80, 0x80, 0x80, 0x80, 0x80, 0x80, 0x05]) 0 = (2 ^ 63 + 5, 10) := by
  decide!

/-- C13 (code behaviour at the failing input): for `v = 2^56` the function
`get_n_bytes_in_varint` returns 8, and `write_varint` writes 9 bytes. -/
theorem get_n_bytes_in_varint_two_pow_56 :
    get_n_bytes_in_varint (2 ^ 56) = 8 ∧ (write_varint (2 ^ 56) (fun _ => 0) 0).2 = 9 := by
  decide!

/-- C14 (code behaviour at the failing input): for `v = 2^56 - 8`, which
satisfies `v + 9 < 2^64`, the function `get_n_bytes_in_varint_plus` returns 8,
but `write_varint(v + 8)` occupies 9 bytes; the smallest `n` with
`write_varint(v + n)` in at most `n` bytes is 9. -/
theorem get_n_bytes_in_varint_plus_below_two_pow_56 :
    get_n_bytes_in_varint_plus (2 ^ 56 - 8) = 8 ∧
    (write_varint (2 ^ 56 - 8 + 8) (fun _ => 0) 0).2 = 9 ∧
    (write_varint (2 ^ 56 - 8 + 9) (fun _ => 0) 0).2 = 9 := by
  decide!

/-- C16 (code behaviour at the failing input): on the six bytes
`00 80 00 00 00 00` (top bit of the first byte clear, `u = 2^39`) `read_int48`
returns `2^39 - 2^48`, and on `80 00 00 00 00 00` (top bit set, `u = 2^47`) it
returns `2^47`. -/
theorem read_int48_tests_bit_39 :
    read_int48 (Mem.storeList (fun _ => 0) 0 [0x00, 0x80, 0, 0, 0, 0]) 0 = 2 ^ 39 - 2 ^ 48 ∧
    read_int48 (Mem.storeList (fun _ => 0) 0 [0x80, 0, 0, 0, 0, 0]) 0 = 2 ^ 47 := by
  decide!

/-- C17 (code behaviour at the failing input): `write_int64(1, buf)` stores the
byte 1 first and seven zero bytes after it, and `read_int64(buf)` returns
`2^56`. -/
theorem write_int64_least_significant_first :
    (write_int64 1 (fun _ => 0) 0) 0 = 1 ∧ (write_int64 1 (fun _ => 0) 0) 7 = 0 ∧
    read_int64 (write_int64 1 (fun _ => 0) 0) 0 = 2 ^ 56 := by
  decide!

/-- C18 (code behaviour at the failing input): for the table
`(a INTEGER, id INTEGER)` and `VALUES (10, 7)`, `parse_values` returns true
with rowid 7, and `get_integer_column(1)` of the record returns 0, not the 10
given for `a`; for `VALUES ( 10, 7 )` it returns `10 * 2^56`. -/
theorem parse_values_integer_column_not_recovered :
    (parse_values_of (chars "(10, 7)") schema_a_id).map
      (fun r => (r.1, r.2.rowid, r.2.get_integer_column 1, r.2.get_integer_column 2)) =
      some (true, 7, some 0, some 7) ∧
    (parse_values_of (chars "( 10, 7 )") schema_a_id).map
      (fun r => (r.1, r.2.rowid, r.2.get_integer_column 1, r.2.get_integer_column 2)) =
      some (true, 7, some (10 * 2 ^ 56), some 7) := by
  decide!

/-- C20 (code behaviour at the failing input): for the table `(t TEXT)` and
`VALUES (abc)`, `parse_values` returns true with `P = 5`; the record starts
with the header length 2 and the single serial type 17, whose content size is
2, so the header bytes and the content sizes add up to 4, not to `P`; and
`get_text_column(1)` returns `bc`. -/
theorem parse_values_record_shorter_than_payload_size :
    (parse_values_of (chars "(abc)") schema_t).map
      (fun r => (r.1, r.2.P, read_varint r.2.bytes 0, read_varint r.2.bytes 1,
        Payload.get_column_content_size (read_varint r.2.bytes 1).1,
        r.2.get_text_column 1)) =
      some (true, 5, (2, 1), (17, 1), 2, some (chars "bc")) := by
  decide!

/-! ## The varint reader on canonical varints -/

/-- The test of the continuation bit. -/
theorem and_80_ne_zero (y : Nat) (hy : y < 256) : y &&& 0x80 ≠ 0 ↔ 128 ≤ y := by
  have e : (0x80 : Nat) = 2 ^ 7 := by norm_num
  rw [e, and_bit_ne_zero]
  omega

/-- Groups of seven bits pack to a value below `128^j`. -/
theorem pack7_lt (d : Nat → Nat) (j : Nat) (hd : ∀ i, i < j → d i < 128) :
    pack7 d j < 128 ^ j := by
  induction j with
  | zero => simp [pack7]
  | succ j ih =>
    have h1 := ih (fun i hi => hd i (by omega))
    have h2 := hd j (by omega)
    simp only [pack7, Nat.pow_succ]
    omega

/-- The loop of `read_varint` over `m <= 8` bytes with the continuation bit
set, followed by a byte without it: it consumes the `m` bytes and leaves their
seven-bit groups packed, shifted by seven bits. -/
theorem read_varint_loop_packs (bytes : Mem) (base : Nat) (d : Nat → Nat) (m : Nat)
    (hm : m ≤ 8)
    (hd : ∀ j, j < m → bytes (base + j) % 256 = d j + 128 ∧ d j < 128)
    (hlast : bytes (base + m) % 256 < 128) :
    ∀ n j fuel, j + n = m → n < fuel →
      read_varint_loop bytes base fuel (pack7 d j * 128, j) = (pack7 d m * 128, m) := by
  intro n
  induction n with
  | zero =>
    intro j fuel hj hf
    have hjm : j = m := by omega
    subst hjm
    cases fuel with
    | zero => omega
    | succ fuel =>
      have hc : ¬ ((bytes (base + j) % 256) &&& 0x80 ≠ 0 ∧ j ≤ 8) := by
        intro hc
        have := (and_80_ne_zero _ (Nat.mod_lt _ (by decide))).1 hc.1
        omega
      simp only [read_varint_loop]
      rw [if_neg hc]
  | succ n ih =>
    intro j fuel hj hf
    cases fuel with
    | zero => omega
    | succ fuel =>
      obtain ⟨hb, hdj⟩ := hd j (by omega)
      have hc : (bytes (base + j) % 256) &&& 0x80 ≠ 0 ∧ j ≤ 8 := by
        refine ⟨(and_80_ne_zero _ (Nat.mod_lt _ (by decide))).2 (by omega), by omega⟩
      have hp := pack7_lt d (j + 1) (fun i hi => (hd i (by omega)).2)
      have hpow : (128 : Nat) ^ (j + 1) ≤ 128 ^ 8 := Nat.pow_le_pow_right (by norm_num) (by omega)
      have hstate : ((pack7 d j * 128 ||| ((bytes (base + j) % 256) &&& 0x7f)) <<< 7) % 2 ^ 64 =
          pack7 d (j + 1) * 128 := by
        rw [hb, and_7f]
        have e1 : (d j + 128) % 128 = d j := by omega
        rw [e1, or_acc _ _ 7 (by omega) (by omega), Nat.shiftLeft_eq]
        simp only [pack7] at hp ⊢
        have e2 : (128 : Nat) ^ 8 = 2 ^ 56 := by norm_num
        rw [Nat.mod_eq_of_lt (by omega)]
      simp only [read_varint_loop]
      rw [if_pos hc, hstate]
      exact ih (j + 1) fuel (by omega) (by omega)

/-- The function `read_varint` on `m < 8` bytes with the continuation bit set
followed by a byte without it returns `m + 1` and the packed groups. -/
theorem read_varint_packs (bytes : Mem) (base : Nat) (d : Nat → Nat) (m : Nat) (hm : m < 8)
    (hd : ∀ j, j < m → bytes (base + j) % 256 = d j + 128 ∧ d j < 128)
    (hlast : bytes (base + m) % 256 < 128) :
    read_varint bytes base = (pack7 d m * 128 + bytes (base + m) % 256, m + 1) := by
  have h := read_varint_loop_packs bytes base d m (by omega) hd hlast m 0 10 (by omega) (by omega)
  have h0 : pack7 d 0 * 128 = 0 := by simp [pack7]
  rw [h0] at h
  unfold read_varint
  rw [h]
  simp only
  rw [if_neg (by omega), and_7f, Nat.mod_eq_of_lt hlast, or_acc _ _ 7 (by omega) (by omega)]

/-- The leading base-128 digits of `v < 128^k` pack to the quotient. -/
theorem pack7_digits (v k : Nat) (hv : v < 128 ^ k) :
    ∀ j, j ≤ k → pack7 (fun i => v / 128 ^ (k - 1 - i) % 128) j = v / 128 ^ (k - j) := by
  intro j
  induction j with
  | zero =>
    intro _
    simp only [pack7, Nat.sub_zero]
    exact (Nat.div_eq_of_lt hv).symm
  | succ j ih =>
    intro hj
    simp only [pack7]
    rw [ih (by omega)]
    have e1 : k - j = (k - 1 - j) + 1 := by omega
    have e2 : k - (j + 1) = k - 1 - j := by omega
    rw [e1, e2, Nat.pow_succ, ← Nat.div_div_eq_div_mul]
    generalize v / 128 ^ (k - 1 - j) = x
    omega

/-- Below `2^56`, `read_varint` returns what `write_varint` wrote: on every
buffer that holds the varint of `v` at `off`, it returns `v` and the byte
count. -/
theorem read_varint_of_varint_at (bytes : Mem) (off v : Nat) (hv : v < 2 ^ 56)
    (h : varint_at bytes off v) :
    read_varint bytes off = (v, get_n_bytes_in_varint v) := by
  have hcount := write_varint_count v (by omega) (fun _ => 0) 0
  rw [if_pos hv] at hcount
  have hbytes := write_varint_bytes v hv (fun _ => 0) 0
  have hmin := get_n_bytes_in_varint_minimal v hv
  have hk1 : 1 ≤ get_n_bytes_in_varint v := by
    have := get_n_bytes_in_varint_cases v hv
    omega
  unfold varint_at at h
  rw [hcount] at h
  generalize hk : get_n_bytes_in_varint v = k at *
  have hvk : v < 128 ^ k := by
    have e : (128 : Nat) = 2 ^ 7 := by norm_num
    rw [e, ← Nat.pow_mul]
    exact hmin.2.1
  have hb : ∀ j, j < k → bytes (off + j) % 256 =
      v / 128 ^ (k - 1 - j) % 128 + (if j + 1 = k then 0 else 128) := by
    intro j hj
    rw [h j hj]
    have := hbytes j hj
    rw [Nat.zero_add] at this
    exact this
  have hr := read_varint_packs bytes off (fun i => v / 128 ^ (k - 1 - i) % 128) (k - 1)
    (by omega)
    (by
      intro j hj
      refine ⟨?_, Nat.mod_lt _ (by decide)⟩
      rw [hb j (by omega), if_neg (by omega)])
    (by
      rw [hb (k - 1) (by omega), if_pos (by omega)]
      have : v / 128 ^ (k - 1 - (k - 1)) % 128 < 128 := Nat.mod_lt _ (by decide)
      omega)
  rw [hr, pack7_digits v k hvk (k - 1) (by omega), hb (k - 1) (by omega), if_pos (by omega)]
  have e1 : k - (k - 1) = 1 := by omega
  have e2 : k - 1 - (k - 1) = 0 := by omega
  have e3 : k - 1 + 1 = k := by omega
  rw [e1, e2, e3, Nat.pow_zero, Nat.pow_one, Nat.div_one, Nat.add_zero]
  have : v / 128 * 128 + v % 128 = v := by omega
  rw [this]

/-! ## Columns of a well-formed record -/

/-- The count that `write_varint` returns is at least 1. -/
theorem write_varint_count_pos (v : Nat) (hv : v < 2 ^ 56) :
    (write_varint v (fun _ => 0) 0).2 = get_n_bytes_in_varint v ∧
    1 ≤ get_n_bytes_in_varint v := by
  have h := write_varint_count v (by omega) (fun _ => 0) 0
  rw [if_pos hv] at h
  have := get_n_bytes_in_varint_cases v hv
  exact ⟨h, by omega⟩

/-- The loop of `get_text_column` and `get_integer_column` on a run of serial
types: started at the column after `n` with `n < i <= n + |ts|`, it stops at
column `i` with the content sizes of the columns before it added to
`target_content_offset` and the content size of column `i`. -/
theorem column_walk_finds (bytes : Mem) (H i : Nat) (hH : H < 2 ^ 64) :
    ∀ (ts : List Nat) (off n target fuel : Nat),
      serial_types_at bytes off ts →
      (∀ t, t ∈ ts → t < 2 ^ 56) →
      n < i → i ≤ n + ts.length →
      off + (ts.map fun t => (write_varint t (fun _ => 0) 0).2).sum ≤ H →
      target + (ts.map Payload.get_column_content_size).sum < 2 ^ 64 →
      ts.length ≤ fuel →
      Payload.column_walk bytes H i fuel off n target =
        some (i, target + ((ts.take (i - n - 1)).map Payload.get_column_content_size).sum,
          some (Payload.get_column_content_size (ts.getD (i - n - 1) 0))) := by
  intro ts
  induction ts with
  | nil =>
    intro off n target fuel _ _ h1 h2
    simp only [List.length_nil] at h2
    omega
  | cons t ts ih =>
    intro off n target fuel hst hsmall hn hi hoff htarget hfuel
    simp only [List.length_cons] at hi hfuel
    simp only [List.map_cons, List.sum_cons] at hoff htarget
    obtain ⟨hvar, hrest⟩ := hst
    have ht := hsmall t (List.mem_cons_self t ts)
    obtain ⟨hc, hpos⟩ := write_varint_count_pos t ht
    rw [hc] at hoff hrest
    have hread := read_varint_of_varint_at bytes off t ht hvar
    cases fuel with
    | zero => omega
    | succ fuel =>
      simp only [Payload.column_walk]
      rw [if_pos (by omega), hread]
      simp only
      by_cases hin : n + 1 = i
      · rw [if_pos hin]
        have e : i - n - 1 = 0 := by omega
        rw [e]
        simp [hin]
      · rw [if_neg hin]
        rw [Nat.mod_eq_of_lt (by omega), Nat.mod_eq_of_lt (by omega)]
        rw [ih (off + get_n_bytes_in_varint t) (n + 1)
          (target + Payload.get_column_content_size t) fuel hrest
          (fun u hu => hsmall u (List.mem_cons_of_mem t hu)) (by omega) (by omega) (by omega)
          (by omega) (by omega)]
        have e : i - n - 1 = (i - (n + 1) - 1) + 1 := by omega
        rw [e, List.take_succ_cons, List.map_cons, List.sum_cons, List.getD_cons_succ,
          Nat.add_assoc]

/-- A serial type whose content is shorter than `2^54` bytes is below `2^56`. -/
theorem serial_type_lt (t : Nat) (h : Payload.get_column_content_size t < 2 ^ 54) :
    t < 2 ^ 56 := by
  unfold Payload.get_column_content_size at h
  split_ifs at h <;> omega

/-- A member of a list of numbers is at most the sum. -/
theorem le_sum_of_mem (f : Nat → Nat) (l : List Nat) (t : Nat) (ht : t ∈ l) :
    f t ≤ (l.map f).sum := by
  induction l with
  | nil => cases ht
  | cons a l ih =>
    simp only [List.map_cons, List.sum_cons]
    rcases List.mem_cons.1 ht with h | h
    · subst h; omega
    · have := ih h; omega

/-- Every varint takes at least one byte, so a header is longer than its
number of serial types. -/
theorem length_le_sum_counts (l : List Nat) (h : ∀ t, t ∈ l → t < 2 ^ 56) :
    l.length ≤ (l.map fun t => (write_varint t (fun _ => 0) 0).2).sum := by
  induction l with
  | nil => simp
  | cons a l ih =>
    simp only [List.map_cons, List.sum_cons, List.length_cons]
    have h1 := write_varint_count_pos a (h a (List.mem_cons_self a l))
    have h2 := ih (fun t ht => h t (List.mem_cons_of_mem a ht))
    omega

/-- Column `i` of a well-formed record shorter than `2^54` bytes: the loop
stops at column `i` with the offset of its body and its content size. -/
theorem find_column_of_record (p : Payload) (H : Nat) (ts : List Nat) (i : Nat)
    (hrec : record_header p.bytes H ts) (hi1 : 1 ≤ i) (hi2 : i ≤ ts.length)
    (hsize : H + (ts.map Payload.get_column_content_size).sum < 2 ^ 54) :
    p.find_column i =
      some (i, H + ((ts.take (i - 1)).map Payload.get_column_content_size).sum,
        some (Payload.get_column_content_size (ts.getD (i - 1) 0))) := by
  obtain ⟨hH, hts, hlen⟩ := hrec
  have hsmall : ∀ t, t ∈ ts → t < 2 ^ 56 := by
    intro t ht
    have := le_sum_of_mem Payload.get_column_content_size ts t ht
    exact serial_type_lt t (by omega)
  have hH56 : H < 2 ^ 56 := by omega
  obtain ⟨hc, _⟩ := write_varint_count_pos H hH56
  rw [hc] at hts hlen
  have hread := read_varint_of_varint_at p.bytes 0 H hH56 hH
  have hcnt := length_le_sum_counts ts hsmall
  unfold Payload.find_column
  rw [hread]
  simp only
  rw [column_walk_finds p.bytes H i (by omega) ts (get_n_bytes_in_varint H) 0 H (H + 1) hts hsmall
    (by omega) (by omega) (by omega) (by omega) (by omega)]
  simp

/-- What `write_varint` wrote is the varint of the value. -/
theorem varint_at_write (v : Nat) (hv : v < 2 ^ 56) (b : Mem) (off : Nat) :
    varint_at (write_varint v b off).1 off v := by
  intro j hj
  rw [(write_varint_count_pos v hv).1] at hj
  have h1 := write_varint_bytes v hv b off j hj
  have h2 := write_varint_bytes v hv (fun _ => 0) 0 j hj
  rw [Nat.zero_add] at h2
  rw [h1, h2]
  apply Nat.mod_eq_of_lt
  have : v / 128 ^ (get_n_bytes_in_varint v - 1 - j) % 128 < 128 := Nat.mod_lt _ (by decide)
  split <;> omega

/-- A varint stays where it is when the bytes under it do. -/
theorem varint_at_congr (b1 b2 : Mem) (off v : Nat)
    (h : ∀ j, j < (write_varint v (fun _ => 0) 0).2 → b1 (off + j) = b2 (off + j))
    (h2 : varint_at b2 off v) : varint_at b1 off v := by
  intro j hj
  rw [h j hj]
  exact h2 j hj

/-- A list is the list of its elements by index. -/
theorem range_map_getD (l : List Nat) (h : ∀ c, c ∈ l → c < 256) :
    (List.range l.length).map (fun k => l.getD k 0 % 256) = l := by
  apply List.ext_getElem
  · simp
  · intro n h1 h2
    simp only [List.getElem_map, List.getElem_range]
    rw [List.getD_eq_getElem _ _ h2]
    exact Nat.mod_eq_of_lt (h _ (List.getElem_mem h2))

/-- Layout of the record that `Payload(std::string&)` builds for a text
shorter than `2^53` bytes: a well-formed header with the serial types 0 and
`2 * length + 13`, followed by the text. -/
theorem ofString_layout (init : Mem) (rowid : Nat) (s : List Nat) (hlen : s.length < 2 ^ 53) :
    record_header (Payload.ofString init rowid s).bytes
      (2 + get_n_bytes_in_varint (2 * s.length + 13)) [0, 2 * s.length + 13] ∧
    ∀ k, k < s.length →
      (Payload.ofString init rowid s).bytes (2 + get_n_bytes_in_varint (2 * s.length + 13) + k) =
        s.getD k 0 % 256 := by
  have hN : (s.length * 2 + 13) % 2 ^ 64 = 2 * s.length + 13 := by omega
  have hN56 : 2 * s.length + 13 < 2 ^ 56 := by omega
  obtain ⟨cN, cNpos⟩ := write_varint_count_pos (2 * s.length + 13) hN56
  have hk9 : get_n_bytes_in_varint (2 * s.length + 13) ≤ 8 :=
    (get_n_bytes_in_varint_minimal _ hN56).1
  have hplus : get_n_bytes_in_varint_plus (get_n_bytes_in_varint (2 * s.length + 13) + 1) = 1 := by
    unfold get_n_bytes_in_varint_plus
    rw [if_pos (by omega)]
  have hH : get_n_bytes_in_varint_plus (get_n_bytes_in_varint (2 * s.length + 13) + 1) + 1 +
      get_n_bytes_in_varint (2 * s.length + 13) =
      2 + get_n_bytes_in_varint (2 * s.length + 13) := by
    rw [hplus]
  generalize hn : get_n_bytes_in_varint (2 * s.length + 13) = n at *
  have hH56 : 2 + n < 2 ^ 56 := by omega
  have cH : ∀ b off, (write_varint (2 + n) b off).2 = 1 := by
    intro b off
    rw [write_varint_count _ (by omega), if_pos hH56]
    unfold get_n_bytes_in_varint
    rw [if_pos (by omega)]
  have c0 : ∀ b off, (write_varint 0 b off).2 = 1 := by
    intro b off
    rw [write_varint_count _ (by omega), if_pos (by norm_num)]
    rfl
  have cNb : ∀ b off, (write_varint (2 * s.length + 13) b off).2 = n := by
    intro b off
    rw [write_varint_count _ (by omega), if_pos hN56, hn]
  have hbytes : ∀ x, (Payload.ofString init rowid s).bytes x =
      if 2 + n ≤ x ∧ x < 2 + n + s.length then s.getD (x - (2 + n)) 0 % 256
      else (write_varint (2 * s.length + 13)
        (write_varint 0 (write_varint (2 + n) init 0).1 1).1 2).1 x := by
    intro x
    simp only [Payload.ofString, hN, hn, hH, cH, c0, cNb, Mem.storeList]
  refine ⟨⟨?_, ⟨?_, ?_, trivial⟩, ?_⟩, ?_⟩
  · apply varint_at_congr _ (write_varint (2 + n) init 0).1
    · intro j hj
      rw [cH] at hj
      rw [hbytes, if_neg (by omega), write_varint_frame _ _ _ _ (Or.inl (by omega)),
        write_varint_frame _ _ _ _ (Or.inl (by omega))]
    · exact varint_at_write _ hH56 _ _
  · rw [cH]
    apply varint_at_congr _ (write_varint 0 (write_varint (2 + n) init 0).1 1).1
    · intro j hj
      rw [c0] at hj
      rw [hbytes, if_neg (by omega), write_varint_frame _ _ _ _ (Or.inl (by omega))]
    · exact varint_at_write _ (by norm_num) _ _
  · rw [cH, c0]
    apply varint_at_congr _ (write_varint (2 * s.length + 13)
      (write_varint 0 (write_varint (2 + n) init 0).1 1).1 2).1
    · intro j hj
      rw [cNb] at hj
      rw [hbytes, if_neg (by omega)]
    · exact varint_at_write _ hN56 _ _
  · simp only [List.map_cons, List.map_nil, List.sum_cons, List.sum_nil, cH, c0, cNb]
    omega
  · intro k hk
    rw [hbytes, if_pos (by omega)]
    have e : 2 + n + k - (2 + n) = k := by omega
    rw [e]

/-- C19: on a well-formed record shorter than `2^54` bytes (the varint of the
header length `H`, which counts itself, then the varints of the serial types
`t1 .. tn`) and for every ordinal `i` with `1 <= i <= n`,
`get_text_column(i)` returns exactly the `content_size(ti)` bytes that start
at offset `H + content_size(t1) + ... + content_size(t(i-1))`; and for every
text `s` shorter than `2^53` bytes, `get_text_column(2)` of the record that
`Payload(std::string s)` builds returns `s`. -/
theorem get_text_column_of_record (p : Payload) (H : Nat) (ts : List Nat) (i : Nat)
    (hrec : record_header p.bytes H ts) (hi1 : 1 ≤ i) (hi2 : i ≤ ts.length)
    (hsize : H + (ts.map Payload.get_column_content_size).sum < 2 ^ 54)
    (init : Mem) (rowid : Nat) (s : List Nat) (hs : ∀ c, c ∈ s → c < 256)
    (hlen : s.length < 2 ^ 53) :
    p.get_text_column i =
      some ((List.range (Payload.get_column_content_size (ts.getD (i - 1) 0))).map fun k =>
        p.bytes (H + ((ts.take (i - 1)).map Payload.get_column_content_size).sum + k) % 256) ∧
    (Payload.ofString init rowid s).get_text_column 2 = some s := by
  constructor
  · unfold Payload.get_text_column
    rw [find_column_of_record p H ts i hrec hi1 hi2 hsize]
    simp
  · obtain ⟨hrec2, hbody⟩ := ofString_layout init rowid s hlen
    have hN56 : 2 * s.length + 13 < 2 ^ 56 := by omega
    have hk : get_n_bytes_in_varint (2 * s.length + 13) ≤ 8 :=
      (get_n_bytes_in_varint_minimal _ hN56).1
    have hcs0 : Payload.get_column_content_size 0 = 0 := by decide
    have hcsN : Payload.get_column_content_size (2 * s.length + 13) = s.length := by
      unfold Payload.get_column_content_size
      split_ifs <;> omega
    unfold Payload.get_text_column
    rw [find_column_of_record _ _ [0, 2 * s.length + 13] 2 hrec2 (by norm_num) (by simp)
      (by
        simp only [List.map_cons, List.map_nil, List.sum_cons, List.sum_nil, hcs0, hcsN]
        omega)]
    simp only [ne_eq, not_true_eq_false, if_false]
    have e1 : ([0, 2 * s.length + 13] : List Nat).getD (2 - 1) 0 = 2 * s.length + 13 := rfl
    have e2 : (([0, 2 * s.length + 13] : List Nat).take (2 - 1)).map
        Payload.get_column_content_size = [Payload.get_column_content_size 0] := rfl
    rw [e1, e2, hcsN, hcs0]
    simp only [List.sum_cons, List.sum_nil, Nat.add_zero]
    have hmap : (List.range s.length).map (fun k =>
        (Payload.ofString init rowid s).bytes
          (2 + get_n_bytes_in_varint (2 * s.length + 13) + k) % 256) =
        (List.range s.length).map (fun k => s.getD k 0 % 256) := by
      apply List.map_congr_left
      intro k hk2
      rw [hbody k (List.mem_range.1 hk2), Nat.mod_mod]
    rw [hmap, range_map_getD s hs]

/-- Witness for C19: the record of the text `aaa` has the header length 3 and
the serial types 0 and 19; `get_text_column(2)` returns the three bytes at
offset 3, and the record built from `abc` returns `abc`. -/
theorem get_text_column_of_record_witness :
    record_header (text_row 3 97).bytes 3 [0, 19] ∧
    (text_row 3 97).get_text_column 2 = some [97, 97, 97] ∧
    (Payload.ofString (fun _ => 0) 0 (chars "abc")).get_text_column 2 = some (chars "abc") := by
  have hrec : record_header (text_row 3 97).bytes 3 [0, 19] :=
    (ofString_layout (fun _ => 0) 0 (List.replicate 3 97) (by decide)).1
  have h := get_text_column_of_record (text_row 3 97) 3 [0, 19] 2 hrec (by decide) (by decide)
    (by decide) (fun _ => 0) 0 (chars "abc") (by decide) (by decide)
  exact ⟨hrec, h.1.trans (by decide!), h.2⟩

/-! ## Serial types -/

/-- C21: for every serial type `N`, `get_column_content_size` returns `N` for
`N <= 4`, 6 for `N = 5`, 8 for `N = 6` and `N = 7`, 0 for `N = 8` and `N = 9`,
`(N - 12) / 2` for even `N >= 12` and `(N - 13) / 2` for odd `N >= 13`; and
`get_column_type` returns `BLOB` for even `N >= 12` and `STRING` for odd
`N >= 13`. -/
theorem serial_type_table (N : Nat) :
    (N ≤ 4 → Payload.get_column_content_size N = N) ∧
    (N = 5 → Payload.get_column_content_size N = 6) ∧
    (N = 6 ∨ N = 7 → Payload.get_column_content_size N = 8) ∧
    (N = 8 ∨ N = 9 → Payload.get_column_content_size N = 0) ∧
    (12 ≤ N → N % 2 = 0 → Payload.get_column_content_size N = (N - 12) / 2) ∧
    (13 ≤ N → N % 2 = 1 → Payload.get_column_content_size N = (N - 13) / 2) ∧
    (12 ≤ N → N % 2 = 0 → Payload.get_column_type N = .BLOB) ∧
    (13 ≤ N → N % 2 = 1 → Payload.get_column_type N = .STRING) := by
  refine ⟨?_, ?_, ?_, ?_, ?_, ?_, ?_, ?_⟩
  · intro h
    unfold Payload.get_column_content_size
    rw [if_pos h]
  · intro h
    subst h
    decide
  · intro h
    rcases h with h | h <;> subst h <;> decide
  · intro h
    rcases h with h | h <;> subst h <;> decide
  · intro h1 h2
    have c1 : ¬ N ≤ 4 := by omega
    have c2 : ¬ N = 5 := by omega
    have c3 : ¬ (N = 6 ∨ N = 7) := by omega
    have c4 : ¬ (N = 8 ∨ N = 9) := by omega
    have c5 : ¬ (N = 10 ∨ N = 11) := by omega
    unfold Payload.get_column_content_size
    rw [if_neg c1, if_neg c2, if_neg c3, if_neg c4, if_neg c5, if_pos h2]
  · intro h1 h2
    have c1 : ¬ N ≤ 4 := by omega
    have c2 : ¬ N = 5 := by omega
    have c3 : ¬ (N = 6 ∨ N = 7) := by omega
    have c4 : ¬ (N = 8 ∨ N = 9) := by omega
    have c5 : ¬ (N = 10 ∨ N = 11) := by omega
    have c6 : ¬ N % 2 = 0 := by omega
    unfold Payload.get_column_content_size
    rw [if_neg c1, if_neg c2, if_neg c3, if_neg c4, if_neg c5, if_neg c6]
  · intro h1 h2
    simp only [Payload.get_column_type, h2, if_true,
      show ¬ N = 0 by omega, show ¬ N = 1 by omega, show ¬ N = 2 by omega,
      show ¬ N = 3 by omega, show ¬ N = 4 by omega, show ¬ N = 5 by omega,
      show ¬ N = 6 by omega, show ¬ N = 7 by omega, show ¬ N = 8 by omega,
      show ¬ N = 9 by omega, show ¬ N = 10 by omega, show ¬ N = 11 by omega, if_false]
  · intro h1 h2
    have c6 : ¬ N % 2 = 0 := by omega
    simp only [Payload.get_column_type, c6,
      show ¬ N = 0 by omega, show ¬ N = 1 by omega, show ¬ N = 2 by omega,
      show ¬ N = 3 by omega, show ¬ N = 4 by omega, show ¬ N = 5 by omega,
      show ¬ N = 6 by omega, show ¬ N = 7 by omega, show ¬ N = 8 by omega,
      show ¬ N = 9 by omega, show ¬ N = 10 by omega, show ¬ N = 11 by omega, if_false]

/-- Witness for C21: the serial type 19 is odd and at least 13; its content
size is 3 and its type is `STRING`. -/
theorem serial_type_table_witness :
    Payload.get_column_content_size 19 = (19 - 13) / 2 ∧ Payload.get_column_type 19 = .STRING :=
  ⟨(serial_type_table 19).2.2.2.2.2.1 (by decide) (by decide),
    (serial_type_table 19).2.2.2.2.2.2.2 (by decide) (by decide)⟩

/-! ## The column getters and the serial type -/

/-- C22 (code behaviour at the failing input): on the records `02 08` and
`02 09`, whose single column has the serial type 8 and 9, with the rowid 7,
`get_integer_column(1)` returns 7. -/
theorem get_integer_column_of_serial_types_8_and_9 :
    (read_varint (record_of 7 [2, 8]).bytes 1).1 = 8 ∧
    (record_of 7 [2, 8]).get_integer_column 1 = some 7 ∧
    (read_varint (record_of 7 [2, 9]).bytes 1).1 = 9 ∧
    (record_of 7 [2, 9]).get_integer_column 1 = some 7 := by
  decide!

/-- C23 (counterexample): on the record of the text `aaa` (serial types 0 and
19) `get_integer_column(2)` returns the integer `0x616161` read from the body
of the text column, and on the record `02 01 41`, whose single column has the
serial type 1, `get_text_column(1)` returns the string `A`. -/
theorem getters_accept_any_serial_type :
    (text_row 3 97).get_integer_column 2 = some 0x616161 ∧
    (read_varint (record_of 7 [2, 1, 65]).bytes 1).1 = 1 ∧
    (record_of 7 [2, 1, 65]).get_text_column 1 = some [65] := by
  decide!

/-- Sign extension from `w` to `W` bits: a value below `2^w` converted to the
signed type of `W > w` bits is its `w`-bit two's-complement reading when the
top bit is clear, and so is the value with the bits `w .. W - 1` set when the
top bit is set. -/
theorem to_signed_extend (w W ones u : Nat) (hw : 0 < w) (hW : w < W)
    (hones : ones = 2 ^ W - 2 ^ w) (hu : u < 2 ^ w) :
    (u < 2 ^ (w - 1) → to_signed W u = to_signed w u) ∧
    (2 ^ (w - 1) ≤ u → to_signed W (ones + u) = to_signed w u) := by
  have hpw : 2 ^ w = 2 * 2 ^ (w - 1) := by
    have e : w = (w - 1) + 1 := by omega
    conv_lhs => rw [e, Nat.pow_succ]
    omega
  have hle : 2 ^ w ≤ 2 ^ (W - 1) := Nat.pow_le_pow_right (by decide) (by omega)
  have hpW : 2 ^ W = 2 * 2 ^ (W - 1) := by
    have e : W = (W - 1) + 1 := by omega
    conv_lhs => rw [e, Nat.pow_succ]
    omega
  have hcastW : ((2 ^ W : Nat) : Int) = 2 * ((2 ^ (W - 1) : Nat) : Int) := by
    rw [hpW]; push_cast; ring
  have hcastw : ((2 ^ w : Nat) : Int) = 2 * ((2 ^ (w - 1) : Nat) : Int) := by
    rw [hpw]; push_cast; ring
  generalize hA : 2 ^ (w - 1) = A at *
  generalize hB : 2 ^ (W - 1) = B at *
  generalize hC : 2 ^ w = C at *
  generalize hD : 2 ^ W = D at *
  constructor
  · intro h
    unfold to_signed
    rw [hA, hB, hC, hD, Nat.mod_eq_of_lt (by omega), Nat.mod_eq_of_lt hu, if_pos (by omega),
      if_pos h]
  · intro h
    unfold to_signed
    rw [hA, hB, hC, hD, Nat.mod_eq_of_lt (show ones + u < D by omega), Nat.mod_eq_of_lt hu,
      if_neg (by omega), if_neg (by omega)]
    push_cast
    omega

/-- The signed readers in terms of the big-endian bytes: `read_int8`,
`read_int16`, `read_int24`, `read_int32` and `read_int64` return the 1, 2, 3, 4
and 8 bytes at the offset read as a two's-complement number, and `read_int48`
does so for 6 bytes when the top bits of the first two bytes agree (its sign
test looks at bit 39). -/
theorem signed_reader_values (bytes : Mem) (off : Nat) :
    read_int8 bytes off = to_signed 8 (big_endian_value bytes off 1) ∧
    read_int16 bytes off = to_signed 16 (big_endian_value bytes off 2) ∧
    read_int24 bytes off = to_signed 24 (big_endian_value bytes off 3) ∧
    read_int32 bytes off = to_signed 32 (big_endian_value bytes off 4) ∧
    read_int64 bytes off = to_signed 64 (big_endian_value bytes off 8) ∧
    ((128 ≤ bytes off % 256 ↔ 128 ≤ bytes (off + 1) % 256) →
      read_int48 bytes off = to_signed 48 (big_endian_value bytes off 6)) := by
  have h0 : bytes off % 256 < 256 := Nat.mod_lt _ (by decide)
  have h1 : bytes (off + 1) % 256 < 256 := Nat.mod_lt _ (by decide)
  have h2 : bytes (off + 2) % 256 < 256 := Nat.mod_lt _ (by decide)
  have h3 : bytes (off + 3) % 256 < 256 := Nat.mod_lt _ (by decide)
  have h4 : bytes (off + 4) % 256 < 256 := Nat.mod_lt _ (by decide)
  have h5 : bytes (off + 5) % 256 < 256 := Nat.mod_lt _ (by decide)
  have h6 : bytes (off + 6) % 256 < 256 := Nat.mod_lt _ (by decide)
  have h7 : bytes (off + 7) % 256 < 256 := Nat.mod_lt _ (by decide)
  generalize hb0 : bytes off % 256 = b0 at *
  generalize hb1 : bytes (off + 1) % 256 = b1 at *
  generalize hb2 : bytes (off + 2) % 256 = b2 at *
  generalize hb3 : bytes (off + 3) % 256 = b3 at *
  generalize hb4 : bytes (off + 4) % 256 = b4 at *
  generalize hb5 : bytes (off + 5) % 256 = b5 at *
  generalize hb6 : bytes (off + 6) % 256 = b6 at *
  generalize hb7 : bytes (off + 7) % 256 = b7 at *
  have v1 : big_endian_value bytes off 1 = b0 := by
    simp [big_endian_value, hb0]
  have v2 : big_endian_value bytes off 2 = b0 * 256 + b1 := by
    simp [big_endian_value, hb0, hb1]
  have v3 : big_endian_value bytes off 3 = b0 * 65536 + b1 * 256 + b2 := by
    simp [big_endian_value, hb0, hb1, hb2]; omega
  have v4 : big_endian_value bytes off 4 = b0 * 2 ^ 24 + b1 * 2 ^ 16 + b2 * 2 ^ 8 + b3 := by
    simp [big_endian_value, hb0, hb1, hb2, hb3]; omega
  have v6 : big_endian_value bytes off 6 =
      b0 * 2 ^ 40 + b1 * 2 ^ 32 + b2 * 2 ^ 24 + b3 * 2 ^ 16 + b4 * 2 ^ 8 + b5 := by
    simp [big_endian_value, hb0, hb1, hb2, hb3, hb4, hb5]; omega
  have v8 : big_endian_value bytes off 8 =
      b0 * 2 ^ 56 + b1 * 2 ^ 48 + b2 * 2 ^ 40 + b3 * 2 ^ 32 + b4 * 2 ^ 24 + b5 * 2 ^ 16 +
        b6 * 2 ^ 8 + b7 := by
    simp [big_endian_value, hb0, hb1, hb2, hb3, hb4, hb5, hb6, hb7]; omega
  have r1 : read_int8 bytes off = to_signed 8 b0 := by
    simp only [read_int8, hb0]
  have r2 : read_int16 bytes off = to_signed 16 (b0 * 256 + b1) := by
    simp only [read_int16, hb0, hb1, or_of_two_bytes b0 b1 h1]
  have r4 : read_int32 bytes off =
      to_signed 32 (b0 * 2 ^ 24 + b1 * 2 ^ 16 + b2 * 2 ^ 8 + b3) := by
    simp only [read_int32, hb0, hb1, hb2, hb3, or_of_four_bytes b0 b1 b2 b3 h1 h2 h3]
  have r8 : read_int64 bytes off =
      to_signed 64 (b0 * 2 ^ 56 + b1 * 2 ^ 48 + b2 * 2 ^ 40 + b3 * 2 ^ 32 + b4 * 2 ^ 24 +
        b5 * 2 ^ 16 + b6 * 2 ^ 8 + b7) := by
    simp only [read_int64, hb0, hb1, hb2, hb3, hb4, hb5, hb6, hb7,
      or_of_eight_bytes b0 b1 b2 b3 b4 b5 b6 b7 h1 h2 h3 h4 h5 h6 h7]
  have r3 : read_int24 bytes off =
      if 128 ≤ b0 then to_signed 32 (0xFF000000 + (b0 * 65536 + b1 * 256 + b2))
      else to_signed 32 (b0 * 65536 + b1 * 256 + b2) := by
    have hbit : (b0 * 65536 + b1 * 256 + b2) &&& 0x800000 ≠ 0 ↔ 128 ≤ b0 := by
      have e : (0x800000 : Nat) = 2 ^ 23 := by norm_num
      rw [e, and_bit_ne_zero]
      omega
    have hor : (b0 * 65536 + b1 * 256 + b2) ||| 0xFF000000 =
        0xFF000000 + (b0 * 65536 + b1 * 256 + b2) := by
      rw [Nat.lor_comm]
      exact or_acc _ _ 24 (by omega) (by omega)
    simp only [read_int24, hb0, hb1, hb2, or_of_three_bytes b0 b1 b2 h1 h2]
    by_cases h : 128 ≤ b0
    · rw [if_pos (hbit.2 h), if_pos h, hor]
    · rw [if_neg (fun hc => h (hbit.1 hc)), if_neg h]
  have r6 : read_int48 bytes off =
      if 128 ≤ b1 then
        to_signed 64 (0xFFFF000000000000 +
          (b0 * 2 ^ 40 + b1 * 2 ^ 32 + b2 * 2 ^ 24 + b3 * 2 ^ 16 + b4 * 2 ^ 8 + b5))
      else to_signed 64 (b0 * 2 ^ 40 + b1 * 2 ^ 32 + b2 * 2 ^ 24 + b3 * 2 ^ 16 + b4 * 2 ^ 8 + b5) := by
    have hbit : (b0 * 2 ^ 40 + b1 * 2 ^ 32 + b2 * 2 ^ 24 + b3 * 2 ^ 16 + b4 * 2 ^ 8 + b5) &&&
        0x8000000000 ≠ 0 ↔ 128 ≤ b1 := by
      have e : (0x8000000000 : Nat) = 2 ^ 39 := by norm_num
      rw [e, and_bit_ne_zero]
      omega
    have hor : (b0 * 2 ^ 40 + b1 * 2 ^ 32 + b2 * 2 ^ 24 + b3 * 2 ^ 16 + b4 * 2 ^ 8 + b5) |||
        0xFFFF000000000000 =
        0xFFFF000000000000 +
          (b0 * 2 ^ 40 + b1 * 2 ^ 32 + b2 * 2 ^ 24 + b3 * 2 ^ 16 + b4 * 2 ^ 8 + b5) := by
      rw [Nat.lor_comm]
      exact or_acc _ _ 48 (by omega) (by omega)
    simp only [read_int48, hb0, hb1, hb2, hb3, hb4, hb5,
      or_of_six_bytes b0 b1 b2 b3 b4 b5 h1 h2 h3 h4 h5]
    by_cases h : 128 ≤ b1
    · rw [if_pos (hbit.2 h), if_pos h, hor]
    · rw [if_neg (fun hc => h (hbit.1 hc)), if_neg h]
  rw [r1, r2, r3, r4, r8, r6, v1, v2, v3, v4, v6, v8]
  refine ⟨rfl, rfl, ?_, rfl, rfl, ?_⟩
  · have hu : b0 * 65536 + b1 * 256 + b2 < 2 ^ 24 := by omega
    have hb : 128 ≤ b0 ↔ 2 ^ 23 ≤ b0 * 65536 + b1 * 256 + b2 := by omega
    generalize b0 * 65536 + b1 * 256 + b2 = u at hu hb ⊢
    obtain ⟨hlo, hhi⟩ := to_signed_extend 24 32 0xFF000000 u (by decide) (by decide)
      (by decide) hu
    by_cases h : 128 ≤ b0
    · rw [if_pos h]
      exact hhi (hb.1 h)
    · rw [if_neg h]
      exact hlo (by omega)
  · intro hagree
    have hu : b0 * 2 ^ 40 + b1 * 2 ^ 32 + b2 * 2 ^ 24 + b3 * 2 ^ 16 + b4 * 2 ^ 8 + b5 < 2 ^ 48 := by
      omega
    have hb : 128 ≤ b0 ↔
        2 ^ 47 ≤ b0 * 2 ^ 40 + b1 * 2 ^ 32 + b2 * 2 ^ 24 + b3 * 2 ^ 16 + b4 * 2 ^ 8 + b5 := by
      omega
    generalize b0 * 2 ^ 40 + b1 * 2 ^ 32 + b2 * 2 ^ 24 + b3 * 2 ^ 16 + b4 * 2 ^ 8 + b5 = u
      at hu hb ⊢
    obtain ⟨hlo, hhi⟩ := to_signed_extend 48 64 0xFFFF000000000000 u (by decide) (by decide)
      (by decide) hu
    by_cases h : 128 ≤ b1
    · rw [if_pos h]
      exact hhi (hb.1 (hagree.2 h))
    · rw [if_neg h]
      exact hlo (by
        have hn : ¬ 128 ≤ b0 := fun hc => h (hagree.1 hc)
        omega)

/-- The getters on a well-formed record shorter than `2^54` bytes, for an
ordinal `i` with `1 <= i <= n`: `get_integer_column(i)` returns the value of
the dispatch on the content size of column `i` at its body offset, and
`get_text_column(i)` returns the bytes of the column body. -/
theorem getters_dispatch_on_content_size (p : Payload) (H : Nat) (ts : List Nat) (i : Nat)
    (hrec : record_header p.bytes H ts) (hi1 : 1 ≤ i) (hi2 : i ≤ ts.length)
    (hsize : H + (ts.map Payload.get_column_content_size).sum < 2 ^ 54) :
    p.get_integer_column i =
      some (p.integer_of_content
        (H + ((ts.take (i - 1)).map Payload.get_column_content_size).sum)
        (Payload.get_column_content_size (ts.getD (i - 1) 0))) ∧
    p.get_text_column i =
      some ((List.range (Payload.get_column_content_size (ts.getD (i - 1) 0))).map fun k =>
        p.bytes (H + ((ts.take (i - 1)).map Payload.get_column_content_size).sum + k) % 256) := by
  constructor
  · unfold Payload.get_integer_column
    rw [find_column_of_record p H ts i hrec hi1 hi2 hsize]
    simp [Payload.integer_of_content]
  · unfold Payload.get_text_column
    rw [find_column_of_record p H ts i hrec hi1 hi2 hsize]
    simp

/-- C23 (amended): the getters make no type check and have no failure result.
On a well-formed record shorter than `2^54` bytes, let `N` be the serial type
of column `i` (`1 <= i <= n`), `off` the offset of its body and `c` its content
size.  If `N` is a text or BLOB type (`N >= 12`, so `c = (N - 12) / 2`),
`get_integer_column(i)` returns a value all the same: the rowid of the payload
for `c = 0`; the `c` body bytes read as a big-endian two's-complement integer
for `c` in 1, 2, 3, 4, 8, and for `c = 6` when the top bits of the first two
body bytes agree; and 0 for every other `c` but 6.  If `N` is an integer type
(1 .. 6, 8, 9), `get_text_column(i)` returns the `c` body bytes as a string. -/
theorem getters_without_type_check (p : Payload) (H : Nat) (ts : List Nat) (i : Nat)
    (hrec : record_header p.bytes H ts) (hi1 : 1 ≤ i) (hi2 : i ≤ ts.length)
    (hsize : H + (ts.map Payload.get_column_content_size).sum < 2 ^ 54)
    (N off c : Nat) (hN : N = ts.getD (i - 1) 0)
    (hoff : off = H + ((ts.take (i - 1)).map Payload.get_column_content_size).sum)
    (hc : c = Payload.get_column_content_size N) :
    (12 ≤ N →
      c = (N - 12) / 2 ∧
      (c = 0 → p.get_integer_column i = some (to_signed 64 p.rowid)) ∧
      (c = 1 ∨ c = 2 ∨ c = 3 ∨ c = 4 ∨ c = 8 →
        p.get_integer_column i = some (to_signed (8 * c) (big_endian_value p.bytes off c))) ∧
      (c = 6 → (128 ≤ p.bytes off % 256 ↔ 128 ≤ p.bytes (off + 1) % 256) →
        p.get_integer_column i = some (to_signed 48 (big_endian_value p.bytes off 6))) ∧
      (c = 5 ∨ c = 7 ∨ 9 ≤ c → p.get_integer_column i = some 0)) ∧
    ((1 ≤ N ∧ N ≤ 6) ∨ N = 8 ∨ N = 9 →
      p.get_text_column i = some ((List.range c).map fun k => p.bytes (off + k) % 256)) := by
  obtain ⟨hint, htext⟩ := getters_dispatch_on_content_size p H ts i hrec hi1 hi2 hsize
  rw [← hN, ← hc, ← hoff] at hint htext
  obtain ⟨s1, s2, s3, s4, s8, s6⟩ := signed_reader_values p.bytes off
  refine ⟨fun h12 => ⟨?_, ?_, ?_, ?_, ?_⟩, fun _ => htext⟩
  · rw [hc]
    unfold Payload.get_column_content_size
    rw [if_neg (by omega), if_neg (by omega), if_neg (by omega), if_neg (by omega),
      if_neg (by omega)]
    split <;> omega
  · intro h0
    rw [hint, h0]
    rfl
  · intro h
    rw [hint]
    rcases h with h | h | h | h | h <;> subst h
    · exact congrArg some s1
    · exact congrArg some s2
    · exact congrArg some s3
    · exact congrArg some s4
    · exact congrArg some s8
  · intro h6 hagree
    rw [hint, h6]
    exact congrArg some (s6 hagree)
  · intro h
    rw [hint]
    unfold Payload.integer_of_content
    rw [if_neg (by omega), if_neg (by omega), if_neg (by omega), if_neg (by omega),
      if_neg (by omega), if_neg (by omega), if_neg (by omega)]

/-- Witness for C23: on the record of the text `aaa`, with the header length 3
and the serial types 0 and 19, column 2 has the text type 19 and the content
size 3, and `get_integer_column(2)` returns the three bytes `61 61 61` at the
body offset 3 as the integer `0x616161`. -/
theorem getters_without_type_check_witness :
    record_header (text_row 3 97).bytes 3 [0, 19] ∧
    (text_row 3 97).get_integer_column 2 =
      some (to_signed (8 * 3) (big_endian_value (text_row 3 97).bytes 3 3)) ∧
    to_signed (8 * 3) (big_endian_value (text_row 3 97).bytes 3 3) = 0x616161 := by
  have hrec : record_header (text_row 3 97).bytes 3 [0, 19] :=
    (ofString_layout (fun _ => 0) 0 (List.replicate 3 97) (by decide)).1
  have h := getters_without_type_check (text_row 3 97) 3 [0, 19] 2 hrec (by decide) (by decide)
    (by decide) 19 3 3 (by decide) (by decide) (by decide)
  exact ⟨hrec, (h.1 (by decide)).2.2.1 (Or.inr (Or.inr (Or.inl rfl))), by decide!⟩

/-! ## Cell sizes -/

/-- On a table page with `196 <= U`, `min_payload` is `(U - 12) * 32 / 255 - 23`
and `max_payload` is `U - 35`, without truncation. -/
theorem min_max_payload (pg : BTreePage) (db : DB)
    (hty : pg.header.page_type = .LeafTableBTreePage ∨
      pg.header.page_type = .InteriorTableBTreePage)
    (hU1 : 196 ≤ db.get_U) (hU2 : db.get_U < 65536) :
    pg.min_payload db = (db.get_U - 12) * 32 / 255 - 23 ∧
    pg.max_payload db = db.get_U - 35 ∧
    pg.min_payload db ≤ pg.max_payload db := by
  have hM : pg.min_payload db = (db.get_U - 12) * 32 / 255 - 23 := by
    unfold BTreePage.min_payload
    simp only
    rw [if_pos (by omega)]
    omega
  have hX : pg.max_payload db = db.get_U - 35 := by
    unfold BTreePage.max_payload
    rcases hty with h | h <;> rw [h] <;> simp only <;> omega
  refine ⟨hM, hX, ?_⟩
  rw [hM, hX]
  omega

/-- C24: on a table b-tree page, for every usable size `U` from 512 to 32768
(in particular 512, 1024, ..., 32768) and every 64-bit payload size `P`,
`compute_directly_stored_payload_size(P)` is the spill rule in integer
arithmetic with `M = (U - 12) * 32 / 255 - 23` and `X = U - 35`: `P` if
`P <= X`, `M + (P - M) mod (U - 4)` if `P > X` and that value is at most `X`,
and `M` otherwise. -/
theorem directly_stored_is_the_spill_rule (pg : BTreePage) (db : DB) (P : Nat)
    (hty : pg.header.page_type = .LeafTableBTreePage ∨
      pg.header.page_type = .InteriorTableBTreePage)
    (hU1 : 512 ≤ db.get_U) (hU2 : db.get_U ≤ 32768) (hP : P < 2 ^ 64) :
    pg.compute_directly_stored_payload_size db P =
      if P ≤ db.get_U - 35 then P
      else if (db.get_U - 12) * 32 / 255 - 23 +
          (P - ((db.get_U - 12) * 32 / 255 - 23)) % (db.get_U - 4) ≤ db.get_U - 35 then
        (db.get_U - 12) * 32 / 255 - 23 +
          (P - ((db.get_U - 12) * 32 / 255 - 23)) % (db.get_U - 4)
      else (db.get_U - 12) * 32 / 255 - 23 := by
  obtain ⟨hM, hX, _⟩ := min_max_payload pg db hty (by omega) (by omega)
  unfold BTreePage.compute_directly_stored_payload_size
  simp only
  rw [hM, hX]
  generalize db.get_U = U at *
  generalize hMd : (U - 12) * 32 / 255 - 23 = M at *
  have hMle : M ≤ U - 35 := by omega
  by_cases h1 : P ≤ U - 35
  · rw [if_pos h1, if_pos h1]
    exact Nat.mod_eq_of_lt (by omega)
  · rw [if_neg h1, if_neg h1]
    have e1 : (P + 2 ^ 64 - M) % 2 ^ 64 = P - M := by omega
    have e2 : (U + 2 ^ 64 - 4) % 2 ^ 64 = U - 4 := by omega
    rw [e1, e2]
    have hr : (P - M) % (U - 4) < U - 4 := Nat.mod_lt _ (by omega)
    generalize (P - M) % (U - 4) = r at *
    have e3 : (M + r) % 2 ^ 64 % 65536 = M + r := by omega
    rw [e3]

/-- Witness for C24: a leaf table page of `empty_table_db` has `U = 512`, and
the payload size 4004 has the directly stored size 448. -/
theorem directly_stored_is_the_spill_rule_witness :
    empty_table_db.get_U = 512 ∧
    (BTreePage.fresh empty_table_db .LeafTableBTreePage).compute_directly_stored_payload_size
      empty_table_db 4004 = 448 := by
  have h := directly_stored_is_the_spill_rule (BTreePage.fresh empty_table_db .LeafTableBTreePage)
    empty_table_db 4004 (Or.inl rfl) (by decide) (by decide) (by norm_num)
  exact ⟨by decide, h.trans (by decide)⟩

/-- The function `get_n_bytes_in_varint` returns a count from 1 to 9. -/
theorem get_n_bytes_in_varint_range (v : Nat) :
    1 ≤ get_n_bytes_in_varint v ∧ get_n_bytes_in_varint v ≤ 9 := by
  unfold get_n_bytes_in_varint
  split_ifs <;> omega

/-- On a table page with `196 <= U`, the directly stored size is at most
`U - 35`. -/
theorem directly_stored_le (pg : BTreePage) (db : DB) (P : Nat)
    (hty : pg.header.page_type = .LeafTableBTreePage ∨
      pg.header.page_type = .InteriorTableBTreePage)
    (hU1 : 196 ≤ db.get_U) :
    pg.compute_directly_stored_payload_size db P ≤ db.get_U - 35 := by
  obtain ⟨_, hX, hMX⟩ := min_max_payload pg db hty hU1 (get_U_lt db)
  unfold BTreePage.compute_directly_stored_payload_size
  simp only
  rw [hX] at hMX ⊢
  split_ifs with h1 h2
  · exact Nat.le_trans (Nat.mod_le _ _) h1
  · exact h2
  · exact hMX

/-- On a table page with `U <= 1` (a page size stored as 1 and a reserved
space of 0 or 1), the directly stored size is at most 65512. -/
theorem directly_stored_le_of_tiny (pg : BTreePage) (db : DB) (P : Nat)
    (hty : pg.header.page_type = .LeafTableBTreePage ∨
      pg.header.page_type = .InteriorTableBTreePage)
    (hU1 : db.get_U ≤ 1) :
    pg.compute_directly_stored_payload_size db P ≤ 65512 := by
  have hM : pg.min_payload db = 65512 := by
    unfold BTreePage.min_payload
    simp only
    have h01 : db.get_U = 0 ∨ db.get_U = 1 := by omega
    rcases h01 with h | h <;> rw [h] <;> decide
  have hX : pg.max_payload db ≤ 65502 := by
    unfold BTreePage.max_payload
    rcases hty with h | h <;> rw [h] <;> simp only <;> omega
  unfold BTreePage.compute_directly_stored_payload_size
  simp only
  rw [hM]
  split_ifs with h1 h2
  · have := Nat.mod_le P 65536
    omega
  · omega
  · omega

/-- C25: for every database whose usable size `U` is at least 196 or at most
1 (page sizes 512 to 32768, or the page size stored as 1, with a reserved
space of at most 255 give such a `U`), `compute_cell_size(rowid, P)` is
`4 + get_n_bytes_in_varint(rowid)` on an interior table page, and on a leaf
table page it is `get_n_bytes_in_varint(P) + get_n_bytes_in_varint(rowid) + K`,
plus 4 when `K < P`, where `K = compute_directly_stored_payload_size(P)`; no
sum is truncated. -/
theorem compute_cell_size_formula (pg : BTreePage) (db : DB) (id P : Nat)
    (hU1 : 196 ≤ db.get_U ∨ db.get_U ≤ 1) :
    (pg.header.page_type = .InteriorTableBTreePage →
      pg.compute_cell_size db id P = 4 + get_n_bytes_in_varint id) ∧
    (pg.header.page_type = .LeafTableBTreePage →
      pg.compute_cell_size db id P =
        get_n_bytes_in_varint P + get_n_bytes_in_varint id +
          pg.compute_directly_stored_payload_size db P +
          (if pg.compute_directly_stored_payload_size db P < P then 4 else 0)) := by
  have hid := get_n_bytes_in_varint_range id
  have hP := get_n_bytes_in_varint_range P
  have hU := get_U_lt db
  constructor
  · intro hty
    unfold BTreePage.compute_cell_size
    simp only [hty]
    simp
    omega
  · intro hty
    have hK : pg.compute_directly_stored_payload_size db P ≤ 65512 := by
      rcases hU1 with h | h
      · have := directly_stored_le pg db P (Or.inl hty) h
        omega
      · exact directly_stored_le_of_tiny pg db P (Or.inl hty) h
    unfold BTreePage.compute_cell_size
    simp only [hty]
    simp
    generalize pg.compute_directly_stored_payload_size db P = K at *
    split_ifs <;> omega

/-- Witness for C25: on a leaf table page of `empty_table_db` (`U = 512`) the
cell of the rowid 1 and the 4004-byte record takes `2 + 1 + 448 + 4` bytes. -/
theorem compute_cell_size_formula_witness :
    196 ≤ empty_table_db.get_U ∧
    (BTreePage.fresh empty_table_db .LeafTableBTreePage).compute_cell_size empty_table_db 1 4004 =
      2 + 1 + 448 + 4 := by
  have h := (compute_cell_size_formula (BTreePage.fresh empty_table_db .LeafTableBTreePage)
    empty_table_db 1 4004 (Or.inl (by decide))).2 rfl
  exact ⟨by decide, h.trans (by decide)⟩

/-! ## Binary search -/

/-- C26: on a page whose cell-pointer array lists the cells in strictly
increasing rowid order, and for every `id`, `lower_bound(id)` is the smallest
index `i` with `rowid(cell i) >= id`: it is at most `num_of_cells`, the cell at
it (if there is one) has a rowid of at least `id`, no smaller index has such a
cell, and it is `num_of_cells` when no cell has a rowid of at least `id`. -/
theorem lower_bound_is_smallest_index (pg : BTreePage) (id : Nat) (hs : pg.sorted) :
    pg.lower_bound id ≤ pg.header.num_of_cells ∧
    (pg.lower_bound id < pg.header.num_of_cells → id ≤ pg.rowid_at (pg.lower_bound id)) ∧
    (∀ i, i < pg.header.num_of_cells → id ≤ pg.rowid_at i → pg.lower_bound id ≤ i) ∧
    ((∀ i, i < pg.header.num_of_cells → pg.rowid_at i < id) →
      pg.lower_bound id = pg.header.num_of_cells) := by
  obtain ⟨hle, hlo, hhi⟩ := lower_bound_spec pg id hs
  refine ⟨hle, fun h => hhi _ (Nat.le_refl _) h, ?_, ?_⟩
  · intro i _ hid
    by_contra hc
    have := hlo i (by omega)
    omega
  · intro hall
    by_contra hc
    have h1 : pg.lower_bound id < pg.header.num_of_cells := by omega
    have h2 := hhi _ (Nat.le_refl _) h1
    have h3 := hall _ h1
    omega

/-- Witness for C26: the root leaf of `two_row_db` holds the rowids 1 and 2 in
this order, and `lower_bound(2)` is 1. -/
theorem lower_bound_is_smallest_index_witness :
    (page_of two_row_db 2).sorted ∧ (page_of two_row_db 2).lower_bound 2 = 1 := by
  have hn : (page_of two_row_db 2).header.num_of_cells = 2 := by decide!
  have h0 : (page_of two_row_db 2).rowid_at 0 = 1 := by decide!
  have h1 : (page_of two_row_db 2).rowid_at 1 = 2 := by decide!
  have hs : (page_of two_row_db 2).sorted := by
    intro a b hab hb
    rw [hn] at hb
    have ha : a = 0 := by omega
    have hb1 : b = 1 := by omega
    subst ha; subst hb1
    rw [h0, h1]; decide
  have h := lower_bound_is_smallest_index (page_of two_row_db 2) 2 hs
  rw [hn] at h
  have h3 := h.2.2.1 1 (by decide) (by rw [h1])
  have h4 : ¬ ((page_of two_row_db 2).lower_bound 2 ≤ 0) := by
    intro hc
    have e : (page_of two_row_db 2).lower_bound 2 = 0 := by omega
    have h5 := h.2.1 (by rw [e]; decide)
    rw [e, h0] at h5
    omega
  exact ⟨hs, by omega⟩

/-! ## The space check of `insert_leaf_cell` -/

/-- C27: `insert_leaf_cell(id, slot, payload)` returns `NotEnoughSpaceToInsert`
exactly when `compute_cell_size(id, payload->P) > compute_free_space()`; in
that case the page object (header and buffer) and the database (the counter
`database_size_in_pages` and the file) are unchanged; otherwise it returns
`CellInserted`. -/
theorem insert_leaf_cell_space_check (pg : BTreePage) (db : DB) (id slot : Nat)
    (payload : Payload) :
    ((pg.insert_leaf_cell db id slot payload).1 = .NotEnoughSpaceToInsert ↔
      pg.compute_cell_size db id payload.P > pg.compute_free_space) ∧
    (pg.compute_cell_size db id payload.P > pg.compute_free_space →
      (pg.insert_leaf_cell db id slot payload).2.1 = pg ∧
      (pg.insert_leaf_cell db id slot payload).2.2 = db) ∧
    (¬ pg.compute_cell_size db id payload.P > pg.compute_free_space →
      (pg.insert_leaf_cell db id slot payload).1 = .CellInserted) := by
  by_cases h : pg.compute_cell_size db id payload.P > pg.compute_free_space
  · have e : pg.insert_leaf_cell db id slot payload = (.NotEnoughSpaceToInsert, pg, db) := by
      simp only [BTreePage.insert_leaf_cell, h, if_true]
    rw [e]
    exact ⟨⟨fun _ => h, fun _ => rfl⟩, fun _ => ⟨rfl, rfl⟩, fun hc => absurd h hc⟩
  · have e : (pg.insert_leaf_cell db id slot payload).1 = .CellInserted := by
      simp only [BTreePage.insert_leaf_cell, h, if_false]
      split <;> rfl
    rw [e]
    exact ⟨⟨(by intro hc; cases hc), fun hc => absurd hc h⟩, fun hc => absurd hc h, fun _ => rfl⟩

/-- Witness for C27: on the empty leaf of `empty_table_db` the cell of a
600-byte text is not larger than the free space, and it is inserted. -/
theorem insert_leaf_cell_space_check_witness :
    (¬ (BTreePage.fresh empty_table_db .LeafTableBTreePage).compute_cell_size empty_table_db 1
        (text_row 600 97).P >
      (BTreePage.fresh empty_table_db .LeafTableBTreePage).compute_free_space) ∧
    ((BTreePage.fresh empty_table_db .LeafTableBTreePage).insert_leaf_cell empty_table_db 1 0
      (text_row 600 97)).1 = .CellInserted :=
  ⟨by decide!,
    (insert_leaf_cell_space_check (BTreePage.fresh empty_table_db .LeafTableBTreePage)
      empty_table_db 1 0 (text_row 600 97)).2.2 (by decide!)⟩

/-! ## Sequences of local inserts on a fresh page -/

/-- C28 (code behaviour at the failing input): on a fresh leaf page with
`U = 512`, the calls `insert_leaf_cell(5, 0, r1)` and `insert_leaf_cell(2, 0, r2)`
with cells of 300 and 201 bytes both return `CellInserted`; afterwards
`header_size + 2 * num_of_cells` is `8 + 2 * 2 = 12` and
`start_of_cell_content_area` is 11. -/
theorem pointer_array_overlaps_cell_content :
    (crowded_leaf.1, (BTreePage.fresh empty_table_db .LeafTableBTreePage).header.num_of_cells,
      (BTreePage.fresh empty_table_db .LeafTableBTreePage).header.start_of_cell_content_area,
      empty_table_db.get_U,
      crowded_leaf.2.1.get_header_size + 2 * crowded_leaf.2.1.header.num_of_cells,
      crowded_leaf.2.1.header.start_of_cell_content_area) =
    ([.CellInserted, .CellInserted], 0, 512, 512, 12, 11) := by
  decide!

/-- C29 (code behaviour at the failing input): on a fresh leaf page with
`U = 512`, `insert_leaf_cell` of the rowid 5 at slot `lower_bound(5) = 0` and
of the rowid 2 at slot `lower_bound(2) = 0` both return `CellInserted`;
afterwards the page has 2 cells and the rowids read through the cell pointers
0 and 1 are 2 and 98, not 2 and 5. -/
theorem rowid_lost_after_local_inserts :
    (crowded_leaf.1, (BTreePage.fresh empty_table_db .LeafTableBTreePage).lower_bound 5,
      ((BTreePage.fresh empty_table_db .LeafTableBTreePage).insert_leaf_cell empty_table_db 5 0
        (text_row 293 97)).2.1.lower_bound 2,
      crowded_leaf.2.1.header.num_of_cells,
      crowded_leaf.2.1.rowid_at 0, crowded_leaf.2.1.rowid_at 1) =
    ([.CellInserted, .CellInserted], 0, 0, 2, 2, 98) := by
  decide!

/-- C30 (code behaviour at the failing input): on a fresh leaf page with
`U = 512` and a header of 8 bytes, after two inserted cells of 300 and 201
bytes `compute_free_space()` returns 65535, while
`U - header_size - 2 * num_of_cells - (300 + 201)` is `-1`. -/
theorem free_space_wraps_around :
    (crowded_leaf.1, crowded_leaf.2.1.compute_free_space, empty_table_db.get_U,
      crowded_leaf.2.1.get_header_size, crowded_leaf.2.1.header.num_of_cells,
      (BTreePage.fresh empty_table_db .LeafTableBTreePage).compute_cell_size empty_table_db 5
        (text_row 293 97).P,
      ((BTreePage.fresh empty_table_db .LeafTableBTreePage).insert_leaf_cell empty_table_db 5 0
        (text_row 293 97)).2.1.compute_cell_size empty_table_db 2 (text_row 194 98).P,
      ((empty_table_db.get_U : Int) - crowded_leaf.2.1.get_header_size -
        2 * crowded_leaf.2.1.header.num_of_cells - (300 + 201))) =
    ([.CellInserted, .CellInserted], 65535, 512, 8, 2, 300, 201, -1) := by
  decide!

/-! ## Code behaviour at failing inputs of the pager and the split -/

/-- C32 (code behaviour at the failing input): the root leaf of
`two_uneven_rows_db` (`U = 512`) holds `n = 2` cells of 400 and 100 bytes; for
the new rowid 2 with a cell of 401 bytes at slot 1 the sums are 400, 801 and
901 and the split index is 0.  `check_split_is_enough(0, 2, sums)` is true,
although the right half needs `(901 - 400) + 8 + 2 * (2 - 0) = 513` bytes; after
the insert the right page 4 has `header_size + 2 * num_of_cells = 12` and
`start_of_cell_content_area = 11`. -/
theorem check_split_is_enough_accepts_a_right_half_that_does_not_fit :
    ((page_of two_uneven_rows_db 2).header.num_of_cells,
      (page_of two_uneven_rows_db 2).lower_bound 2,
      ((page_of two_uneven_rows_db 2).split_plan two_uneven_rows_db 2 (text_row 394 99).P 1).1,
      ((page_of two_uneven_rows_db 2).split_plan two_uneven_rows_db 2
        (text_row 394 99).P 1).2.sums 0,
      ((page_of two_uneven_rows_db 2).split_plan two_uneven_rows_db 2
        (text_row 394 99).P 1).2.sums 2,
      two_uneven_rows_db.get_U,
      two_uneven_rows_db.check_split_is_enough 0 2
        ((page_of two_uneven_rows_db 2).split_plan two_uneven_rows_db 2
          (text_row 394 99).P 1).2.sums,
      decide ((901 - 400) + 8 + 2 * (2 - 0) < two_uneven_rows_db.get_U)) =
      (2, 1, 0, 400, 901, 512, true, false) ∧
    (two_uneven_rows_db.insert 2 2 (text_row 394 99)).map
      (fun r =>
        (r.1, (page_of r.2 2).child_at 1,
          (page_of r.2 4).get_header_size + 2 * (page_of r.2 4).header.num_of_cells,
          (page_of r.2 4).header.start_of_cell_content_area)) =
      some (.CellInserted, 4, 12, 11) := by
  decide!

/-- C33 (code behaviour at the failing input): a page object that was loaded
with page 1 and then receives `recreate(2)`, where page 2 is a leaf, keeps
`is_first_page` set, and `get_header_size()` returns 108; a page object loaded
with page 2 returns 8. -/
theorem header_size_after_recreate_from_page_one :
    ((BTreePage.load empty_table_db 1).bind fun pg => pg.recreate_page empty_table_db 2).map
      (fun p => (p.header.page_type, p.is_first_page, p.get_header_size)) =
      some (.LeafTableBTreePage, true, 108) ∧
    (BTreePage.load empty_table_db 2).map
      (fun p => (p.header.page_type, p.is_first_page, p.get_header_size)) =
      some (.LeafTableBTreePage, false, 8) := by
  decide!

/-- C34 (code behaviour at the failing input): for a file whose header stores
the page size 1 at offset 16 and the reserved space 0, `get_page_size()`
returns 1 and `get_U()` returns 1. -/
theorem get_page_size_of_stored_one :
    read_big_endian16 page_size_one_file 16 = 1 ∧
    (DB.create page_size_one_file 65536 (fun _ => 0) 0).map
      (fun db => (db.get_page_size, db.unused_reserved_space, db.get_U)) = some (1, 0, 1) := by
  decide!

/-- C37 (code behaviour at the failing input): on a fresh leaf page with
`U = 512`, `insert_leaf_cell(2^56, 0, p)` with a record of 6 bytes reserves
`compute_cell_size = 15` bytes (the cell starts at 497) and writes 16: the
varints take 1 and 9 bytes and the payload 6, so the byte at index 512 changes
from 0 to the last payload byte 97.  On a fresh interior page
`insert_interior_cell(2^56 + 5, 0, 3)` reserves 12 bytes (the cell starts at
500) and writes 13: the byte at index 512 changes from 0 to 5. -/
theorem cell_written_past_its_reserved_space :
    (((BTreePage.fresh empty_table_db .LeafTableBTreePage).insert_leaf_cell empty_table_db
        (2 ^ 56) 0 (text_row 3 97)).1,
      (BTreePage.fresh empty_table_db .LeafTableBTreePage).compute_cell_size empty_table_db
        (2 ^ 56) (text_row 3 97).P,
      ((BTreePage.fresh empty_table_db .LeafTableBTreePage).insert_leaf_cell empty_table_db
        (2 ^ 56) 0 (text_row 3 97)).2.1.header.start_of_cell_content_area,
      (write_varint (text_row 3 97).P (fun _ => 0) 0).2, (write_varint (2 ^ 56) (fun _ => 0) 0).2,
      (BTreePage.fresh empty_table_db .LeafTableBTreePage).bytes 512,
      ((BTreePage.fresh empty_table_db .LeafTableBTreePage).insert_leaf_cell empty_table_db
        (2 ^ 56) 0 (text_row 3 97)).2.1.bytes 512) =
      (.CellInserted, 15, 497, 1, 9, 0, 97) ∧
    (((BTreePage.fresh empty_table_db .InteriorTableBTreePage).insert_interior_cell
        empty_table_db (2 ^ 56 + 5) 0 3).1,
      (BTreePage.fresh empty_table_db .InteriorTableBTreePage).compute_cell_size empty_table_db
        (2 ^ 56 + 5) 0,
      ((BTreePage.fresh empty_table_db .InteriorTableBTreePage).insert_interior_cell
        empty_table_db (2 ^ 56 + 5) 0 3).2.header.start_of_cell_content_area,
      (BTreePage.fresh empty_table_db .InteriorTableBTreePage).bytes 512,
      ((BTreePage.fresh empty_table_db .InteriorTableBTreePage).insert_interior_cell
        empty_table_db (2 ^ 56 + 5) 0 3).2.bytes 512) =
      (.CellInserted, 12, 500, 0, 5) := by
  decide!

/-- C40 (code behaviour at the failing input): the leaf `one_cell_leaf` holds
one cell at offset 504, whose first byte is the payload size 6, and has 494
free bytes; `insert_leaf_cell(2^56, 1, p)` with a cell of 15 bytes, at the slot
`lower_bound(2^56) = 1`, returns `CellInserted`; afterwards the pointer of slot
0 is still 504, but the byte at offset 504 is 98 and the payload size read
from the old cell is 98. -/
theorem old_cell_byte_overwritten :
    (one_cell_leaf.1, one_cell_leaf.2.1.header.num_of_cells,
      one_cell_leaf.2.1.compute_free_space,
      one_cell_leaf.2.1.compute_cell_size one_cell_leaf.2.2 (2 ^ 56) (text_row 3 98).P,
      one_cell_leaf.2.1.lower_bound (2 ^ 56),
      one_cell_leaf.2.1.get_cell_content_offset 0, one_cell_leaf.2.1.bytes 504) =
      (.CellInserted, 1, 494, 15, 1, 504, 6) ∧
    ((one_cell_leaf.2.1.insert_leaf_cell one_cell_leaf.2.2 (2 ^ 56) 1 (text_row 3 98)).1,
      (one_cell_leaf.2.1.insert_leaf_cell one_cell_leaf.2.2 (2 ^ 56) 1
        (text_row 3 98)).2.1.get_cell_content_offset 0,
      (one_cell_leaf.2.1.insert_leaf_cell one_cell_leaf.2.2 (2 ^ 56) 1
        (text_row 3 98)).2.1.bytes 504,
      (one_cell_leaf.2.1.insert_leaf_cell one_cell_leaf.2.2 (2 ^ 56) 1
        (text_row 3 98)).2.1.get_cell_payload_size 504) =
      (.CellInserted, 504, 98, 98) := by
  decide!

/-! ## Code behaviour at a failing input of `Parser::parse_values` -/

/-- C35 (code behaviour at the failing input): after
`CREATE TABLE t (name TEXT, id INTEGER)` the map `columns` of table `t` lists
`id` (ordinal 1) before `name` (ordinal 0) and `columns_affinity` is
`[TEXT, INTEGER]`.  `parse_values` on `( 'bob', 5 )`, whose literals match the
declared columns in declaration order, returns false, and on `( 5, 'bob' )`
it returns true with rowid 5. -/
theorem parse_values_rejects_literals_in_declaration_order :
    tables_name_id.map
      (fun t => ((t.at (chars "t")).columns, (t.at (chars "t")).columns_affinity)) =
      some ([(chars "id", 1), (chars "name", 0)], [.TEXT, .INTEGER]) ∧
    (tables_name_id.bind fun t =>
      (parse_values_of (chars "( 'bob', 5 )") (t.at (chars "t"))).map fun r => r.1) =
      some false ∧
    (tables_name_id.bind fun t =>
      (parse_values_of (chars "( 5, 'bob' )") (t.at (chars "t"))).map
        fun r => (r.1, r.2.rowid)) =
      some (true, 5) := by
  decide!

/-! ## Code behaviour at a failing input of the interior split -/

/-- C36 (code behaviour at the failing input): the root page 2 of
`wide_root_db` is an interior page of 71 cells `(rowid i + 1, left child
i + 3)` with 3 free bytes and right-most pointer 74; cell 0 is `(1, 3)` and
cell 36 is `(37, 39)`; `find` finds the rowids 1 and 72.  `insert(2, 73, ...)`
splits the right-most leaf, promotes the key 72 to the root at `idx = 71`, and
the root is split at `split_idx = 35`: afterwards the root has the single key
36 with the halves 76 and 77 as children.  The right half (page 77) has 36
cells, but its slot 0 holds the offset 0, the cell of virtual index 36 sits in
slot 37 with rowid 36 instead of 37 (left child 39), and its right-most
pointer is 0 instead of 74.  The left half (page 76) has 35 cells, its slot 0
holds the offset 0, and the cell of virtual index 0 sits in slot 1 with rowid
0 instead of 1 (left child 3); `find` no longer finds the rowid 1. -/
theorem interior_split_misplaces_the_cells :
    ((page_of wide_root_db 2).header.page_type,
      (page_of wide_root_db 2).header.num_of_cells,
      (page_of wide_root_db 2).compute_free_space,
      (page_of wide_root_db 2).rowid_at 0, (page_of wide_root_db 2).child_at 0,
      (page_of wide_root_db 2).rowid_at 36, (page_of wide_root_db 2).child_at 36,
      (page_of wide_root_db 2).header.right_most_pointer) =
      (.InteriorTableBTreePage, 71, 3, 1, 3, 37, 39, 74) ∧
    (wide_root_db.find_code 30 2 1, wide_root_db.find_code 30 2 72) =
      (some .CellFound, some .CellFound) ∧
    (wide_root_db.insert 2 73 (text_row 300 97)).map
      (fun r => (r.1, (page_of r.2 2).header.num_of_cells, (page_of r.2 2).rowid_at 0,
        (page_of r.2 2).child_at 0, (page_of r.2 2).child_at 1)) =
      some (.CellInserted, 1, 36, 76, 77) ∧
    (wide_root_db.insert 2 73 (text_row 300 97)).map
      (fun r => ((page_of r.2 77).header.num_of_cells,
        (page_of r.2 77).get_cell_content_offset 0,
        (page_of r.2 77).get_cell_content_offset 37,
        (page_of r.2 77).get_cell_rowid 507,
        (page_of r.2 77).get_cell_left_child_pointer 507,
        (page_of r.2 77).header.right_most_pointer)) =
      some (36, 0, 507, 36, 39, 0) ∧
    (wide_root_db.insert 2 73 (text_row 300 97)).map
      (fun r => ((page_of r.2 76).header.num_of_cells,
        (page_of r.2 76).get_cell_content_offset 0,
        (page_of r.2 76).get_cell_content_offset 1,
        (page_of r.2 76).get_cell_rowid 507,
        (page_of r.2 76).get_cell_left_child_pointer 507,
        (page_of r.2 76).header.right_most_pointer,
        r.2.find_code 30 2 1)) =
      some (35, 0, 507, 0, 3, 38, some .CellNotFound) := by
  decide!

/-! ## The directly stored size of a payload that overflows -/

/-- C38: on a table page with `512 <= U <= 32768`, for a payload size
`P > X = U - 35` (a `uint64_t`), the result `K` of
`compute_directly_stored_payload_size(P)` satisfies `M <= K <= X` and `K < P`;
and whenever `K` is not `M`, `P - K` is a positive multiple of `U - 4`, the
last overflow page of `insert_leaf_cell` carries `U - 4` bytes, and, for
`P < 2^32`, the chain has exactly `(P - K) / (U - 4)` pages. -/
theorem directly_stored_size_leaves_whole_overflow_pages (pg : BTreePage) (db : DB) (P : Nat)
    (hty : pg.header.page_type = .LeafTableBTreePage ∨
      pg.header.page_type = .InteriorTableBTreePage)
    (hU1 : 512 ≤ db.get_U) (hU2 : db.get_U ≤ 32768)
    (hP : db.get_U - 35 < P) (hP64 : P < 2 ^ 64) :
    pg.max_payload db = db.get_U - 35 ∧
    pg.min_payload db ≤ pg.compute_directly_stored_payload_size db P ∧
    pg.compute_directly_stored_payload_size db P ≤ pg.max_payload db ∧
    pg.compute_directly_stored_payload_size db P < P ∧
    (pg.compute_directly_stored_payload_size db P ≠ pg.min_payload db →
      0 < P - pg.compute_directly_stored_payload_size db P ∧
      (db.get_U - 4) ∣ (P - pg.compute_directly_stored_payload_size db P) ∧
      last_ovflw_pg_size db P (pg.compute_directly_stored_payload_size db P) = db.get_U - 4 ∧
      (P < 2 ^ 32 →
        n_overflow_pages db P (pg.compute_directly_stored_payload_size db P) * (db.get_U - 4) =
          P - pg.compute_directly_stored_payload_size db P)) := by
  obtain ⟨hM, hX, hMX⟩ := min_max_payload pg db hty (by omega) (get_U_lt db)
  have hd : (db.get_U + 2 ^ 64 - 4) % 2 ^ 64 = db.get_U - 4 := by omega
  have hMle : pg.min_payload db ≤ db.get_U - 35 := by rw [← hX]; exact hMX
  have hPM : (P + 2 ^ 64 - pg.min_payload db) % 2 ^ 64 = P - pg.min_payload db := by omega
  have hr := Nat.mod_lt (P - pg.min_payload db) (show 0 < db.get_U - 4 by omega)
  have hdm := Nat.div_add_mod (P - pg.min_payload db) (db.get_U - 4)
  have hK : pg.compute_directly_stored_payload_size db P =
      if pg.min_payload db + (P - pg.min_payload db) % (db.get_U - 4) ≤ db.get_U - 35 then
        pg.min_payload db + (P - pg.min_payload db) % (db.get_U - 4)
      else pg.min_payload db := by
    unfold BTreePage.compute_directly_stored_payload_size
    simp only
    rw [hX, hd, hPM, if_neg (by omega)]
    have hk : (pg.min_payload db + (P - pg.min_payload db) % (db.get_U - 4)) % 2 ^ 64 % 65536 =
        pg.min_payload db + (P - pg.min_payload db) % (db.get_U - 4) := by omega
    rw [hk]
  rw [hK, hX]
  generalize pg.min_payload db = M at *
  generalize hre : (P - M) % (db.get_U - 4) = r at *
  generalize hqe : (P - M) / (db.get_U - 4) = q at *
  by_cases hb : M + r ≤ db.get_U - 35
  · rw [if_pos hb]
    refine ⟨rfl, by omega, hb, by omega, fun _ => ?_⟩
    have hPK : P - (M + r) = (db.get_U - 4) * q := by omega
    have hmod : (P - (M + r)) % (db.get_U - 4) = 0 := by
      rw [hPK]; exact Nat.mul_mod_right _ _
    refine ⟨by omega, ⟨q, hPK⟩, ?_, ?_⟩
    · unfold last_ovflw_pg_size
      simp only
      rw [hd, hmod, if_pos rfl]
      omega
    · intro hP32
      have hq : q ≤ (db.get_U - 4) * q := Nat.le_mul_of_pos_left q (by omega)
      unfold n_overflow_pages
      simp only
      rw [hd, hmod, if_neg (by simp), hPK, Nat.mul_div_cancel_left q (show 0 < db.get_U - 4 by omega),
        Nat.mod_eq_of_lt (by omega), Nat.mul_comm]
  · rw [if_neg hb]
    exact ⟨rfl, Nat.le_refl M, hMle, by omega, fun h => absurd rfl h⟩

/-- C38 at a concrete input: `U = 512` and `P = 4004` give `K = 448`, and
`P - K = 3556 = 7 * 508`. -/
theorem directly_stored_size_leaves_whole_overflow_pages_witness :
    (512 ≤ empty_table_db.get_U ∧ empty_table_db.get_U ≤ 32768 ∧
      empty_table_db.get_U - 35 < 4004) ∧
    (BTreePage.fresh empty_table_db .LeafTableBTreePage).compute_directly_stored_payload_size
      empty_table_db 4004 = 448 ∧
    (BTreePage.fresh empty_table_db .LeafTableBTreePage).min_payload empty_table_db = 39 ∧
    last_ovflw_pg_size empty_table_db 4004
      ((BTreePage.fresh empty_table_db .LeafTableBTreePage).compute_directly_stored_payload_size
        empty_table_db 4004) = empty_table_db.get_U - 4 :=
  ⟨by decide!, by decide!, by decide!,
    ((directly_stored_size_leaves_whole_overflow_pages
      (BTreePage.fresh empty_table_db .LeafTableBTreePage) empty_table_db 4004
      (Or.inl rfl) (by decide!) (by decide!) (by decide!) (by decide!)).2.2.2.2
        (by decide!)).2.2.1⟩

/-! ## The split index -/

/-- Iteration `i < idx` of the first loop of `get_split_index`. -/
theorem split_fill_step_below (pg : BTreePage) (db : DB) (idx i : Nat) (a : SplitArrays)
    (h : i < idx) :
    pg.split_fill_step db idx i a =
      { s := (a.s + pg.cell_size_at db i) % 65536
        sums := arr_set a.sums i ((a.s + pg.cell_size_at db i) % 65536)
        cell_sizes := arr_set a.cell_sizes i (pg.cell_size_at db i)
        cell_content_offsets :=
          arr_set a.cell_content_offsets i (pg.get_cell_content_offset i) } := by
  unfold BTreePage.split_fill_step BTreePage.cell_size_at
  simp only [if_neg (Nat.ne_of_lt h), ge_iff_le, if_neg (Nat.not_le_of_lt h), Nat.add_zero]

/-- Iteration `i = idx` of the first loop of `get_split_index`. -/
theorem split_fill_step_at (pg : BTreePage) (db : DB) (idx : Nat) (a : SplitArrays) :
    pg.split_fill_step db idx idx a =
      { s := ((a.s + a.cell_sizes idx) % 65536 + pg.cell_size_at db idx) % 65536
        sums := arr_set (arr_set a.sums idx ((a.s + a.cell_sizes idx) % 65536)) (idx + 1)
          (((a.s + a.cell_sizes idx) % 65536 + pg.cell_size_at db idx) % 65536)
        cell_sizes := arr_set a.cell_sizes (idx + 1) (pg.cell_size_at db idx)
        cell_content_offsets :=
          arr_set a.cell_content_offsets (idx + 1) (pg.get_cell_content_offset idx) } := by
  unfold BTreePage.split_fill_step BTreePage.cell_size_at
  simp only [if_true, ge_iff_le, Nat.le_refl]

/-- Iteration `i > idx` of the first loop of `get_split_index`. -/
theorem split_fill_step_above (pg : BTreePage) (db : DB) (idx i : Nat) (a : SplitArrays)
    (h : idx < i) :
    pg.split_fill_step db idx i a =
      { s := (a.s + pg.cell_size_at db i) % 65536
        sums := arr_set a.sums (i + 1) ((a.s + pg.cell_size_at db i) % 65536)
        cell_sizes := arr_set a.cell_sizes (i + 1) (pg.cell_size_at db i)
        cell_content_offsets :=
          arr_set a.cell_content_offsets (i + 1) (pg.get_cell_content_offset i) } := by
  unfold BTreePage.split_fill_step BTreePage.cell_size_at
  simp only [if_neg (Nat.ne_of_gt h), ge_iff_le, if_pos (Nat.le_of_lt h)]

/-- The running sums of the virtual sequence grow with the index. -/
theorem virtual_sum_mono (pg : BTreePage) (db : DB) (idx c k m : Nat) (h : k ≤ m) :
    pg.virtual_sum db idx c k ≤ pg.virtual_sum db idx c m := by
  induction m with
  | zero =>
    have hk : k = 0 := by omega
    rw [hk]
  | succ m ih =>
    rcases Nat.lt_or_ge k (m + 1) with h1 | h1
    · exact Nat.le_trans (ih (by omega)) (Nat.le_add_right _ _)
    · have hk : k = m + 1 := by omega
      rw [hk]

/-- The first loop of `get_split_index` on arrays whose running sum starts at
zero: after `n` iterations the entries below the fill mark (`n` up to
`n = idx`, `n + 1` beyond) hold the sizes and the inclusive running sums of
the virtual sequence, provided the total stays below `2^16`. -/
theorem split_fill_sizes (pg : BTreePage) (db : DB) (idx n : Nat) (a0 : SplitArrays)
    (hs : a0.s = 0)
    (htot : pg.virtual_sum db idx (a0.cell_sizes idx) (n + 1) < 65536) :
    (forLoop (pg.split_fill_step db idx) n a0).s =
        pg.virtual_sum db idx (a0.cell_sizes idx) (if n ≤ idx then n else n + 1) ∧
    (∀ j, j < (if n ≤ idx then n else n + 1) →
      (forLoop (pg.split_fill_step db idx) n a0).sums j =
        pg.virtual_sum db idx (a0.cell_sizes idx) (j + 1)) ∧
    (∀ j, j < (if n ≤ idx then n else n + 1) ∨ j = idx →
      (forLoop (pg.split_fill_step db idx) n a0).cell_sizes j =
        pg.virtual_size db idx (a0.cell_sizes idx) j) := by
  generalize hc : a0.cell_sizes idx = c at htot ⊢
  have hbound : ∀ k, k ≤ n + 1 → pg.virtual_sum db idx c k < 65536 := fun k hk =>
    Nat.lt_of_le_of_lt (virtual_sum_mono pg db idx c k (n + 1) hk) htot
  have hsucc : ∀ k, pg.virtual_sum db idx c (k + 1) =
      pg.virtual_sum db idx c k + pg.virtual_size db idx c k := fun _ => rfl
  have hVlo : ∀ j, j < idx → pg.virtual_size db idx c j = pg.cell_size_at db j := by
    intro j hj
    unfold BTreePage.virtual_size
    rw [if_pos hj]
  have hVat : pg.virtual_size db idx c idx = c := by
    unfold BTreePage.virtual_size
    rw [if_neg (Nat.lt_irrefl idx), if_pos rfl]
  have hVhi : ∀ j, idx ≤ j → pg.virtual_size db idx c (j + 1) = pg.cell_size_at db j := by
    intro j hj
    unfold BTreePage.virtual_size
    rw [if_neg (by omega), if_neg (by omega), Nat.add_sub_cancel]
  refine forLoop_invariant (pg.split_fill_step db idx)
    (fun k a =>
      a.s = pg.virtual_sum db idx c (if k ≤ idx then k else k + 1) ∧
      (∀ j, j < (if k ≤ idx then k else k + 1) → a.sums j = pg.virtual_sum db idx c (j + 1)) ∧
      (∀ j, j < (if k ≤ idx then k else k + 1) ∨ j = idx →
        a.cell_sizes j = pg.virtual_size db idx c j))
    n a0 ?_ ?_
  · refine ⟨?_, ?_, ?_⟩
    · rw [if_pos (Nat.zero_le idx), hs]
      rfl
    · intro j hj
      rw [if_pos (Nat.zero_le idx)] at hj
      exact absurd hj (Nat.not_lt_zero j)
    · intro j hj
      rw [if_pos (Nat.zero_le idx)] at hj
      rcases hj with hj | hj
      · exact absurd hj (Nat.not_lt_zero j)
      · rw [hj, hc, hVat]
  · intro k a hk ⟨h1, h2, h3⟩
    rcases Nat.lt_trichotomy k idx with hlt | heq | hgt
    · rw [if_pos (Nat.le_of_lt hlt)] at h1 h2 h3
      rw [split_fill_step_below pg db idx k a hlt, if_pos (show k + 1 ≤ idx from hlt)]
      have hb := hbound (k + 1) (by omega)
      have hv := hVlo k hlt
      have hs1 := hsucc k
      have hsum : (a.s + pg.cell_size_at db k) % 65536 = pg.virtual_sum db idx c (k + 1) := by
        omega
      refine ⟨hsum, ?_, ?_⟩
      · intro j hj
        show arr_set a.sums k _ j = _
        unfold arr_set
        by_cases hjk : j = k
        · rw [if_pos hjk, hjk, hsum]
          omega
        · rw [if_neg hjk]
          exact h2 j (by omega)
      · intro j hj
        show arr_set a.cell_sizes k _ j = _
        unfold arr_set
        by_cases hjk : j = k
        · rw [if_pos hjk, hjk, hv]
          omega
        · rw [if_neg hjk]
          exact h3 j (by omega)
    · subst heq
      rw [if_pos (Nat.le_refl k)] at h1 h2 h3
      rw [split_fill_step_at pg db k a, if_neg (by omega)]
      have hb := hbound (k + 1 + 1) (by omega)
      have hs1 := hsucc k
      have hs2 := hsucc (k + 1)
      have hv := hVhi k (Nat.le_refl k)
      have hck := h3 k (Or.inr rfl)
      rw [hVat] at hck hs1
      have hsum1 : (a.s + a.cell_sizes k) % 65536 = pg.virtual_sum db k c (k + 1) := by omega
      have hsum2 : ((a.s + a.cell_sizes k) % 65536 + pg.cell_size_at db k) % 65536 =
          pg.virtual_sum db k c (k + 1 + 1) := by omega
      refine ⟨hsum2, ?_, ?_⟩
      · intro j hj
        show arr_set (arr_set a.sums k _) (k + 1) _ j = _
        unfold arr_set
        by_cases hj1 : j = k + 1
        · rw [if_pos hj1, hj1, hsum2]
          omega
        · rw [if_neg hj1]
          by_cases hjk : j = k
          · rw [if_pos hjk, hjk, hsum1]
            omega
          · rw [if_neg hjk]
            exact h2 j (by omega)
      · intro j hj
        show arr_set a.cell_sizes (k + 1) _ j = _
        unfold arr_set
        by_cases hj1 : j = k + 1
        · rw [if_pos hj1, hj1, hv]
          omega
        · rw [if_neg hj1]
          exact h3 j (by omega)
    · rw [if_neg (by omega)] at h1 h2 h3
      rw [split_fill_step_above pg db idx k a hgt, if_neg (by omega)]
      have hb := hbound (k + 1 + 1) (by omega)
      have hs2 := hsucc (k + 1)
      have hv := hVhi k (Nat.le_of_lt hgt)
      have hsum : (a.s + pg.cell_size_at db k) % 65536 =
          pg.virtual_sum db idx c (k + 1 + 1) := by omega
      refine ⟨hsum, ?_, ?_⟩
      · intro j hj
        show arr_set a.sums (k + 1) _ j = _
        unfold arr_set
        by_cases hj1 : j = k + 1
        · rw [if_pos hj1, hj1, hsum]
          omega
        · rw [if_neg hj1]
          exact h2 j (by omega)
      · intro j hj
        show arr_set a.cell_sizes (k + 1) _ j = _
        unfold arr_set
        by_cases hj1 : j = k + 1
        · rw [if_pos hj1, hj1, hv]
          omega
        · rw [if_neg hj1]
          exact h3 j (by omega)

/-- The distance computed by the second loop of `get_split_index` is
`split_diff` when that is at most `S < 2^16`. -/
theorem split_choose_diff (S : Nat) (sums : Nat → Nat) (i : Nat) (hS : S < 65536)
    (hd : split_diff S sums i ≤ S) :
    (Int.natAbs (((S : Int) - (sums i : Int)) - (sums i : Int))) % 65536 =
      split_diff S sums i := by
  unfold split_diff at hd ⊢
  have he : ((S : Int) - (sums i : Int)) - (sums i : Int) = (S : Int) - 2 * (sums i : Int) := by
    omega
  rw [he]
  exact Nat.mod_eq_of_lt (Nat.lt_of_le_of_lt hd hS)

/-- The second loop of `get_split_index` returns the first index of `0..n`
at which `split_diff` is least, when no distance exceeds `S < 2^16`. -/
theorem split_choose_first_min (S : Nat) (sums : Nat → Nat) (n : Nat) (hS : S < 65536)
    (hd : ∀ i, i ≤ n → split_diff S sums i ≤ S) :
    (forLoop (split_choose_step S sums) (n + 1) (S, 0)).2 ≤ n ∧
    (∀ i, i ≤ n →
      split_diff S sums (forLoop (split_choose_step S sums) (n + 1) (S, 0)).2 ≤
        split_diff S sums i) ∧
    (∀ i, i < (forLoop (split_choose_step S sums) (n + 1) (S, 0)).2 →
      split_diff S sums (forLoop (split_choose_step S sums) (n + 1) (S, 0)).2 <
        split_diff S sums i) := by
  have h := forLoop_invariant (split_choose_step S sums)
    (fun k st =>
      (k = 0 ∧ st = (S, 0)) ∨
      (st.2 < k ∧ split_diff S sums st.2 = st.1 ∧ (∀ i, i < k → st.1 ≤ split_diff S sums i) ∧
        (∀ i, i < st.2 → st.1 < split_diff S sums i)))
    (n + 1) (S, 0) (Or.inl ⟨rfl, rfl⟩)
    (by
      intro k st hk hq
      have hdk := hd k (by omega)
      unfold split_choose_step
      simp only
      rw [split_choose_diff S sums k hS hdk]
      rcases hq with ⟨hk0, hst⟩ | ⟨h1, h2, h3, h4⟩
      · subst hk0
        rw [hst]
        simp only
        by_cases hlt : split_diff S sums 0 < S
        · rw [if_pos hlt]
          refine Or.inr ⟨Nat.zero_lt_one, rfl, ?_, ?_⟩
          · intro i hi
            have hi0 : i = 0 := by omega
            rw [hi0]
          · intro i hi
            exact absurd hi (Nat.not_lt_zero i)
        · rw [if_neg hlt]
          have hd0 : split_diff S sums 0 = S := by omega
          refine Or.inr ⟨Nat.zero_lt_one, hd0, ?_, ?_⟩
          · intro i hi
            have hi0 : i = 0 := by omega
            rw [hi0]
            show S ≤ split_diff S sums 0
            omega
          · intro i hi
            exact absurd hi (Nat.not_lt_zero i)
      · by_cases hlt : split_diff S sums k < st.1
        · rw [if_pos hlt]
          refine Or.inr ⟨Nat.lt_succ_self k, rfl, ?_, ?_⟩
          · intro i hi
            show split_diff S sums k ≤ split_diff S sums i
            rcases Nat.lt_or_ge i k with hik | hik
            · have := h3 i hik
              omega
            · have hik2 : i = k := by omega
              rw [hik2]
          · intro i hi
            show split_diff S sums k < split_diff S sums i
            have := h3 i hi
            omega
        · rw [if_neg hlt]
          refine Or.inr ⟨by omega, h2, ?_, h4⟩
          intro i hi
          rcases Nat.lt_or_ge i k with hik | hik
          · exact h3 i hik
          · have hik2 : i = k := by omega
            rw [hik2]
            omega)
  simp only at h
  rcases h with ⟨h0, _⟩ | ⟨h1, h2, h3, h4⟩
  · omega
  · refine ⟨by omega, ?_, ?_⟩
    · intro i hi
      rw [h2]
      exact h3 i (by omega)
    · intro i hi
      rw [h2]
      exact h4 i hi

/-- The second loop of `get_split_index` never selects the last index `n >= 1`
when `S = sums[n]` is below `2^16`. -/
theorem split_choose_lt (S : Nat) (sums : Nat → Nat) (n : Nat) (hn : 1 ≤ n) (hS : sums n = S)
    (hS16 : S < 65536) :
    (forLoop (split_choose_step S sums) (n + 1) (S, 0)).2 < n := by
  have h := forLoop_invariant (split_choose_step S sums)
    (fun k st => st.1 ≤ S ∧ (st.2 < k ∨ st.2 = 0)) n (S, 0) ⟨Nat.le_refl S, Or.inr rfl⟩
    (by
      intro k st _ hq
      unfold split_choose_step
      simp only
      split
      · next hlt => exact ⟨by omega, Or.inl (Nat.lt_succ_self k)⟩
      · exact ⟨hq.1, by omega⟩)
  simp only at h
  show (split_choose_step S sums n (forLoop (split_choose_step S sums) n (S, 0))).2 < n
  generalize forLoop (split_choose_step S sums) n (S, 0) = st at h ⊢
  unfold split_choose_step
  simp only
  rw [hS]
  have he : (Int.natAbs (((S : Int) - (S : Int)) - (S : Int))) % 65536 = S := by omega
  rw [he, if_neg (by omega)]
  omega

/-- The last running sum written by the first loop of `get_split_index` is a
`uint16_t` value. -/
theorem split_fill_last_sum_lt (pg : BTreePage) (db : DB) (idx m : Nat) (a0 : SplitArrays)
    (h : idx ≤ m) :
    (forLoop (pg.split_fill_step db idx) (m + 1) a0).sums (m + 1) < 65536 := by
  show (pg.split_fill_step db idx m (forLoop (pg.split_fill_step db idx) m a0)).sums (m + 1) <
    65536
  rcases Nat.eq_or_lt_of_le h with heq | hlt
  · rw [← heq, split_fill_step_at]
    show arr_set _ (idx + 1) _ (idx + 1) < 65536
    unfold arr_set
    rw [if_pos rfl]
    exact Nat.mod_lt _ (by decide)
  · rw [split_fill_step_above pg db idx m _ hlt]
    show arr_set _ (m + 1) _ (m + 1) < 65536
    unfold arr_set
    rw [if_pos rfl]
    exact Nat.mod_lt _ (by decide)

/-- C39: for a page with `n >= 1` cells and a slot `idx <= n`, the index
returned by `get_split_index` is at most `n - 1`, so the virtual cells
`split_idx + 1 .. n` of the right half are at least one; and whenever it
differs from `idx`, `cell_content_offsets[split_idx]` is the offset of an
existing cell of the page: of cell `split_idx` below `idx`, of cell
`split_idx - 1 < n` above `idx`. -/
theorem split_index_leaves_both_halves_non_empty (pg : BTreePage) (db : DB) (idx : Nat)
    (a : SplitArrays) (hn : 1 ≤ pg.header.num_of_cells) (hidx : idx ≤ pg.header.num_of_cells) :
    (pg.get_split_index db idx a).1 ≤ pg.header.num_of_cells - 1 ∧
    ((pg.get_split_index db idx a).1 < idx →
      (pg.get_split_index db idx a).2.cell_content_offsets (pg.get_split_index db idx a).1 =
        pg.get_cell_content_offset (pg.get_split_index db idx a).1) ∧
    (idx < (pg.get_split_index db idx a).1 →
      (pg.get_split_index db idx a).1 - 1 < pg.header.num_of_cells ∧
      (pg.get_split_index db idx a).2.cell_content_offsets (pg.get_split_index db idx a).1 =
        pg.get_cell_content_offset ((pg.get_split_index db idx a).1 - 1)) := by
  unfold BTreePage.get_split_index
  simp only
  generalize pg.header.num_of_cells = n at hn hidx ⊢
  have hoff := split_fill_offsets pg db idx n { a with s := 0 }
  by_cases hin : idx = n
  · rw [if_pos hin]
    simp only
    have hlt := split_choose_lt
      (arr_set (forLoop (pg.split_fill_step db idx) n { a with s := 0 }).sums idx
        (((forLoop (pg.split_fill_step db idx) n { a with s := 0 }).s +
          (forLoop (pg.split_fill_step db idx) n { a with s := 0 }).cell_sizes idx) % 65536) n)
      (arr_set (forLoop (pg.split_fill_step db idx) n { a with s := 0 }).sums idx
        (((forLoop (pg.split_fill_step db idx) n { a with s := 0 }).s +
          (forLoop (pg.split_fill_step db idx) n { a with s := 0 }).cell_sizes idx) % 65536))
      n hn rfl
      (by
        unfold arr_set
        rw [if_pos hin.symm]
        exact Nat.mod_lt _ (by decide))
    refine ⟨by omega, fun h => (hoff _).1 h hlt, fun h => ?_⟩
    omega
  · rw [if_neg hin]
    have hS16 : (forLoop (pg.split_fill_step db idx) n { a with s := 0 }).sums n < 65536 := by
      obtain ⟨m, hm⟩ : ∃ m, n = m + 1 := ⟨n - 1, by omega⟩
      rw [hm]
      exact split_fill_last_sum_lt pg db idx m _ (by omega)
    have hlt := split_choose_lt
      ((forLoop (pg.split_fill_step db idx) n { a with s := 0 }).sums n)
      (forLoop (pg.split_fill_step db idx) n { a with s := 0 }).sums n hn rfl hS16
    exact ⟨by omega, fun h => (hoff _).1 h hlt,
      fun h => ⟨by omega, (hoff _).2 h (Nat.le_of_lt hlt)⟩⟩

/-- C39 at a concrete input: the root leaf of `two_uneven_rows_db` has two
cells, and for the slot 1 the split index is at most 1. -/
theorem split_index_leaves_both_halves_non_empty_witness :
    1 ≤ (page_of two_uneven_rows_db 2).header.num_of_cells ∧
    (page_of two_uneven_rows_db 2).header.num_of_cells = 2 ∧
    ((page_of two_uneven_rows_db 2).get_split_index two_uneven_rows_db 1
      { s := 0, sums := fun _ => 0, cell_sizes := arr_set (fun _ => 0) 1 401,
        cell_content_offsets := fun _ => 0 }).1 ≤
      (page_of two_uneven_rows_db 2).header.num_of_cells - 1 :=
  ⟨by decide!, by decide!,
    (split_index_leaves_both_halves_non_empty (page_of two_uneven_rows_db 2)
      two_uneven_rows_db 1
      { s := 0, sums := fun _ => 0, cell_sizes := arr_set (fun _ => 0) 1 401,
        cell_content_offsets := fun _ => 0 }
      (by decide!) (by decide!)).1⟩

/-- A distance `|S - 2 * x|` with `x <= S` is at most `S`. -/
theorem split_diff_le (S : Nat) (sums : Nat → Nat) (i : Nat) (h : sums i ≤ S) :
    split_diff S sums i ≤ S := by
  unfold split_diff
  omega

/-- C31: for a page with `n` cells, a slot `idx <= n` and `cell_sizes[idx]`
preset to the size of the new cell, with the total size of the virtual
sequence below `2^16`, `get_split_index` leaves in `cell_sizes[0..n]` the sizes
of the virtual sequence and in `sums[0..n]` its inclusive running sums, and it
returns an index of `0..n` at which `|sums[n] - 2 * sums[s]|` is least, the
smallest such index. -/
theorem get_split_index_minimises (pg : BTreePage) (db : DB) (idx : Nat) (a : SplitArrays)
    (hidx : idx ≤ pg.header.num_of_cells)
    (htot : pg.virtual_sum db idx (a.cell_sizes idx) (pg.header.num_of_cells + 1) < 65536) :
    (∀ j, j ≤ pg.header.num_of_cells →
      (pg.get_split_index db idx a).2.cell_sizes j =
        pg.virtual_size db idx (a.cell_sizes idx) j) ∧
    (∀ j, j ≤ pg.header.num_of_cells →
      (pg.get_split_index db idx a).2.sums j =
        pg.virtual_sum db idx (a.cell_sizes idx) (j + 1)) ∧
    (pg.get_split_index db idx a).1 ≤ pg.header.num_of_cells ∧
    (∀ i, i ≤ pg.header.num_of_cells →
      split_diff ((pg.get_split_index db idx a).2.sums pg.header.num_of_cells)
          (pg.get_split_index db idx a).2.sums (pg.get_split_index db idx a).1 ≤
        split_diff ((pg.get_split_index db idx a).2.sums pg.header.num_of_cells)
          (pg.get_split_index db idx a).2.sums i) ∧
    (∀ i, i < (pg.get_split_index db idx a).1 →
      split_diff ((pg.get_split_index db idx a).2.sums pg.header.num_of_cells)
          (pg.get_split_index db idx a).2.sums (pg.get_split_index db idx a).1 <
        split_diff ((pg.get_split_index db idx a).2.sums pg.header.num_of_cells)
          (pg.get_split_index db idx a).2.sums i) := by
  unfold BTreePage.get_split_index
  simp only
  generalize pg.header.num_of_cells = n at hidx htot ⊢
  obtain ⟨h1, h2, h3⟩ := split_fill_sizes pg db idx n { a with s := 0 } rfl htot
  simp only at h1 h2 h3
  generalize forLoop (pg.split_fill_step db idx) n { a with s := 0 } = a1 at h1 h2 h3 ⊢
  generalize a.cell_sizes idx = c at htot h1 h2 h3 ⊢
  have hsucc : pg.virtual_sum db idx c (n + 1) =
      pg.virtual_sum db idx c n + pg.virtual_size db idx c n := rfl
  have hmono : ∀ i, i ≤ n → pg.virtual_sum db idx c (i + 1) ≤ pg.virtual_sum db idx c (n + 1) :=
    fun i hi => virtual_sum_mono pg db idx c (i + 1) (n + 1) (by omega)
  by_cases hin : idx = n
  · rw [if_pos hin]
    simp only
    rw [if_pos (by omega)] at h1 h2 h3
    have hV : a1.cell_sizes idx = pg.virtual_size db idx c n := by
      rw [h3 idx (Or.inr rfl), hin]
    have hs : (a1.s + a1.cell_sizes idx) % 65536 = pg.virtual_sum db idx c (n + 1) := by
      rw [hV, h1]
      omega
    rw [hs]
    have hsums : ∀ j, j ≤ n →
        arr_set a1.sums idx (pg.virtual_sum db idx c (n + 1)) j =
          pg.virtual_sum db idx c (j + 1) := by
      intro j hj
      unfold arr_set
      by_cases hji : j = idx
      · have hjn : j = n := by omega
        rw [if_pos hji, hjn]
        exact Nat.mod_eq_of_lt htot
      · rw [if_neg hji]
        exact h2 j (by omega)
    have hS := hsums n (Nat.le_refl n)
    have hmin := split_choose_first_min
      (arr_set a1.sums idx (pg.virtual_sum db idx c (n + 1)) n)
      (arr_set a1.sums idx (pg.virtual_sum db idx c (n + 1))) n (by omega)
      (fun i hi => split_diff_le _ _ i (by rw [hS, hsums i hi]; exact hmono i hi))
    exact ⟨fun j hj => h3 j (by omega), hsums, hmin⟩
  · rw [if_neg hin]
    rw [if_neg (by omega)] at h1 h2 h3
    have hS := h2 n (by omega)
    have hmin := split_choose_first_min (a1.sums n) a1.sums n (by omega)
      (fun i hi => split_diff_le _ _ i (by rw [hS, h2 i (by omega)]; exact hmono i hi))
    exact ⟨fun j hj => h3 j (Or.inl (by omega)), fun j hj => h2 j (by omega), hmin⟩

/-- C31 at a concrete input: the root leaf of `two_uneven_rows_db` with a new
cell of 401 bytes at slot 1 has the virtual total 901; `sums[2]` is that
total and the split index is within `0..2`. -/
theorem get_split_index_minimises_witness :
    (1 ≤ (page_of two_uneven_rows_db 2).header.num_of_cells ∧
      (page_of two_uneven_rows_db 2).virtual_sum two_uneven_rows_db 1 401
        ((page_of two_uneven_rows_db 2).header.num_of_cells + 1) = 901) ∧
    ((page_of two_uneven_rows_db 2).get_split_index two_uneven_rows_db 1
      { s := 0, sums := fun _ => 0, cell_sizes := arr_set (fun _ => 0) 1 401,
        cell_content_offsets := fun _ => 0 }).1 ≤
      (page_of two_uneven_rows_db 2).header.num_of_cells :=
  ⟨by decide!,
    (get_split_index_minimises (page_of two_uneven_rows_db 2) two_uneven_rows_db 1
      { s := 0, sums := fun _ => 0, cell_sizes := arr_set (fun _ => 0) 1 401,
        cell_content_offsets := fun _ => 0 }
      (by decide!) (by decide!)).2.2.1⟩

/-! ## Code behaviour at failing inputs of `DB::insert` and `DB::find` -/

/-- C3 (code behaviour at the failing input): on the empty table of
`empty_table_db` the calls `insert(2, 120, _)` and `insert(2, 100, _)` with
records of 297 and 198 bytes return `CellInserted`.  The descent of
`insert(2, 100, _)` then reaches the root leaf, page 2, which holds two cells:
slot 0 has the rowid 100 and slot 1 reads the rowid 97, so `lower_bound(100)`
is 2.  The call `insert(2, 100, _)` returns `CellInserted`, not
`RowidAlreadyInDatabase`, and the file changes: byte 515 goes from 0 to 6. -/
theorem insert_of_stored_rowid_is_accepted :
    (insert_all 2 [(120, text_row 293 97), (100, text_row 194 97)] empty_table_db).map
      (fun r => r.1) = some [.CellInserted, .CellInserted] ∧
    (overlapped_leaf_db.reach_leaf 2 100).map
      (fun x => (x.2.1, x.1.header.page_type, x.1.header.num_of_cells, x.1.rowid_at 0,
        x.1.rowid_at 1, x.1.lower_bound 100)) =
      some (2, .LeafTableBTreePage, 2, 100, 97, 2) ∧
    (overlapped_leaf_db.insert 2 100 (text_row 3 99)).map
      (fun r => (r.1, overlapped_leaf_db.file 515, r.2.file 515)) =
      some (.CellInserted, 0, 6) := by
  decide!

/-- C5 (code behaviour at the failing input): in `first_page_root_db` the table
rooted at page 1 is an interior page with the one key 1, the left child 2 and
the right-most child 3; page 2 is a leaf whose only cell has the rowid 1 and
page 3 a leaf whose only cell has the rowid 2, and `find(2, 1, _)` and
`find(3, 2, _)` on the leaves alone return `CellFound`.  Yet `find(1, 1, _)`
and `find(1, 2, _)` return `CellNotFound`: the page object that held page 1
reads the leaf 2 with a header size of 108 and finds the rowid 0 in slot 0. -/
theorem find_misses_rowids_below_page_one :
    ((page_of first_page_root_db 1).header.page_type,
      (page_of first_page_root_db 1).header.num_of_cells,
      (page_of first_page_root_db 1).rowid_at 0,
      (page_of first_page_root_db 1).child_at 0,
      (page_of first_page_root_db 1).child_at 1) =
      (.InteriorTableBTreePage, 1, 1, 2, 3) ∧
    ((page_of first_page_root_db 2).header.page_type,
      (page_of first_page_root_db 2).header.num_of_cells,
      (page_of first_page_root_db 2).rowid_at 0,
      (page_of first_page_root_db 3).header.page_type,
      (page_of first_page_root_db 3).header.num_of_cells,
      (page_of first_page_root_db 3).rowid_at 0,
      first_page_root_db.find_code 30 2 1, first_page_root_db.find_code 30 3 2) =
      (.LeafTableBTreePage, 1, 1, .LeafTableBTreePage, 1, 2, some .CellFound,
        some .CellFound) ∧
    (first_page_root_db.find_code 30 1 1, first_page_root_db.find_code 30 1 2) =
      (some .CellNotFound, some .CellNotFound) ∧
    ((BTreePage.load first_page_root_db 1).bind fun root =>
      (root.recreate_page first_page_root_db 2).map fun pg =>
        (pg.get_header_size, pg.rowid_at 0)) = some (108, 0) := by
  decide!

/-- C6 (code behaviour at the failing input): on the empty table of
`empty_table_db` the calls `insert(2, 5, _)`, `insert(2, 7, _)` and
`insert(2, 2, _)` with records of 297, 297 and 198 bytes all return
`CellInserted`.  Afterwards the root page 2 is an interior page with the one
key 5, the left child 3 and the right-most child 4; page 3, the left subtree of
the key 5, is a leaf with two cells whose slot 0 has the rowid 2 and whose
slot 1 reads the rowid 99, which is neither below nor equal to the key. -/
theorem left_subtree_rowid_above_the_key :
    (insert_all 2 separated_rows empty_table_db).map (fun r => r.1) =
      some [.CellInserted, .CellInserted, .CellInserted] ∧
    ((page_of separated_rows_db 2).header.page_type,
      (page_of separated_rows_db 2).header.num_of_cells,
      (page_of separated_rows_db 2).rowid_at 0,
      (page_of separated_rows_db 2).child_at 0,
      (page_of separated_rows_db 2).child_at 1) =
      (.InteriorTableBTreePage, 1, 5, 3, 4) ∧
    ((page_of separated_rows_db 3).header.page_type,
      (page_of separated_rows_db 3).header.num_of_cells,
      (page_of separated_rows_db 3).rowid_at 0,
      (page_of separated_rows_db 3).rowid_at 1,
      decide ((page_of separated_rows_db 3).rowid_at 1 ≤ (page_of separated_rows_db 2).rowid_at 0),
      (page_of separated_rows_db 4).header.num_of_cells,
      (page_of separated_rows_db 4).rowid_at 0) =
      (.LeafTableBTreePage, 2, 2, 99, false, 1, 7) := by
  decide!

end SqlHard
